import Mathlib

/-!
# Beekeeper cluster model

A shallow embedding of `pkg/bee/cluster.go` (the cluster topology model) and of
`pkg/orchestration/notset/bee.go`, followed by theorems about the aggregation,
selection and address-derivation functions.

Conventions of the embedding

* A Go `map[string]V` is a `GoMap V`: the list of its entries.  For a map that
  is an input of a function, the order of the list is the order in which a
  `range` statement visits the entries; since Go leaves that order unspecified,
  theorems quantify over all lists.  For a map that a function builds itself and
  then ranges over, the visiting order is an explicit argument `ord`.
* A Go `(value, error)` result is an `Except GoError value`; a function that can
  also panic returns an `Outcome`.
* `context.Context` arguments are dropped: cancellation shows up as a failing
  query of a node group.
* `NodeGroup` is declared in another file of package `bee`.  The cluster code only
  calls its query methods, so a node group is the record of what those methods
  return.
-/

namespace Beekeeper

/-! ## Errors -/

/-- Go `error` values as far as the code can tell them apart: the sentinel
`ErrNotSet`, an error made by `errors.New` or by `fmt.Errorf` without `%w` (its
full text), an error made by `fmt.Errorf(pre + ": %w", inner)`, and an error
made by `fmt.Errorf(before + "%w", inner)`. -/
inductive GoError where
  | ErrNotSet : GoError
  | errorf (text : String) : GoError
  | wrap (pre : String) (inner : GoError) : GoError
  | wrapf (before : String) (inner : GoError) : GoError
  deriving DecidableEq, Repr

deriving instance DecidableEq for Except

/-- The result of a Go function that returns `(value, error)` and may panic. -/
inductive Outcome (α : Type) where
  | ok (v : α) : Outcome α
  | error (e : GoError) : Outcome α
  | panic : Outcome α
  deriving DecidableEq, Repr

/-! ## Maps -/

/-- A Go `map[string]V`, as the list of its entries. -/
abbrev GoMap (V : Type) := List (String × V)

/-- The keys of the map, in list order. -/
def mapKeys {V : Type} (m : GoMap V) : List String := m.map Prod.fst

/-- Go `_, found := m[k]`. -/
def mapFound {V : Type} (m : GoMap V) (k : String) : Bool := m.any (fun e => e.1 == k)

/-- Go `m[k]`, as an option (`none` when the key is absent). -/
def mapGet {V : Type} (m : GoMap V) (k : String) : Option V := List.lookup k m

/-- Go `m[k] = v`: replaces the entry of `k`, or adds a new entry. -/
def mapSet {V : Type} : GoMap V → String → V → GoMap V
  | [], k, v => [(k, v)]
  | (k', v') :: rest, k, v =>
    if k' = k then (k, v) :: rest else (k', v') :: mapSet rest k v

/-- Well-formedness of a Go map: no key occurs twice. -/
def MapWF {V : Type} (m : GoMap V) : Prop := (mapKeys m).Nodup

instance {V : Type} (m : GoMap V) : Decidable (MapWF m) := by unfold MapWF; infer_instance

/-- Go `containsName` (and `contains`): membership of a string in a slice. -/
def containsName : List String → String → Bool
  | [], _ => false
  | s :: rest, e => if s = e then true else containsName rest e

/-! ## Data model -/

/-- A `swarm.Address`: a byte string. -/
structure Address where
  bytes : List Nat
  deriving DecidableEq, Repr

/-- A `Node`, as far as the cluster code reads it: its name and the
`config.FullNode` flag. -/
structure Node where
  name : String
  fullNode : Bool := true
  deriving DecidableEq, Repr

/-- `NodeGroupOverlays`: node name to overlay address. -/
abbrev NodeGroupOverlays := GoMap Address

/-- `NodeGroupPeers`: node name to the overlays of its peers. -/
abbrev NodeGroupPeers := GoMap (List Address)

/-- A client handle (`*Client`) of a node's API; `id` tells the handles
apart. -/
structure Client where
  id : String
  deriving DecidableEq, Repr

/-- `NodeGroupOptions`, as far as the cluster code touches it: the annotation
and label maps. -/
structure NodeGroupOptions where
  Annotations : GoMap String := []
  Labels : GoMap String := []
  deriving DecidableEq, Repr

/-- The orchestration client of a node group: the Kubernetes client
(`k8sBee.NewClient`) or the not-set client (`notset.BeeClient`). -/
inductive OrchestrationClient where
  | kubernetes : OrchestrationClient
  | notset : OrchestrationClient
  deriving DecidableEq, Repr

/-- A node group, as the cluster code sees it: its name, options and
orchestration client, the nodes returned by `getNodes()` and the results of its
query methods.  The per-node payload types of addresses (`A`), balances (`B`),
settlements (`S`) and topologies (`T`) are declared in other files of the
package and are never inspected by the cluster. -/
structure NodeGroup (A B S T : Type) where
  name : String := ""
  opts : NodeGroupOptions := {}
  k8s : OrchestrationClient := .notset
  nodes : GoMap Node := []
  NodesClients : Except GoError (GoMap Client) := .ok []
  Addresses : Except GoError (GoMap A) := .ok []
  Balances : Except GoError (GoMap B) := .ok []
  Overlays : Except GoError NodeGroupOverlays := .ok []
  Peers : Except GoError NodeGroupPeers := .ok []
  Settlements : Except GoError (GoMap S) := .ok []
  Topologies : Except GoError (GoMap T) := .ok []
  GroupReplicationFactor : Address → Except GoError Int := fun _ => .ok 0
  StoppedNodes : List String × Option GoError := ([], none)

/-- The `Cluster` struct (`k8s` tells whether the Kubernetes client handle is
non-nil, the swap client handle is left out; `namespace_` is the field
`namespace`). -/
structure Cluster (A B S T : Type) where
  name : String := ""
  k8s : Bool := false
  annotations : GoMap String := []
  apiDomain : String := ""
  apiInsecureTLS : Bool := false
  apiScheme : String := ""
  debugAPIDomain : String := ""
  debugAPIInsecureTLS : Bool := false
  debugAPIScheme : String := ""
  labels : GoMap String := []
  namespace_ : String := ""
  disableNamespace : Bool := false
  nodeGroups : GoMap (NodeGroup A B S T) := []

variable {A B S T : Type}

/-- `Cluster.NodeGroups`. -/
def Cluster.NodeGroups (c : Cluster A B S T) : GoMap (NodeGroup A B S T) :=
  c.nodeGroups

/-- `NodeGroup.getNodes`. -/
def NodeGroup.getNodes (g : NodeGroup A B S T) : GoMap Node := g.nodes

/-! ## Per-group queries -/

/-- The loop shared by `Addresses`, `Balances`, `Overlays`, `Peers`,
`Settlements` and `Topologies`: visit the groups, skip an excluded one, return
`nil` and the wrapped error at the first failing query, otherwise store the
result under the group name. -/
def queryGroups {G R : Type} (query : G → Except GoError R) (exclude : List String) :
    GoMap G → GoMap R → Except GoError (GoMap R)
  | [], acc => .ok acc
  | (k, v) :: rest, acc =>
    if containsName exclude k then queryGroups query exclude rest acc
    else
      match query v with
      | .error err => .error (.wrap k err)
      | .ok a => queryGroups query exclude rest (mapSet acc k a)

/-- `Cluster.Addresses`. -/
def Cluster.Addresses (c : Cluster A B S T) : Except GoError (GoMap (GoMap A)) :=
  queryGroups (fun v => v.Addresses) [] c.nodeGroups []

/-- `Cluster.Balances`. -/
def Cluster.Balances (c : Cluster A B S T) : Except GoError (GoMap (GoMap B)) :=
  queryGroups (fun v => v.Balances) [] c.nodeGroups []

/-- `Cluster.Overlays`. -/
def Cluster.Overlays (c : Cluster A B S T) (exclude : List String) :
    Except GoError (GoMap NodeGroupOverlays) :=
  queryGroups (fun v => v.Overlays) exclude c.nodeGroups []

/-- `Cluster.Peers`. -/
def Cluster.Peers (c : Cluster A B S T) (exclude : List String) :
    Except GoError (GoMap NodeGroupPeers) :=
  queryGroups (fun v => v.Peers) exclude c.nodeGroups []

/-- `Cluster.Settlements`. -/
def Cluster.Settlements (c : Cluster A B S T) : Except GoError (GoMap (GoMap S)) :=
  queryGroups (fun v => v.Settlements) [] c.nodeGroups []

/-- `Cluster.Topologies`. -/
def Cluster.Topologies (c : Cluster A B S T) : Except GoError (GoMap (GoMap T)) :=
  queryGroups (fun v => v.Topologies) [] c.nodeGroups []

/-! ## Flattening -/

/-- The inner loop of the `Flatten*` functions: add the entries of one group to
`res`, failing at the first name that `res` already holds. -/
def flattenGroup {V : Type} : GoMap V → GoMap V → Except GoError (GoMap V)
  | [], res => .ok res
  | (n, over) :: rest, res =>
    if mapFound res n then .error (.errorf ("key " ++ n ++ " already present"))
    else flattenGroup rest (mapSet res n over)

/-- The outer loop of the `Flatten*` functions, over the groups in visiting
order, skipping excluded group names. -/
def flattenGroups {V : Type} (exclude : List String) :
    GoMap (GoMap V) → GoMap V → Except GoError (GoMap V)
  | [], res => .ok res
  | (ngn, ngo) :: rest, res =>
    if containsName exclude ngn then flattenGroups exclude rest res
    else
      match flattenGroup ngo res with
      | .error err => .error err
      | .ok res' => flattenGroups exclude rest res'

/-- `Cluster.FlattenOverlays`.  It calls `Overlays` without exclusions and
applies `exclude` while flattening; `ord` is the order in which the map
returned by `Overlays` is visited. -/
def Cluster.FlattenOverlays (c : Cluster A B S T)
    (ord : GoMap NodeGroupOverlays → GoMap NodeGroupOverlays) (exclude : List String) :
    Except GoError (GoMap Address) :=
  match c.Overlays [] with
  | .error err => .error err
  | .ok o => flattenGroups exclude (ord o) []

/-- `Cluster.FlattenBalances`; `ord` is the order in which the map returned by
`Balances` is visited. -/
def Cluster.FlattenBalances (c : Cluster A B S T)
    (ord : GoMap (GoMap B) → GoMap (GoMap B)) : Except GoError (GoMap B) :=
  match c.Balances with
  | .error err => .error err
  | .ok b => flattenGroups [] (ord b) []

/-- `Cluster.FlattenSettlements`; `ord` is the order in which the map returned
by `Settlements` is visited. -/
def Cluster.FlattenSettlements (c : Cluster A B S T)
    (ord : GoMap (GoMap S) → GoMap (GoMap S)) : Except GoError (GoMap S) :=
  match c.Settlements with
  | .error err => .error err
  | .ok s => flattenGroups [] (ord s) []

/-- `Cluster.FlattenTopologies`; `ord` is the order in which the map returned
by `Topologies` is visited. -/
def Cluster.FlattenTopologies (c : Cluster A B S T)
    (ord : GoMap (GoMap T) → GoMap (GoMap T)) : Except GoError (GoMap T) :=
  match c.Topologies with
  | .error err => .error err
  | .ok t => flattenGroups [] (ord t) []

/-- A visiting order for `range`: every map is visited entry by entry, each
entry once. -/
def IsRangeOrder {V : Type} (ord : GoMap V → GoMap V) : Prop :=
  ∀ m, (ord m).Perm m

/-! ## Nodes and replication factor -/

/-- `Cluster.Nodes`: every entry of every group's node map is stored under its
key, a later entry replacing an earlier one of the same key. -/
def Cluster.Nodes (c : Cluster A B S T) : GoMap Node :=
  c.NodeGroups.foldl
    (fun n ng => ng.2.getNodes.foldl (fun n kv => mapSet n kv.1 kv.2) n) []

/-- A Go `int` (64 bit): the value of `x` after wrap-around. -/
def wrapInt (x : Int) : Int := (x + 2 ^ 63) % 2 ^ 64 - 2 ^ 63

/-- The loop of `GlobalReplicationFactor`, with `grf` the running total. -/
def replicationLoop (a : Address) :
    GoMap (NodeGroup A B S T) → Int → Except GoError Int
  | [], grf => .ok grf
  | (k, v) :: rest, grf =>
    match v.GroupReplicationFactor a with
    | .error err => .error (.wrap k err)
    | .ok ngrf => replicationLoop a rest (wrapInt (grf + ngrf))

/-- `Cluster.GlobalReplicationFactor`. -/
def Cluster.GlobalReplicationFactor (c : Cluster A B S T) (a : Address) :
    Except GoError Int :=
  replicationLoop a c.nodeGroups 0

/-! ## Random selection -/

/-- A `*rand.Rand`.  `gen h n` is what `Intn(n)` returns after the earlier calls
`Intn(h₀)`, `Intn(h₁)`, ...; `hist` lists the arguments of the calls made so
far.  `gen_lt` is the contract of `Intn`: the result lies in `[0, n)`. -/
structure Rand where
  gen : List Nat → Nat → Nat
  hist : List Nat := []
  gen_lt : ∀ h n, 0 < n → gen h n < n

/-- `Rand.Intn`: the drawn value and the advanced generator; `none` is the
panic of `Intn` for an argument that is not positive. -/
def Rand.Intn (r : Rand) (n : Nat) : Option (Nat × Rand) :=
  if 0 < n then some (r.gen r.hist n, { r with hist := r.hist ++ [n] }) else none

/-- Go `contains` of package `bee`, declared in another file of the package: slice
membership, as `containsName`. -/
def contains (list : List String) (find : String) : Bool := containsName list find

/-- The inner loop of `RandomNode`: append the nodes of one group whose name is
not in `stopped`. -/
def appendRunning (stopped : List String) : GoMap Node → List Node → List Node
  | [], nodes => nodes
  | (_, v) :: rest, nodes =>
    if contains stopped v.name then appendRunning stopped rest nodes
    else appendRunning stopped rest (nodes ++ [v])

/-- The outer loop of `RandomNode`: the pool of candidate nodes, or the error
of the first group whose stopped-nodes query fails with an error other than
`ErrNotSet`. -/
def randomNodePool : GoMap (NodeGroup A B S T) → List Node → Except GoError (List Node)
  | [], nodes => .ok nodes
  | (_, ng) :: rest, nodes =>
    match ng.StoppedNodes with
    | (stopped, some err) =>
      if err ≠ GoError.ErrNotSet then .error (.wrap "stopped nodes" err)
      else randomNodePool rest (appendRunning stopped ng.getNodes nodes)
    | (stopped, none) => randomNodePool rest (appendRunning stopped ng.getNodes nodes)

/-- `Cluster.RandomNode`: the selected node and the advanced generator. -/
def Cluster.RandomNode (c : Cluster A B S T) (r : Rand) : Outcome (Node × Rand) :=
  match randomNodePool c.NodeGroups [] with
  | .error err => .error err
  | .ok nodes =>
    match r.Intn nodes.length with
    | none => .panic
    | some (i, r') =>
      match nodes[i]? with
      | none => .panic
      | some node => .ok (node, r')

/-- `ClusterOverlays`: group name to the overlays of the group. -/
abbrev ClusterOverlays := GoMap NodeGroupOverlays

/-- The selection loops of `ClusterOverlays.Random`: the entry reached when the
counter `i` is zero; the zero values when the loop ends without reaching it. -/
def rangePick {V : Type} (zero : V) : GoMap V → Nat → String × V
  | [], _ => ("", zero)
  | (n, v) :: rest, i => if i = 0 then (n, v) else rangePick zero rest (i - 1)

/-- `ClusterOverlays.Random`: group name, node name, overlay and the advanced
generator; `none` is a panic of `Intn`. -/
def ClusterOverlays.Random (c : ClusterOverlays) (r : Rand) :
    Option (String × String × Address × Rand) :=
  match r.Intn c.length with
  | none => none
  | some (i, r₁) =>
    let (ng, ngo) := rangePick ([] : NodeGroupOverlays) c i
    match r₁.Intn ngo.length with
    | none => none
    | some (j, r₂) =>
      let (name, o) := rangePick (Address.mk []) ngo j
      some (ng, name, o, r₂)

/-! ## The not-set orchestration client -/

/-- `notset.BeeClient.Create`. -/
def notsetCreate : Option GoError := some .ErrNotSet

/-- `notset.BeeClient.Delete`. -/
def notsetDelete (_name _ns : String) : Option GoError := some .ErrNotSet

/-- `notset.BeeClient.Ready`. -/
def notsetReady (_name _ns : String) : Bool × Option GoError := (false, some .ErrNotSet)

/-- `notset.BeeClient.RunningNodes`. -/
def notsetRunningNodes (_ns : String) : List String × Option GoError :=
  ([], some .ErrNotSet)

/-- `notset.BeeClient.Start`. -/
def notsetStart (_name _ns : String) : Option GoError := some .ErrNotSet

/-- `notset.BeeClient.Stop`. -/
def notsetStop (_name _ns : String) : Option GoError := some .ErrNotSet

/-- `notset.BeeClient.StoppedNodes`. -/
def notsetStoppedNodes (_ns : String) : List String × Option GoError :=
  ([], some .ErrNotSet)

/-! ## Address derivation -/

/-- `Cluster.apiURL`; `parse` is `url.Parse`. -/
def Cluster.apiURL {U : Type} (parse : String → Except GoError U)
    (c : Cluster A B S T) (name : String) : Except GoError U :=
  let res :=
    if c.disableNamespace then
      parse (c.apiScheme ++ "://" ++ name ++ "." ++ c.apiDomain)
    else
      parse (c.apiScheme ++ "://" ++ name ++ "." ++ c.namespace_ ++ "." ++ c.apiDomain)
  match res with
  | .error err => .error (.wrap ("bad API url for node " ++ name) err)
  | .ok u => .ok u

/-- `Cluster.ingressHost`. -/
def Cluster.ingressHost (c : Cluster A B S T) (name : String) : String :=
  if c.disableNamespace then name ++ "." ++ c.apiDomain
  else name ++ "." ++ c.namespace_ ++ "." ++ c.apiDomain

/-- `Cluster.debugAPIURL`; `parse` is `url.Parse`. -/
def Cluster.debugAPIURL {U : Type} (parse : String → Except GoError U)
    (c : Cluster A B S T) (name : String) : Except GoError U :=
  let res :=
    if c.disableNamespace then
      parse (c.debugAPIScheme ++ "://" ++ name ++ "-debug." ++ c.debugAPIDomain)
    else
      parse (c.debugAPIScheme ++ "://" ++ name ++ "-debug." ++ c.namespace_ ++ "." ++
        c.debugAPIDomain)
  match res with
  | .error err => .error (.wrap ("bad debug API url for node " ++ name) err)
  | .ok u => .ok u

/-- `Cluster.ingressDebugHost`. -/
def Cluster.ingressDebugHost (c : Cluster A B S T) (name : String) : String :=
  if c.disableNamespace then name ++ "-debug." ++ c.debugAPIDomain
  else name ++ "-debug." ++ c.namespace_ ++ "." ++ c.debugAPIDomain

/-! ## Registering node groups -/

/-- `mergeMaps`: a new map with the entries of `a`, then those of `b`. -/
def mergeMaps (a b : GoMap String) : GoMap String :=
  let m := a.foldl (fun m kv => mapSet m kv.1 kv.2) []
  b.foldl (fun m kv => mapSet m kv.1 kv.2) m

/-- `Cluster.AddNodeGroup`; `NewNodeGroup` is the constructor of node groups,
declared in another file of the package.  The back pointer `g.cluster` is not
represented. -/
def Cluster.AddNodeGroup (NewNodeGroup : String → NodeGroupOptions → NodeGroup A B S T)
    (c : Cluster A B S T) (name : String) (o : NodeGroupOptions) : Cluster A B S T :=
  let g := NewNodeGroup name o
  let g := { g with k8s := if c.k8s then .kubernetes else .notset }
  let g := { g with opts := { g.opts with Annotations := mergeMaps c.annotations o.Annotations } }
  let g := { g with opts := { g.opts with Labels := mergeMaps c.labels o.Labels } }
  { c with nodeGroups := mapSet c.nodeGroups name g }

/-- Go `sort.Strings`: ascending order of strings, embedded as insertion
sort. -/
def sortStrings (l : List String) : List String := List.insertionSort (· ≤ ·) l

/-- The filling loop of `NodeGroupsSorted`: `l[i] = k; i++` for every visited
key. -/
def fillNames {G : Type} : GoMap G → List String → Nat → List String
  | [], l, _ => l
  | (k, _) :: rest, l, i => fillNames rest (l.set i k) (i + 1)

/-- `Cluster.NodeGroupsSorted`. -/
def Cluster.NodeGroupsSorted (c : Cluster A B S T) : List String :=
  let l := List.replicate c.nodeGroups.length ""
  sortStrings (fillNames c.nodeGroups l 0)

/-- `Cluster.NodeGroup`. -/
def Cluster.NodeGroup (c : Cluster A B S T) (name : String) :
    Except GoError (NodeGroup A B S T) :=
  match mapGet c.nodeGroups name with
  | none => .error (.errorf ("node group " ++ name ++ " not found"))
  | some ng => .ok ng

/-! ## Node names and node clients -/

/-- `Cluster.NodeNames`: the node names of all groups, in visiting order. -/
def Cluster.NodeNames (c : Cluster A B S T) : List String :=
  c.NodeGroups.foldl
    (fun names ng => ng.2.getNodes.foldl (fun names kv => names ++ [kv.1]) names) []

/-- The loop of `Cluster.NodesClients`, from the map `clients` built so far. -/
def nodesClientsLoop :
    GoMap (NodeGroup A B S T) → GoMap Client → Except GoError (GoMap Client)
  | [], clients => .ok clients
  | (_, ng) :: rest, clients =>
    match ng.NodesClients with
    | .error err => .error (.wrap "nodes clients" err)
    | .ok ngc => nodesClientsLoop rest (ngc.foldl (fun m kv => mapSet m kv.1 kv.2) clients)

/-- `Cluster.NodesClients`. -/
def Cluster.NodesClients (c : Cluster A B S T) : Except GoError (GoMap Client) :=
  nodesClientsLoop c.NodeGroups []

/-! ## The verification engine: data -/

/-- A byte string. -/
abbrev Bytes := List Nat

/-- A `bee.File`: its name, size and content. -/
structure File where
  name : String
  size : Int
  data : Bytes
  deriving DecidableEq, Repr

/-- A `swarm.Chunk`: its data and address. -/
structure Chunk where
  data : Bytes
  address : Address
  deriving DecidableEq, Repr

/-- The operations of a node client that the checks call, with their
arguments. -/
inductive Op where
  | CreatePostageBatch (amount : Int) (depth : Nat) (gasPrice label : String) : Op
  | UploadFile (file : File) (batchID : String) : Op
  | DownloadFile (address : Address) : Op
  | GetOrCreateBatch (amount : Int) (depth : Nat) (gasPrice label : String) : Op
  | CreateTag : Op
  | UploadChunk (data : Bytes) (batchID : String) (tag : Nat) : Op
  | WaitSync (tag : Nat) : Op
  | DownloadChunk (address : Address) : Op
  deriving DecidableEq, Repr

/-- The counters of the checks. -/
inductive Counter where
  | uploaded | notUploaded | downloaded | notDownloaded
  | retrieved | notRetrieved | synced | notSynced
  deriving DecidableEq, Repr

/-- What a run does that can be observed from outside: a call of a node
client, the increment of a counter under a label, a metrics push with its
result.  Gauges and histograms carry durations and are not represented, nor
are sleeps and printed lines. -/
inductive Event where
  | call (client : Client) (op : Op) : Event
  | inc (counter : Counter) (label : Address) : Event
  | push (result : Option GoError) : Event
  deriving DecidableEq, Repr

/-- The answers of the nodes.  The first argument of every field is the number
of client calls made before in the run, so that an answer may change from call
to call. -/
structure NodeAPI where
  CreatePostageBatch : Nat → Client → Int → Nat → String → String → Except GoError String
  UploadFile : Nat → Client → File → String → Except GoError Address
  DownloadFile : Nat → Client → Address → Except GoError (Int × Bytes)
  GetOrCreateBatch : Nat → Client → Int → Nat → String → String → Except GoError String
  CreateTag : Nat → Client → Except GoError Nat
  UploadChunk : Nat → Client → Bytes → String → Nat → Except GoError Address
  WaitSync : Nat → Client → Nat → Option GoError
  DownloadChunk : Nat → Client → Address → Except GoError Bytes

/-- The collaborators of the checks that are declared outside `pkg/check` and
`pkg/simulate`: the node API, the generator streams
(`random.PseudoGenerators`), the content generators (`bee.NewRandomFile`,
`bee.NewRandomChunk`, each returning the advanced generator),
`bee.EstimatePostageBatchDepth`, the hash of a file (`File.Hash`) and the
result of the `k`-th metrics push. -/
structure Env where
  api : NodeAPI
  PseudoGenerators : Int → Nat → List Rand
  NewRandomFile : Rand → String → Int → File × Rand
  NewRandomChunk : Rand → Except GoError Chunk × Rand
  EstimatePostageBatchDepth : Int → Nat
  fileHash : File → Bytes
  Push : Nat → Option GoError

/-- The state of a run: the events so far, the number of client calls and of
pushes so far, and the generators `rnds`. -/
structure RunState where
  trace : List Event := []
  calls : Nat := 0
  pushes : Nat := 0
  rnds : List Rand := []

/-- How a loop body ends: go on with the next iteration, return an error, or
panic. -/
inductive Step where
  | next : Step
  | stop (err : GoError) : Step
  | panic : Step
  deriving DecidableEq, Repr

/-- Record a call of a node client. -/
def RunState.call (st : RunState) (client : Client) (op : Op) : RunState :=
  { st with trace := st.trace ++ [.call client op], calls := st.calls + 1 }

/-- Record the increment of a counter. -/
def RunState.inc (st : RunState) (counter : Counter) (label : Address) : RunState :=
  { st with trace := st.trace ++ [.inc counter label] }

/-- `if o.MetricsPusher != nil { if err := o.MetricsPusher.Push(); err != nil
{ print } }`: the push and its result are recorded, nothing else happens. -/
def RunState.pushMetrics (st : RunState) (env : Env) (pusher : Bool) : RunState :=
  if pusher then
    { st with trace := st.trace ++ [.push (env.Push st.pushes)], pushes := st.pushes + 1 }
  else st

/-- `overlays[name]`: the overlay of the node, the zero address when the name
has no entry. -/
def overlayLabel (overlays : GoMap Address) (name : String) : Address :=
  (mapGet overlays name).getD (Address.mk [])

/-- A counting loop `for i := 0; i < n; i++`, over the index values `is`. -/
def forRange (body : Nat → RunState → Step × RunState) :
    List Nat → RunState → Step × RunState
  | [], st => (.next, st)
  | i :: rest, st =>
    match body i st with
    | (.next, st') => forRange body rest st'
    | (.stop err, st') => (.stop err, st')
    | (.panic, st') => (.panic, st')

/-- The result of a check from the way its loops end. -/
def finishRun (r : Step × RunState) : Outcome Unit × RunState :=
  match r with
  | (.next, st) => (.ok (), st)
  | (.stop err, st) => (.error err, st)
  | (.panic, st) => (.panic, st)

/-- `errFileRetrieval`. -/
def errFileRetrieval : GoError := .errorf "file retrieval"

/-! ## The file-retrieval check -/

/-- `fileretrieval.Options` (the durations `PostageWait` are not represented;
`MetricsPusher` tells whether the pusher is non-nil).  The default values are
those of `NewDefaultOptions`. -/
structure CheckOptions where
  FileName : String := "file-retrieval"
  FileSize : Int := 1048576
  FilesPerNode : Nat := 1
  Full : Bool := false
  GasPrice : String := ""
  MetricsPusher : Bool := false
  PostageAmount : Int := 1
  PostageLabel : String := "test-label"
  Seed : Int := 0
  UploadNodeCount : Nat := 1

/-- The name of the `j`-th file of the `i`-th upload node,
`fmt.Sprintf("%s-%d-%d", o.FileName, i, j)`. -/
def fileName (o : CheckOptions) (i j : Nat) : String :=
  o.FileName ++ "-" ++ toString i ++ "-" ++ toString j

/-- The body of the inner loop of `defaultCheck`: one file of the upload node
`nodeName`, downloaded from `lastNodeName`.  A call through a client that the
map does not hold (a nil `*Client`) panics, as does `rnds[i]` out of range. -/
def defaultUnit (env : Env) (o : CheckOptions) (clients : GoMap Client)
    (overlays : GoMap Address) (nodeName lastNodeName : String) (i j : Nat)
    (st : RunState) : Step × RunState :=
  match st.rnds[i]? with
  | none => (.panic, st)
  | some r =>
    let file := (env.NewRandomFile r (fileName o i j) o.FileSize).1
    let st := { st with rnds := st.rnds.set i (env.NewRandomFile r (fileName o i j) o.FileSize).2 }
    let depth := 2 + env.EstimatePostageBatchDepth file.size
    match mapGet clients nodeName with
    | none => (.panic, st)
    | some client =>
      match env.api.CreatePostageBatch st.calls client o.PostageAmount depth o.GasPrice
          o.PostageLabel with
      | .error err =>
        (.stop (.wrapf ("node " ++ nodeName ++ ": created batched id ") err),
          st.call client (.CreatePostageBatch o.PostageAmount depth o.GasPrice o.PostageLabel))
      | .ok batchID =>
        let st₁ :=
          st.call client (.CreatePostageBatch o.PostageAmount depth o.GasPrice o.PostageLabel)
        match env.api.UploadFile st₁.calls client file batchID with
        | .error err =>
          (.stop (.wrap ("node " ++ nodeName) err), st₁.call client (.UploadFile file batchID))
        | .ok address =>
          let st₂ := (st₁.call client (.UploadFile file batchID)).inc .uploaded
            (overlayLabel overlays nodeName)
          match mapGet clients lastNodeName with
          | none => (.panic, st₂)
          | some last =>
            match env.api.DownloadFile st₂.calls last address with
            | .error err =>
              (.stop (.wrap ("node " ++ lastNodeName) err),
                st₂.call last (.DownloadFile address))
            | .ok sizeHash =>
              let st₃ := (st₂.call last (.DownloadFile address)).inc .downloaded
                (overlayLabel overlays nodeName)
              if env.fileHash file ≠ sizeHash.2 then
                (.stop errFileRetrieval,
                  st₃.inc .notRetrieved (overlayLabel overlays nodeName))
              else
                (.next, (st₃.inc .retrieved (overlayLabel overlays nodeName)).pushMetrics env
                  o.MetricsPusher)

/-- The loops of `defaultCheck` over the upload nodes and their files. -/
def defaultLoops (env : Env) (o : CheckOptions) (clients : GoMap Client)
    (overlays : GoMap Address) (sortedNodes : List String) (lastNodeName : String)
    (st : RunState) : Step × RunState :=
  forRange (fun i st =>
    match sortedNodes[i]? with
    | none => (.panic, st)
    | some nodeName =>
      forRange (fun j st => defaultUnit env o clients overlays nodeName lastNodeName i j st)
        (List.range o.FilesPerNode) st)
    (List.range o.UploadNodeCount) st

/-- `defaultCheck`; `ord` is the visiting order inside `FlattenOverlays`. -/
def defaultCheck (env : Env) (c : Cluster A B S T)
    (ord : GoMap NodeGroupOverlays → GoMap NodeGroupOverlays) (o : CheckOptions) :
    Outcome Unit × RunState :=
  let st₀ : RunState := { rnds := env.PseudoGenerators o.Seed o.UploadNodeCount }
  match c.FlattenOverlays ord [] with
  | .error err => (.error err, st₀)
  | .ok overlays =>
    match c.NodesClients with
    | .error err => (.error err, st₀)
    | .ok clients =>
      match c.NodeNames.getLast? with
      | none => (.panic, st₀)
      | some lastNodeName =>
        finishRun (defaultLoops env o clients overlays c.NodeNames lastNodeName st₀)

/-- The download loop of `fullCheck`, over the entries of `clients` in
visiting order. -/
def fullDownloads (env : Env) (o : CheckOptions) (overlays : GoMap Address)
    (nodeName : String) (file : File) (address : Address) :
    GoMap Client → RunState → Step × RunState
  | [], st => (.next, st)
  | (n, nc) :: rest, st =>
    if n = nodeName then fullDownloads env o overlays nodeName file address rest st
    else
      match env.api.DownloadFile st.calls nc address with
      | .error err => (.stop (.wrap ("node " ++ n) err), st.call nc (.DownloadFile address))
      | .ok sizeHash =>
        let st₁ := (st.call nc (.DownloadFile address)).inc .downloaded
          (overlayLabel overlays nodeName)
        if env.fileHash file ≠ sizeHash.2 then
          (.stop errFileRetrieval, st₁.inc .notRetrieved (overlayLabel overlays nodeName))
        else
          fullDownloads env o overlays nodeName file address rest
            ((st₁.inc .retrieved (overlayLabel overlays nodeName)).pushMetrics env
              o.MetricsPusher)

/-- The body of the inner loop of `fullCheck`; `visit` is the order in which
`range clients` visits the client map for this file. -/
def fullUnit (env : Env) (o : CheckOptions) (clients : GoMap Client)
    (overlays : GoMap Address) (visit : GoMap Client → GoMap Client) (nodeName : String)
    (i j : Nat) (st : RunState) : Step × RunState :=
  match st.rnds[i]? with
  | none => (.panic, st)
  | some r =>
    let file := (env.NewRandomFile r (fileName o i j) o.FileSize).1
    let st := { st with rnds := st.rnds.set i (env.NewRandomFile r (fileName o i j) o.FileSize).2 }
    let depth := 2 + env.EstimatePostageBatchDepth file.size
    match mapGet clients nodeName with
    | none => (.panic, st)
    | some client =>
      match env.api.CreatePostageBatch st.calls client o.PostageAmount depth o.GasPrice
          o.PostageLabel with
      | .error err =>
        (.stop (.wrapf ("node " ++ nodeName ++ ": created batched id ") err),
          st.call client (.CreatePostageBatch o.PostageAmount depth o.GasPrice o.PostageLabel))
      | .ok batchID =>
        let st₁ :=
          st.call client (.CreatePostageBatch o.PostageAmount depth o.GasPrice o.PostageLabel)
        match env.api.UploadFile st₁.calls client file batchID with
        | .error err =>
          (.stop (.wrap ("node " ++ nodeName) err), st₁.call client (.UploadFile file batchID))
        | .ok address =>
          fullDownloads env o overlays nodeName file address (visit clients)
            ((st₁.call client (.UploadFile file batchID)).inc .uploaded
              (overlayLabel overlays nodeName))

/-- The loops of `fullCheck`; `visit i j` is the visiting order of the client
map for the `j`-th file of the `i`-th upload node. -/
def fullLoops (env : Env) (o : CheckOptions) (clients : GoMap Client)
    (overlays : GoMap Address) (visit : Nat → Nat → GoMap Client → GoMap Client)
    (sortedNodes : List String) (st : RunState) : Step × RunState :=
  forRange (fun i st =>
    match sortedNodes[i]? with
    | none => (.panic, st)
    | some nodeName =>
      forRange (fun j st => fullUnit env o clients overlays (visit i j) nodeName i j st)
        (List.range o.FilesPerNode) st)
    (List.range o.UploadNodeCount) st

/-- `fullCheck`. -/
def fullCheck (env : Env) (c : Cluster A B S T)
    (ord : GoMap NodeGroupOverlays → GoMap NodeGroupOverlays)
    (visit : Nat → Nat → GoMap Client → GoMap Client) (o : CheckOptions) :
    Outcome Unit × RunState :=
  let st₀ : RunState := { rnds := env.PseudoGenerators o.Seed o.UploadNodeCount }
  match c.FlattenOverlays ord [] with
  | .error err => (.error err, st₀)
  | .ok overlays =>
    match c.NodesClients with
    | .error err => (.error err, st₀)
    | .ok clients => finishRun (fullLoops env o clients overlays visit c.NodeNames st₀)

/-- `Check.Run`, for options of the right type. -/
def Check.Run (env : Env) (c : Cluster A B S T)
    (ord : GoMap NodeGroupOverlays → GoMap NodeGroupOverlays)
    (visit : Nat → Nat → GoMap Client → GoMap Client) (o : CheckOptions) :
    Outcome Unit × RunState :=
  if o.Full then fullCheck env c ord visit o else defaultCheck env c ord o

/-! ## The retrieval simulation -/

/-- `retrieval.Options` of the simulation (the durations `PostageWait` and
`UploadDelay` are not represented; `MetricsPusher` tells whether the pusher is
non-nil). -/
structure SimOptions where
  ChunksPerNode : Nat := 1
  GasPrice : String := ""
  MetricsPusher : Bool := false
  PostageAmount : Int := 1000
  PostageDepth : Nat := 16
  PostageLabel : String := "test-label"
  Seed : Int := 0
  UploadNodeCount : Nat := 1

/-- A `context.Context` as the simulation sees it: `doneAt k` tells whether, at
the wait after sweep `k`, `ctx.Done()` wins the `select` against the upload
delay; `err` is `ctx.Err()` then. -/
structure Context where
  doneAt : Nat → Bool
  err : GoError

/-- The body of the inner loop of `Simulation.Run`: one chunk of the upload
node `nodeName`, whose client is `client` and whose batch is `batchID`. -/
def simChunk (env : Env) (o : SimOptions) (clients : GoMap Client) (overlays : GoMap Address)
    (sortedNodes : List String) (nodeName : String) (client : Client) (batchID : String)
    (i : Nat) (st : RunState) : Step × RunState :=
  match st.rnds[i]? with
  | none => (.panic, st)
  | some r =>
    let st := { st with rnds := st.rnds.set i (env.NewRandomChunk r).2 }
    match (env.NewRandomChunk r).1 with
    | .error _ => (.next, st)
    | .ok chunk =>
      match env.api.CreateTag st.calls client with
      | .error err =>
        (.stop (.wrap ("create tag on node " ++ nodeName) err), st.call client .CreateTag)
      | .ok tag =>
        let st₁ := st.call client .CreateTag
        match env.api.UploadChunk st₁.calls client chunk.data batchID tag with
        | .error _ =>
          (.next, (((st₁.call client (.UploadChunk chunk.data batchID tag)).inc .notUploaded
            (overlayLabel overlays nodeName)).pushMetrics env o.MetricsPusher))
        | .ok ref =>
          let st₂ := (st₁.call client (.UploadChunk chunk.data batchID tag)).inc .uploaded
            (overlayLabel overlays nodeName)
          match env.api.WaitSync st₂.calls client tag with
          | some _ =>
            (.next, (((st₂.call client (.WaitSync tag)).inc .notSynced
              (overlayLabel overlays nodeName)).pushMetrics env o.MetricsPusher))
          | none =>
            let st₃ := (st₂.call client (.WaitSync tag)).inc .synced
              (overlayLabel overlays nodeName)
            match st₃.rnds[i]? with
            | none => (.panic, st₃)
            | some r₁ =>
              match r₁.Intn sortedNodes.length with
              | none => (.panic, st₃)
              | some draw =>
                let st₄ := { st₃ with rnds := st₃.rnds.set i draw.2 }
                match sortedNodes[draw.1]? with
                | none => (.panic, st₄)
                | some downloadNode =>
                  match mapGet clients downloadNode with
                  | none => (.panic, st₄)
                  | some dl =>
                    match env.api.DownloadChunk st₄.calls dl ref with
                    | .error _ =>
                      (.next, (((st₄.call dl (.DownloadChunk ref)).inc .notDownloaded
                        (overlayLabel overlays downloadNode)).pushMetrics env
                          o.MetricsPusher))
                    | .ok data =>
                      let st₅ := (st₄.call dl (.DownloadChunk ref)).inc .downloaded
                        (overlayLabel overlays downloadNode)
                      if chunk.data ≠ data then
                        (.next, ((st₅.inc .notRetrieved
                          (overlayLabel overlays downloadNode)).pushMetrics env
                            o.MetricsPusher))
                      else
                        (.next, ((st₅.inc .retrieved
                          (overlayLabel overlays downloadNode)).pushMetrics env
                            o.MetricsPusher))

/-- The body of the outer loop of `Simulation.Run`: the `i`-th upload node. -/
def simNode (env : Env) (o : SimOptions) (clients : GoMap Client) (overlays : GoMap Address)
    (sortedNodes : List String) (i : Nat) (st : RunState) : Step × RunState :=
  match sortedNodes[i]? with
  | none => (.panic, st)
  | some nodeName =>
    match mapGet clients nodeName with
    | none => (.panic, st)
    | some client =>
      match env.api.GetOrCreateBatch st.calls client o.PostageAmount o.PostageDepth o.GasPrice
          o.PostageLabel with
      | .error _ =>
        (.next, st.call client
          (.GetOrCreateBatch o.PostageAmount o.PostageDepth o.GasPrice o.PostageLabel))
      | .ok batchID =>
        forRange (fun _ st =>
            simChunk env o clients overlays sortedNodes nodeName client batchID i st)
          (List.range o.ChunksPerNode)
          (st.call client
            (.GetOrCreateBatch o.PostageAmount o.PostageDepth o.GasPrice o.PostageLabel))

/-- One sweep of the simulation over the upload nodes. -/
def simSweep (env : Env) (o : SimOptions) (clients : GoMap Client) (overlays : GoMap Address)
    (sortedNodes : List String) (st : RunState) : Step × RunState :=
  forRange (simNode env o clients overlays sortedNodes) (List.range o.UploadNodeCount) st

/-- The endless loop of `Simulation.Run`, from sweep `k` on: the sweep number
`k`, then the wait.  `fuel` bounds the number of sweeps looked at; `none` means
that the loop is still running after them. -/
def simLoop (sweep : Nat → RunState → Step × RunState) (ctx : Context) :
    Nat → Nat → RunState → Option (Outcome Unit × RunState)
  | 0, _, _ => none
  | fuel + 1, k, st =>
    match sweep k st with
    | (.next, st') =>
      if ctx.doneAt k then some (.error ctx.err, st')
      else simLoop sweep ctx fuel (k + 1) st'
    | (.stop err, st') => some (.error err, st')
    | (.panic, st') => some (.panic, st')

/-- `Simulation.Run`, for options of the right type.  `cluster.NodeNames()` is
called anew in every sweep: `nodeOrder k` rearranges `c.NodeNames` into the
order in which the ranges over the group map and the node maps visit the names
in sweep `k`. -/
def Simulation.Run (env : Env) (c : Cluster A B S T)
    (ord : GoMap NodeGroupOverlays → GoMap NodeGroupOverlays)
    (nodeOrder : Nat → List String → List String) (o : SimOptions)
    (ctx : Context) (fuel : Nat) : Option (Outcome Unit × RunState) :=
  let st₀ : RunState := { rnds := env.PseudoGenerators o.Seed o.UploadNodeCount }
  match c.FlattenOverlays ord [] with
  | .error err => some (.error err, st₀)
  | .ok overlays =>
    match c.NodesClients with
    | .error err => some (.error err, st₀)
    | .ok clients =>
      simLoop (fun k => simSweep env o clients overlays (nodeOrder k c.NodeNames)) ctx fuel 0
        st₀

/-! ## Specification vocabulary -/

/-- The groups of `gs` that are not excluded, in visiting order. -/
def includedGroups {V : Type} (exclude : List String) (gs : GoMap V) : GoMap V :=
  gs.filter (fun e => !containsName exclude e.1)

/-- All entries of all groups, group after group. -/
def allEntries {V : Type} (gs : GoMap (GoMap V)) : GoMap V :=
  gs.flatMap (fun e => e.2)

/-- The successful results of the groups that are not excluded, under the
group names, in visiting order. -/
def groupResults {G R : Type} (query : G → Except GoError R) (exclude : List String)
    (gs : GoMap G) : GoMap R :=
  (includedGroups exclude gs).filterMap (fun e =>
    match query e.2 with
    | .ok a => some (e.1, a)
    | .error _ => none)

/-- Some node name occurs in the results of two groups with different names. -/
def SharedName {G V : Type} (query : G → Except GoError (GoMap V)) (gs : GoMap G) : Prop :=
  ∃ k₁ g₁ m₁ k₂ g₂ m₂ n, (k₁, g₁) ∈ gs ∧ (k₂, g₂) ∈ gs ∧ k₁ ≠ k₂ ∧
    query g₁ = .ok m₁ ∧ query g₂ = .ok m₂ ∧ n ∈ mapKeys m₁ ∧ n ∈ mapKeys m₂

/-- Every group's query succeeds. -/
def AllSucceed {G R : Type} (query : G → Except GoError R) (gs : GoMap G) : Prop :=
  ∀ e ∈ gs, ∃ a, query e.2 = .ok a

/-- Every group's query result is a well-formed map. -/
def ResultsWF {G V : Type} (query : G → Except GoError (GoMap V)) (gs : GoMap G) : Prop :=
  ∀ e ∈ gs, ∀ m, query e.2 = .ok m → MapWF m

/-! ## Example clusters -/

/-- A group with a single node, answering every query with one entry for that
node. -/
def singleNodeGroup (node : String) (full : Bool) (overlay : Nat) :
    NodeGroup Nat Nat Nat Nat where
  nodes := [(node, { name := node, fullNode := full })]
  Addresses := .ok [(node, overlay)]
  Balances := .ok [(node, overlay)]
  Overlays := .ok [(node, Address.mk [overlay])]
  Peers := .ok [(node, [])]
  Settlements := .ok [(node, overlay)]
  Topologies := .ok [(node, overlay)]
  GroupReplicationFactor := fun _ => .ok 1

/-- A cluster whose groups `bee` and `light` both contain a node `bee-0`. -/
def duplicateCluster : Cluster Nat Nat Nat Nat where
  name := "dup"
  nodeGroups :=
    [("bee", singleNodeGroup "bee-0" true 1), ("light", singleNodeGroup "bee-0" false 2)]

/-- A cluster with the groups `bee` (node `bee-0`) and `light` (node
`light-0`). -/
def distinctCluster : Cluster Nat Nat Nat Nat where
  name := "distinct"
  nodeGroups :=
    [("bee", singleNodeGroup "bee-0" true 1), ("light", singleNodeGroup "light-0" false 2)]

/-- No node name occurs in the results of two groups with different names. -/
def NoSharedName {G V : Type} (query : G → Except GoError (GoMap V)) (gs : GoMap G) : Prop :=
  ∀ e₁ ∈ gs, ∀ e₂ ∈ gs, e₁.1 ≠ e₂.1 → ∀ m₁ m₂, query e₁.2 = .ok m₁ → query e₂.2 = .ok m₂ →
    ∀ n, n ∈ mapKeys m₁ → n ∉ mapKeys m₂

/-- The size of a query result (zero for a failed query). -/
def resultSize {V : Type} (res : Except GoError (GoMap V)) : Nat :=
  match res with
  | .ok m => m.length
  | .error _ => 0

/-- The inner loop of `Nodes`: store the entries of one group's node map. -/
def storeNodes (inner : GoMap Node) (n : GoMap Node) : GoMap Node :=
  inner.foldl (fun n kv => mapSet n kv.1 kv.2) n

/-- The outer loop of `Nodes`, from the map `n` built so far. -/
def storeGroups (gs : GoMap (NodeGroup A B S T)) (n : GoMap Node) : GoMap Node :=
  gs.foldl (fun n ng => ng.2.getNodes.foldl (fun n kv => mapSet n kv.1 kv.2) n) n

/-- The count a group reports for the address `a` (zero for a failed query). -/
def groupCount (a : Address) (g : NodeGroup A B S T) : Int :=
  match g.GroupReplicationFactor a with
  | .ok n => n
  | .error _ => 0

/-- What a per-group query function owes its caller, for the groups `gs`
visited in list order and the excluded names `exclude`.  If the query of every
queried group succeeds, `result` is a mapping with exactly one entry per
queried group name, holding that group's result.  If the query of some queried
group fails, `result` is no mapping but the error of a queried group whose
query failed, wrapped with that group's name in front. -/
def QueryContract {G R : Type} (query : G → Except GoError R) (exclude : List String)
    (gs : GoMap G) (result : Except GoError (GoMap R)) : Prop :=
  ((∀ e ∈ includedGroups exclude gs, ∃ a, query e.2 = .ok a) →
    ∃ res, result = .ok res ∧ mapKeys res = mapKeys (includedGroups exclude gs) ∧
      MapWF res ∧
      ∀ e ∈ includedGroups exclude gs, ∃ a, query e.2 = .ok a ∧ mapGet res e.1 = some a) ∧
  ((∃ e ∈ includedGroups exclude gs, ∃ err, query e.2 = .error err) →
    ∃ k v err, (k, v) ∈ includedGroups exclude gs ∧ query v = .error err ∧
      result = .error (.wrap k err))

/-- A cluster whose group `light` fails its overlay query. -/
def failingCluster : Cluster Nat Nat Nat Nat where
  name := "failing"
  nodeGroups :=
    [("bee", singleNodeGroup "bee-0" true 1),
     ("light", { singleNodeGroup "light-0" false 2 with
        Overlays := .error (.errorf "connection refused") })]

/-- The stopped-nodes query of the group returns an error other than
`ErrNotSet`. -/
def StoppedQueryFails (g : NodeGroup A B S T) : Prop :=
  ∃ err, g.StoppedNodes.2 = some err ∧ err ≠ GoError.ErrNotSet

/-- The nodes of a group whose name is not in the group's stopped list, in
visiting order. -/
def runningNodes (g : NodeGroup A B S T) : List Node :=
  (g.nodes.filter (fun kv => !contains g.StoppedNodes.1 kv.2.name)).map Prod.snd

/-- The running nodes of all groups, group after group. -/
def runningPool (gs : GoMap (NodeGroup A B S T)) : List Node :=
  gs.flatMap (fun e => runningNodes e.2)

/-- A generator whose every draw is 0. -/
def zeroRand : Rand where
  gen := fun _ _ => 0
  gen_lt := fun _ _ h => h

/-- A generator whose every draw is the largest value allowed. -/
def lastRand : Rand where
  gen := fun _ n => n - 1
  gen_lt := fun _ _ h => Nat.sub_lt h Nat.one_pos

/-- A cluster without orchestration: the stopped-nodes query of both groups
answers as the not-set client does. -/
def notSetCluster : Cluster Nat Nat Nat Nat where
  name := "notset"
  nodeGroups :=
    [("bee", { singleNodeGroup "bee-0" true 1 with
        StoppedNodes := notsetStoppedNodes "default" }),
     ("light", { singleNodeGroup "light-0" false 2 with
        StoppedNodes := notsetStoppedNodes "default" })]

/-- All nodes of the cluster, group after group. -/
def clusterNodes (gs : GoMap (NodeGroup A B S T)) : List Node :=
  gs.flatMap (fun e => e.2.nodes.map Prod.snd)

/-- The index values in `[0, pool.length)` at which the pool holds a node of
the group `g`. -/
def selectingIndices (pool : List Node) (g : NodeGroup A B S T) : List Nat :=
  (List.range pool.length).filter (fun i =>
    (pool[i]?).any (fun node => decide (node ∈ g.nodes.map Prod.snd)))

/-- A node map with one full node per name. -/
def nodesNamed (names : List String) : GoMap Node :=
  names.map (fun n => (n, { name := n }))

/-- A cluster with a group of one node and a group of nine nodes, none of them
stopped. -/
def skewedCluster : Cluster Nat Nat Nat Nat where
  name := "skewed"
  nodeGroups :=
    [("solo", { nodes := (nodesNamed ["solo-0"]) }),
     ("many", { nodes := (nodesNamed
        ["many-0", "many-1", "many-2", "many-3", "many-4", "many-5", "many-6", "many-7",
          "many-8"]) })]

/-- A generator whose first draw is `i` and whose later draws are `j` (each
reduced into the range that `Intn` is called with). -/
def drawsRand (i j : Nat) : Rand where
  gen := fun h n => (if h = [] then i else j) % n
  gen_lt := fun _ _ hn => Nat.mod_lt _ hn

/-- The `(group, name, overlay)` part of the result of `ClusterOverlays.Random`. -/
def randomSelection (view : ClusterOverlays) (r : Rand) : Option (String × String × Address) :=
  (ClusterOverlays.Random view r).map (fun x => (x.1, x.2.1, x.2.2.1))

/-- The number of entries of the group that `range` visits at position `i`. -/
def groupSizeAt (view : ClusterOverlays) (i : Nat) : Nat :=
  ((view[i]?).map (fun e => e.2.length)).getD 0

/-- The probability that `ClusterOverlays.Random` returns `t`, when the group
index is uniform over `[0, len(view))` and the node index is uniform over
`[0, len(group))`: the pair of draws `(i, j)` has the weight
`1 / (len(view) * len(group i))`. -/
def randomProbability (view : ClusterOverlays) (t : String × String × Address) : ℚ :=
  Finset.sum (Finset.range view.length) (fun i =>
    Finset.sum (Finset.range (groupSizeAt view i)) (fun j =>
      if randomSelection view (drawsRand i j) = some t then
        1 / ((view.length : ℚ) * (groupSizeAt view i : ℚ))
      else 0))

/-- An overlay view with a group of one node and a group of nine nodes. -/
def skewedOverlays : ClusterOverlays :=
  [("solo", [("solo-0", Address.mk [0])]),
   ("many", [("many-0", Address.mk [1]), ("many-1", Address.mk [2]),
     ("many-2", Address.mk [3]), ("many-3", Address.mk [4]), ("many-4", Address.mk [5]),
     ("many-5", Address.mk [6]), ("many-6", Address.mk [7]), ("many-7", Address.mk [8]),
     ("many-8", Address.mk [9])])]

/-- The host name pattern of the specification: the name, the namespace unless
namespaces are disabled, and the domain, joined by dots. -/
def hostPattern (name ns domain : String) (disableNamespace : Bool) : String :=
  String.intercalate "." (if disableNamespace then [name, domain] else [name, ns, domain])

/-- The URL pattern of the specification: `<scheme>://<host>`. -/
def urlPattern (scheme host : String) : String := scheme ++ "://" ++ host

/-- A parser that accepts every text and returns it: the URL as its text. -/
def textURL (s : String) : Except GoError String := .ok s

/-- The configuration `(namespace testnet, domain example.com, scheme https)`,
with the same scheme and domain for the debug API. -/
def exampleConfig (disableNamespace : Bool) : Cluster Nat Nat Nat Nat where
  name := "example"
  apiDomain := "example.com"
  apiScheme := "https"
  debugAPIDomain := "example.com"
  debugAPIScheme := "https"
  namespace_ := "testnet"
  disableNamespace := disableNamespace

/-- Store the entries of `inner` into `acc`, one `m[k] = v` after the other. -/
def storeEntries {V : Type} (inner acc : GoMap V) : GoMap V :=
  inner.foldl (fun m kv => mapSet m kv.1 kv.2) acc

/-- A constructor of node groups that records the name and the options and
creates no node. -/
def emptyNodeGroup (name : String) (o : NodeGroupOptions) : NodeGroup Nat Nat Nat Nat where
  name := name
  opts := o

/-- The events of `pushMetrics`: one push with its result when a pusher is
configured, nothing otherwise. -/
def pushEvents (env : Env) (pusher : Bool) (pushes : Nat) : List Event :=
  if pusher then [.push (env.Push pushes)] else []

/-- The number of increments of the counter `c` among the events. -/
def incCount (c : Counter) (evs : List Event) : Nat :=
  evs.countP (fun e =>
    match e with
    | .inc c' _ => decide (c' = c)
    | _ => false)

/-- A generator list with one generator that always draws 0. -/
def oneZeroRand : List Rand := [zeroRand]

/-- Node answers in which every operation succeeds except `WaitSync`, which
always fails; a downloaded file or chunk has no content. -/
def neverSyncedAPI : NodeAPI where
  CreatePostageBatch := fun _ _ _ _ _ _ => .ok "batch"
  UploadFile := fun _ _ _ _ => .ok (Address.mk [1])
  DownloadFile := fun _ _ _ => .ok (0, [])
  GetOrCreateBatch := fun _ _ _ _ _ _ => .ok "batch"
  CreateTag := fun _ _ => .ok 7
  UploadChunk := fun _ _ _ _ _ => .ok (Address.mk [2])
  WaitSync := fun _ _ _ => some (.errorf "sync timeout")
  DownloadChunk := fun _ _ _ => .ok []

/-- Collaborators with the node answers `api`, generators that always draw 0,
files and chunks without content, and metrics pushes that succeed. -/
def exampleEnv (api : NodeAPI) : Env where
  api := api
  PseudoGenerators := fun _ n => List.replicate n zeroRand
  NewRandomFile := fun r name size => ({ name := name, size := size, data := [] }, r)
  NewRandomChunk := fun r => (.ok { data := [], address := Address.mk [3] }, r)
  EstimatePostageBatchDepth := fun _ => 17
  fileHash := fun f => f.data
  Push := fun _ => none

/-- The error of a failed tag creation, as `Simulation.Run` returns it. -/
def IsTagError (env : Env) (err : GoError) : Prop :=
  ∃ name inner k client, err = .wrap ("create tag on node " ++ name) inner ∧
    env.api.CreateTag k client = .error inner

/-- Nothing can panic in the loops: there are at least `n` node names and `n`
generators, and every node name has a client. -/
def Resolved (clients : GoMap Client) (sortedNodes : List String) (n : Nat)
    (rnds : List Rand) : Prop :=
  n ≤ sortedNodes.length ∧ n ≤ rnds.length ∧
    ∀ name ∈ sortedNodes, ∃ cl, mapGet clients name = some cl

/-- A context that is never done. -/
def neverDone : Context where
  doneAt := fun _ => false
  err := .errorf "context canceled"

/-- Node answers in which the creation of a tag fails and every other
operation succeeds. -/
def tagFailAPI : NodeAPI where
  CreatePostageBatch := fun _ _ _ _ _ _ => .ok "batch"
  UploadFile := fun _ _ _ _ => .ok (Address.mk [1])
  DownloadFile := fun _ _ _ => .ok (0, [])
  GetOrCreateBatch := fun _ _ _ _ _ _ => .ok "batch"
  CreateTag := fun _ _ => .error (.errorf "tag")
  UploadChunk := fun _ _ _ _ _ => .ok (Address.mk [2])
  WaitSync := fun _ _ _ => none
  DownloadChunk := fun _ _ _ => .ok []

/-- A group whose nodes `names` all run: every node has an overlay and a
client. -/
def runningGroup (names : List String) : NodeGroup Nat Nat Nat Nat where
  nodes := nodesNamed names
  Overlays := .ok (names.map (fun n => (n, Address.mk [n.length])))
  NodesClients := .ok (names.map (fun n => (n, Client.mk n)))

/-- A cluster with the single group `bee` and its single node `bee-0`. -/
def soloCluster : Cluster Nat Nat Nat Nat where
  name := "solo"
  nodeGroups := [("bee", runningGroup ["bee-0"])]

/-- A context that is done at the wait after the first sweep. -/
def doneAtFirstWait : Context where
  doneAt := fun _ => true
  err := .errorf "context canceled"

/-- The client calls and counter increments of a trace, in order: the trace
without its push events. -/
def observable (t : List Event) : List Event :=
  t.filter (fun e =>
    match e with
    | .push _ => false
    | _ => true)

/-- Two states that differ at most in the results of the metrics pushes. -/
def SameButPushResults (st₁ st₂ : RunState) : Prop :=
  observable st₁.trace = observable st₂.trace ∧ st₁.calls = st₂.calls ∧
    st₁.pushes = st₂.pushes ∧ st₁.rnds = st₂.rnds

/-- The units of a check in the order of its loops: the pairs `(i, j)` of an
upload node index `i < n` and a file index `j < f`, `i` outermost. -/
def unitIndex (n f : Nat) : List (Nat × Nat) :=
  (List.range n).flatMap (fun i => (List.range f).map (fun j => (i, j)))

/-- The loops of a check as one loop over its units. -/
def forUnits (body : Nat × Nat → RunState → Step × RunState) :
    List (Nat × Nat) → RunState → Step × RunState
  | [], st => (.next, st)
  | u :: rest, st =>
    match body u st with
    | (.next, st') => forUnits body rest st'
    | (.stop err, st') => (.stop err, st')
    | (.panic, st') => (.panic, st')

/-- The file generated for the unit `u` from the generator `r`. -/
def unitFile (env : Env) (o : CheckOptions) (r : Rand) (u : Nat × Nat) : File :=
  (env.NewRandomFile r (fileName o u.1 u.2) o.FileSize).1

/-- The batch creation call of a unit, through the client `up`. -/
def batchCall (env : Env) (o : CheckOptions) (up : Client) (file : File) : Event :=
  .call up (.CreatePostageBatch o.PostageAmount
    (2 + env.EstimatePostageBatchDepth file.size) o.GasPrice o.PostageLabel)

/-- The answer of the node to the batch creation call of a unit, made as
the client call number `k`. -/
def batchAnswer (env : Env) (o : CheckOptions) (k : Nat) (up : Client) (file : File) :
    Except GoError String :=
  env.api.CreatePostageBatch k up o.PostageAmount
    (2 + env.EstimatePostageBatchDepth file.size) o.GasPrice o.PostageLabel

/-- The events of a unit of the default check that is retrieved: the batch
creation and one upload through the client of the upload node, the download
through the client `last` of the last node, all three answered without error
and with the hash of the file, the three counters, and the push if a pusher is
configured. -/
def RetrievedUnit (env : Env) (o : CheckOptions) (clients : GoMap Client)
    (overlays : GoMap Address) (names : List String) (last : Client) (u : Nat × Nat)
    (seg : List Event) : Prop :=
  ∃ nodeName up r k batchID address sizeHash pushes,
    names[u.1]? = some nodeName ∧ mapGet clients nodeName = some up ∧
    batchAnswer env o k up (unitFile env o r u) = .ok batchID ∧
    env.api.UploadFile (k + 1) up (unitFile env o r u) batchID = .ok address ∧
    env.api.DownloadFile (k + 2) last address = .ok sizeHash ∧
    env.fileHash (unitFile env o r u) = sizeHash.2 ∧
    (pushes = [] ∨ ∃ res, pushes = [Event.push res]) ∧
    seg = [batchCall env o up (unitFile env o r u),
      .call up (.UploadFile (unitFile env o r u) batchID),
      .inc .uploaded (overlayLabel overlays nodeName),
      .call last (.DownloadFile address),
      .inc .downloaded (overlayLabel overlays nodeName),
      .inc .retrieved (overlayLabel overlays nodeName)] ++ pushes

/-- The events of a unit of the default check that fails, with the error the
check returns: the batch creation fails; or the upload fails; or the download
from the last node fails; or the hashes differ, which increments `notRetrieved`
once and gives the file-retrieval error. -/
def FailedUnit (env : Env) (o : CheckOptions) (clients : GoMap Client)
    (overlays : GoMap Address) (names : List String) (lastNodeName : String) (last : Client)
    (u : Nat × Nat) (tail : List Event) (err : GoError) : Prop :=
  ∃ nodeName up r k,
    names[u.1]? = some nodeName ∧ mapGet clients nodeName = some up ∧
    ((∃ e, batchAnswer env o k up (unitFile env o r u) = .error e ∧
        tail = [batchCall env o up (unitFile env o r u)] ∧
        err = .wrapf ("node " ++ nodeName ++ ": created batched id ") e) ∨
     (∃ batchID e, batchAnswer env o k up (unitFile env o r u) = .ok batchID ∧
        env.api.UploadFile (k + 1) up (unitFile env o r u) batchID = .error e ∧
        tail = [batchCall env o up (unitFile env o r u),
          .call up (.UploadFile (unitFile env o r u) batchID)] ∧
        err = .wrap ("node " ++ nodeName) e) ∨
     (∃ batchID address e, batchAnswer env o k up (unitFile env o r u) = .ok batchID ∧
        env.api.UploadFile (k + 1) up (unitFile env o r u) batchID = .ok address ∧
        env.api.DownloadFile (k + 2) last address = .error e ∧
        tail = [batchCall env o up (unitFile env o r u),
          .call up (.UploadFile (unitFile env o r u) batchID),
          .inc .uploaded (overlayLabel overlays nodeName),
          .call last (.DownloadFile address)] ∧
        err = .wrap ("node " ++ lastNodeName) e) ∨
     (∃ batchID address sizeHash,
        batchAnswer env o k up (unitFile env o r u) = .ok batchID ∧
        env.api.UploadFile (k + 1) up (unitFile env o r u) batchID = .ok address ∧
        env.api.DownloadFile (k + 2) last address = .ok sizeHash ∧
        env.fileHash (unitFile env o r u) ≠ sizeHash.2 ∧
        tail = [batchCall env o up (unitFile env o r u),
          .call up (.UploadFile (unitFile env o r u) batchID),
          .inc .uploaded (overlayLabel overlays nodeName),
          .call last (.DownloadFile address),
          .inc .downloaded (overlayLabel overlays nodeName),
          .inc .notRetrieved (overlayLabel overlays nodeName)] ∧
        err = errFileRetrieval))

/-- The clients through which the files of a trace are downloaded, one entry
per `DownloadFile` call, in order. -/
def downloadClients (t : List Event) : List Client :=
  t.filterMap (fun e =>
    match e with
    | .call cl (.DownloadFile _) => some cl
    | _ => none)

/-- A cluster with the single group `bee` of the three nodes `bee-0`, `bee-1`
and `bee-2`, of which `bee-2` is stopped: the group answers `NodesClients` with
the clients of `bee-0` and `bee-1` only. -/
def stoppedCluster : Cluster Nat Nat Nat Nat where
  name := "stopped"
  nodeGroups := [("bee",
    { nodes := (nodesNamed ["bee-0", "bee-1", "bee-2"])
      Overlays := .ok (["bee-0", "bee-1", "bee-2"].map (fun n => (n, Address.mk [n.length])))
      NodesClients := .ok (["bee-0", "bee-1"].map (fun n => (n, Client.mk n))) })]

/-- The clients through which the files of a trace are uploaded, one entry per
`UploadFile` call, in order. -/
def uploadClients (t : List Event) : List Client :=
  t.filterMap (fun e =>
    match e with
    | .call cl (.UploadFile _ _) => some cl
    | _ => none)

/-- A cluster with the single group `bee` of the two running nodes `bee-0` and
`bee-1`; `visited` is the order in which a range over the node map of the group
visits the two names. -/
def pairCluster (visited : List String) : Cluster Nat Nat Nat Nat where
  name := "pair"
  nodeGroups := [("bee",
    { nodes := (nodesNamed visited)
      Overlays := .ok (["bee-0", "bee-1"].map (fun n => (n, Address.mk [n.length])))
      NodesClients := .ok (["bee-0", "bee-1"].map (fun n => (n, Client.mk n))) })]

/-- A cluster without node groups. -/
def emptyCluster : Cluster Nat Nat Nat Nat where
  name := "empty"

/-- A cluster whose only node `bee-0` is stopped. -/
def allStoppedCluster : Cluster Nat Nat Nat Nat where
  name := "stopped"
  nodeGroups := [("bee", { nodes := (nodesNamed ["bee-0"]), StoppedNodes := (["bee-0"], none) })]

/-- Node answers in which every operation succeeds; a downloaded file or chunk
has no content. -/
def syncedAPI : NodeAPI where
  CreatePostageBatch := fun _ _ _ _ _ _ => .ok "batch"
  UploadFile := fun _ _ _ _ => .ok (Address.mk [1])
  DownloadFile := fun _ _ _ => .ok (0, [])
  GetOrCreateBatch := fun _ _ _ _ _ _ => .ok "batch"
  CreateTag := fun _ _ => .ok 7
  UploadChunk := fun _ _ _ _ _ => .ok (Address.mk [2])
  WaitSync := fun _ _ _ => none
  DownloadChunk := fun _ _ _ => .ok []

/-- Every node of every group has an entry in the answer of its group to
`NodesClients`: no node is stopped. -/
def EveryNodeHasClient (c : Cluster A B S T) : Prop :=
  ∀ e ∈ c.nodeGroups, ∀ ngc, e.2.NodesClients = .ok ngc →
    ∀ n ∈ mapKeys e.2.nodes, n ∈ mapKeys ngc

/-- Every node of every group has an entry in the answer of its group to
`Overlays`. -/
def EveryNodeHasOverlay (c : Cluster A B S T) : Prop :=
  ∀ e ∈ c.nodeGroups, ∀ ov, e.2.Overlays = .ok ov →
    ∀ n ∈ mapKeys e.2.nodes, n ∈ mapKeys ov

/-- The first check of `url.Parse` (its `getScheme`): a text that starts with
`:` has an empty scheme and is rejected with `missing protocol scheme`.  What
`url.Parse` does with any other text is not modelled here: the parser answers
with the text it was given. -/
def rejectEmptyScheme (s : String) : Except GoError String :=
  match s.toList with
  | ':' :: _ => .error (.errorf "missing protocol scheme")
  | _ => .ok s

/-- The example configuration with an empty API scheme (the zero value of the
field). -/
def schemelessConfig : Cluster Nat Nat Nat Nat :=
  { exampleConfig false with apiScheme := "" }

/-- Node answers in which every upload of a file is refused and every other
operation succeeds. -/
def uploadFailAPI : NodeAPI where
  CreatePostageBatch := fun _ _ _ _ _ _ => .ok "batch"
  UploadFile := fun _ _ _ _ => .error (.errorf "upload refused")
  DownloadFile := fun _ _ _ => .ok (0, [])
  GetOrCreateBatch := fun _ _ _ _ _ _ => .ok "batch"
  CreateTag := fun _ _ => .ok 7
  UploadChunk := fun _ _ _ _ _ => .ok (Address.mk [2])
  WaitSync := fun _ _ _ => none
  DownloadChunk := fun _ _ _ => .ok []

/-- The end of loops that run into an index out of range right after the
iterations `r` stands for: a panic in the state they reached if they completed,
their own end otherwise. -/
def panicAfter (r : Step × RunState) : Step × RunState :=
  match r with
  | (.next, st) => (.panic, st)
  | (.stop err, st) => (.stop err, st)
  | (.panic, st) => (.panic, st)

/-! ## Lemmas on maps -/

section MapLemmas

variable {V : Type}

theorem mapKeys_nil : mapKeys ([] : GoMap V) = [] := rfl

theorem mapKeys_cons (e : String × V) (m : GoMap V) :
    mapKeys (e :: m) = e.1 :: mapKeys m := rfl

theorem mapKeys_append (m₁ m₂ : GoMap V) :
    mapKeys (m₁ ++ m₂) = mapKeys m₁ ++ mapKeys m₂ := by
  simp [mapKeys]

theorem mapFound_iff (m : GoMap V) (k : String) : mapFound m k = true ↔ k ∈ mapKeys m := by
  induction m with
  | nil => simp [mapFound, mapKeys]
  | cons e rest ih =>
    simp only [mapFound, mapKeys, List.any_cons, List.map_cons, List.mem_cons, Bool.or_eq_true,
      beq_iff_eq] at ih ⊢
    rw [ih]
    constructor
    · rintro (h | h)
      · exact Or.inl h.symm
      · exact Or.inr h
    · rintro (h | h)
      · exact Or.inl h.symm
      · exact Or.inr h

theorem mapFound_eq_false_iff (m : GoMap V) (k : String) :
    mapFound m k = false ↔ k ∉ mapKeys m := by
  rw [← mapFound_iff, Bool.not_eq_true]

theorem mapSet_of_not_mem (m : GoMap V) (k : String) (v : V) (h : k ∉ mapKeys m) :
    mapSet m k v = m ++ [(k, v)] := by
  induction m with
  | nil => rfl
  | cons e rest ih =>
    obtain ⟨k', v'⟩ := e
    simp only [mapKeys_cons, List.mem_cons, not_or] at h
    have hne : ¬ k' = k := fun hk => h.1 hk.symm
    simp [mapSet, hne, ih h.2]

end MapLemmas

theorem containsName_iff (s : List String) (e : String) :
    containsName s e = true ↔ e ∈ s := by
  induction s with
  | nil => simp [containsName]
  | cons a rest ih =>
    simp only [containsName, List.mem_cons]
    by_cases h : a = e
    · simp [h]
    · have h' : ¬ e = a := fun c => h c.symm
      simp [h, h', ih]

theorem containsName_nil (e : String) : containsName [] e = false := rfl

/-! ## Lemmas on flattening -/

theorem includedGroups_nil_exclude {V : Type} (gs : GoMap V) :
    includedGroups [] gs = gs := by
  simp [includedGroups, containsName_nil]

theorem flattenGroup_ok {V : Type} (m res : GoMap V) (hm : (mapKeys m).Nodup)
    (hd : ∀ k ∈ mapKeys m, k ∉ mapKeys res) : flattenGroup m res = .ok (res ++ m) := by
  induction m generalizing res with
  | nil => simp [flattenGroup]
  | cons e rest ih =>
    obtain ⟨n, over⟩ := e
    simp only [mapKeys_cons, List.nodup_cons, List.mem_cons, forall_eq_or_imp] at hm hd
    have hf : mapFound res n = false := (mapFound_eq_false_iff res n).2 hd.1
    simp only [flattenGroup, hf, Bool.false_eq_true, if_false]
    rw [mapSet_of_not_mem res n over hd.1, ih (res ++ [(n, over)]) hm.2]
    · simp
    · intro k hk
      rw [mapKeys_append]
      simp only [mapKeys_cons, mapKeys_nil, List.mem_append, List.mem_singleton, not_or]
      refine ⟨hd.2 k hk, ?_⟩
      rintro rfl
      exact hm.1 hk

theorem flattenGroup_error {V : Type} (m res : GoMap V)
    (h : ¬ ((mapKeys m).Nodup ∧ ∀ k ∈ mapKeys m, k ∉ mapKeys res)) :
    ∃ n, n ∈ mapKeys m ∧
      flattenGroup m res = .error (.errorf ("key " ++ n ++ " already present")) := by
  induction m generalizing res with
  | nil => exact absurd ⟨List.nodup_nil, by simp [mapKeys]⟩ h
  | cons e rest ih =>
    obtain ⟨n, over⟩ := e
    by_cases hf : mapFound res n = true
    · exact ⟨n, by simp [mapKeys_cons], by simp [flattenGroup, hf]⟩
    · have hn : n ∉ mapKeys res := fun c => hf ((mapFound_iff res n).2 c)
      have hrest : ¬ ((mapKeys rest).Nodup ∧ ∀ k ∈ mapKeys rest, k ∉ mapKeys (res ++ [(n, over)])) := by
        rintro ⟨h1, h2⟩
        apply h
        simp only [mapKeys_cons, List.nodup_cons, List.mem_cons, forall_eq_or_imp]
        refine ⟨⟨?_, h1⟩, hn, ?_⟩
        · intro hk
          exact h2 n hk (by simp [mapKeys_append, mapKeys_cons])
        · intro k hk hkr
          exact h2 k hk (by simp [mapKeys_append, hkr])
      obtain ⟨n', hn', he⟩ := ih (res ++ [(n, over)]) hrest
      refine ⟨n', by simp [mapKeys_cons, hn'], ?_⟩
      simp only [flattenGroup, hf, if_false]
      rw [mapSet_of_not_mem res n over hn]
      exact he

theorem allEntries_cons {V : Type} (e : String × GoMap V) (gs : GoMap (GoMap V)) :
    allEntries (e :: gs) = e.2 ++ allEntries gs := by
  simp [allEntries]

theorem includedGroups_cons_of_excluded {V : Type} (exclude : List String) (e : String × V)
    (gs : GoMap V) (h : containsName exclude e.1 = true) :
    includedGroups exclude (e :: gs) = includedGroups exclude gs := by
  simp [includedGroups, h]

theorem includedGroups_cons_of_included {V : Type} (exclude : List String) (e : String × V)
    (gs : GoMap V) (h : containsName exclude e.1 = false) :
    includedGroups exclude (e :: gs) = e :: includedGroups exclude gs := by
  simp [includedGroups, h]

theorem flattenGroups_ok {V : Type} (exclude : List String) (gs : GoMap (GoMap V))
    (res : GoMap V)
    (hn : (mapKeys (allEntries (includedGroups exclude gs))).Nodup)
    (hd : ∀ k ∈ mapKeys (allEntries (includedGroups exclude gs)), k ∉ mapKeys res) :
    flattenGroups exclude gs res = .ok (res ++ allEntries (includedGroups exclude gs)) := by
  induction gs generalizing res with
  | nil => simp [flattenGroups, includedGroups, allEntries]
  | cons e rest ih =>
    obtain ⟨ngn, ngo⟩ := e
    by_cases hx : containsName exclude ngn = true
    · rw [includedGroups_cons_of_excluded exclude (ngn, ngo) rest hx] at hn hd ⊢
      simp only [flattenGroups, hx, if_true]
      exact ih res hn hd
    · have hx' : containsName exclude ngn = false := by simpa using hx
      rw [includedGroups_cons_of_included exclude (ngn, ngo) rest hx', allEntries_cons,
        mapKeys_append] at hn hd
      rw [includedGroups_cons_of_included exclude (ngn, ngo) rest hx', allEntries_cons]
      rw [List.nodup_append] at hn
      obtain ⟨hn1, hn2, hn3⟩ := hn
      have h1 : flattenGroup ngo res = .ok (res ++ ngo) :=
        flattenGroup_ok ngo res hn1 (fun k hk => hd k (List.mem_append_left _ hk))
      simp only [flattenGroups, hx', Bool.false_eq_true, if_false, h1]
      rw [ih (res ++ ngo) hn2]
      · simp
      · intro k hk
        rw [mapKeys_append, List.mem_append, not_or]
        exact ⟨hd k (List.mem_append_right _ hk), fun hk' => hn3 hk' hk⟩

theorem flattenGroups_error {V : Type} (exclude : List String) (gs : GoMap (GoMap V))
    (res : GoMap V)
    (h : ¬ ((mapKeys (allEntries (includedGroups exclude gs))).Nodup ∧
      ∀ k ∈ mapKeys (allEntries (includedGroups exclude gs)), k ∉ mapKeys res)) :
    ∃ n, n ∈ mapKeys (allEntries (includedGroups exclude gs)) ∧
      flattenGroups exclude gs res = .error (.errorf ("key " ++ n ++ " already present")) := by
  induction gs generalizing res with
  | nil => exact absurd ⟨by simp [includedGroups, allEntries, mapKeys],
      by simp [includedGroups, allEntries, mapKeys]⟩ h
  | cons e rest ih =>
    obtain ⟨ngn, ngo⟩ := e
    by_cases hx : containsName exclude ngn = true
    · rw [includedGroups_cons_of_excluded exclude (ngn, ngo) rest hx] at h ⊢
      simp only [flattenGroups, hx, if_true]
      exact ih res h
    · have hx' : containsName exclude ngn = false := by simpa using hx
      rw [includedGroups_cons_of_included exclude (ngn, ngo) rest hx', allEntries_cons,
        mapKeys_append] at h ⊢
      simp only [flattenGroups, hx', Bool.false_eq_true, if_false]
      by_cases hg : (mapKeys ngo).Nodup ∧ ∀ k ∈ mapKeys ngo, k ∉ mapKeys res
      · rw [flattenGroup_ok ngo res hg.1 hg.2]
        have hrest : ¬ ((mapKeys (allEntries (includedGroups exclude rest))).Nodup ∧
            ∀ k ∈ mapKeys (allEntries (includedGroups exclude rest)),
              k ∉ mapKeys (res ++ ngo)) := by
          rintro ⟨h1, h2⟩
          apply h
          refine ⟨List.nodup_append.2 ⟨hg.1, h1, ?_⟩, ?_⟩
          · intro k hk hk'
            exact h2 k hk' (by rw [mapKeys_append]; exact List.mem_append_right _ hk)
          · intro k hk
            rcases List.mem_append.1 hk with hk | hk
            · exact hg.2 k hk
            · intro hkr
              exact h2 k hk (by rw [mapKeys_append]; exact List.mem_append_left _ hkr)
        obtain ⟨n, hn, he⟩ := ih (res ++ ngo) hrest
        exact ⟨n, List.mem_append_right _ hn, he⟩
      · obtain ⟨n, hn, he⟩ := flattenGroup_error ngo res hg
        exact ⟨n, List.mem_append_left _ hn, by rw [he]⟩

/-! ## Lemmas on the per-group queries -/

theorem queryGroups_error {G R : Type} (query : G → Except GoError R) (exclude : List String)
    (gs : GoMap G) (acc : GoMap R)
    (h : ∃ e ∈ includedGroups exclude gs, ∃ err, query e.2 = .error err) :
    ∃ k v err, (k, v) ∈ includedGroups exclude gs ∧ query v = .error err ∧
      queryGroups query exclude gs acc = .error (.wrap k err) := by
  induction gs generalizing acc with
  | nil => simp [includedGroups] at h
  | cons e rest ih =>
    obtain ⟨k, v⟩ := e
    by_cases hx : containsName exclude k = true
    · rw [includedGroups_cons_of_excluded exclude (k, v) rest hx] at h ⊢
      simp only [queryGroups, hx, if_true]
      exact ih acc h
    · have hx' : containsName exclude k = false := by simpa using hx
      rw [includedGroups_cons_of_included exclude (k, v) rest hx'] at h ⊢
      simp only [queryGroups, hx', Bool.false_eq_true, if_false]
      cases hq : query v with
      | error err =>
        exact ⟨k, v, err, List.mem_cons_self _ _, hq, rfl⟩
      | ok a =>
        have hrest : ∃ e ∈ includedGroups exclude rest, ∃ err, query e.2 = .error err := by
          obtain ⟨e, he, err, herr⟩ := h
          rcases List.mem_cons.1 he with rfl | he
          · rw [hq] at herr; cases herr
          · exact ⟨e, he, err, herr⟩
        obtain ⟨k', v', err, hm, hq', hr⟩ := ih (mapSet acc k a) hrest
        exact ⟨k', v', err, List.mem_cons_of_mem _ hm, hq', hr⟩

theorem mapKeys_includedGroups_subset {V : Type} (exclude : List String) (gs : GoMap V) :
    ∀ k ∈ mapKeys (includedGroups exclude gs), k ∈ mapKeys gs := by
  intro k hk
  simp only [mapKeys, includedGroups, List.mem_map, List.mem_filter] at hk ⊢
  obtain ⟨e, ⟨he, _⟩, rfl⟩ := hk
  exact ⟨e, he, rfl⟩

theorem queryGroups_ok {G R : Type} (query : G → Except GoError R) (exclude : List String)
    (gs : GoMap G) (acc : GoMap R)
    (hq : ∀ e ∈ includedGroups exclude gs, ∃ a, query e.2 = .ok a)
    (hwf : (mapKeys gs).Nodup) (hacc : ∀ k ∈ mapKeys gs, k ∉ mapKeys acc) :
    queryGroups query exclude gs acc = .ok (acc ++ groupResults query exclude gs) := by
  induction gs generalizing acc with
  | nil => simp [queryGroups, groupResults, includedGroups]
  | cons e rest ih =>
    obtain ⟨k, v⟩ := e
    simp only [mapKeys_cons, List.nodup_cons, List.mem_cons, forall_eq_or_imp] at hwf hacc
    by_cases hx : containsName exclude k = true
    · rw [includedGroups_cons_of_excluded exclude (k, v) rest hx] at hq
      simp only [queryGroups, hx, if_true, groupResults]
      rw [includedGroups_cons_of_excluded exclude (k, v) rest hx]
      exact ih acc hq hwf.2 hacc.2
    · have hx' : containsName exclude k = false := by simpa using hx
      rw [includedGroups_cons_of_included exclude (k, v) rest hx'] at hq
      obtain ⟨a, ha⟩ := hq (k, v) (List.mem_cons_self _ _)
      simp only [queryGroups, hx', Bool.false_eq_true, if_false, groupResults]
      rw [includedGroups_cons_of_included exclude (k, v) rest hx']
      simp only [ha, List.filterMap_cons]
      rw [mapSet_of_not_mem acc k a hacc.1]
      have := ih (acc ++ [(k, a)]) (fun e he => hq e (List.mem_cons_of_mem _ he)) hwf.2
        (by
          intro k' hk'
          rw [mapKeys_append]
          simp only [mapKeys_cons, mapKeys_nil, List.mem_append, List.mem_singleton, not_or]
          refine ⟨hacc.2 k' hk', ?_⟩
          rintro rfl
          exact hwf.1 hk')
      rw [this]
      simp [groupResults]

theorem mem_groupResults_iff {G R : Type} (query : G → Except GoError R)
    (exclude : List String) (gs : GoMap G) (k : String) (a : R) :
    (k, a) ∈ groupResults query exclude gs ↔
      ∃ v, (k, v) ∈ includedGroups exclude gs ∧ query v = .ok a := by
  simp only [groupResults, List.mem_filterMap]
  constructor
  · rintro ⟨⟨k', v⟩, he, hm⟩
    cases hq : query v with
    | error err => simp [hq] at hm
    | ok a' =>
      simp only [hq, Option.some.injEq, Prod.mk.injEq] at hm
      obtain ⟨rfl, rfl⟩ := hm
      exact ⟨v, he, hq⟩
  · rintro ⟨v, he, hq⟩
    exact ⟨(k, v), he, by simp [hq]⟩

theorem groupResults_eq_map {G R : Type} (query : G → Except GoError R)
    (exclude : List String) (gs : GoMap G) (dflt : R)
    (hq : ∀ e ∈ includedGroups exclude gs, ∃ a, query e.2 = .ok a) :
    groupResults query exclude gs =
      (includedGroups exclude gs).map (fun e =>
        (e.1, match query e.2 with
              | .ok a => a
              | .error _ => dflt)) := by
  unfold groupResults
  generalize includedGroups exclude gs = l at hq
  induction l with
  | nil => rfl
  | cons e rest ih =>
    obtain ⟨a, ha⟩ := hq e (List.mem_cons_self _ _)
    simp only [List.filterMap_cons, ha, List.map_cons]
    rw [ih (fun e he => hq e (List.mem_cons_of_mem _ he))]

theorem mapKeys_groupResults {G R : Type} (query : G → Except GoError R)
    (exclude : List String) (gs : GoMap G)
    (hq : ∀ e ∈ includedGroups exclude gs, ∃ a, query e.2 = .ok a) :
    mapKeys (groupResults query exclude gs) = mapKeys (includedGroups exclude gs) := by
  unfold groupResults
  generalize includedGroups exclude gs = l at hq
  induction l with
  | nil => rfl
  | cons e rest ih =>
    obtain ⟨a, ha⟩ := hq e (List.mem_cons_self _ _)
    simp only [List.filterMap_cons, ha, mapKeys_cons]
    rw [ih (fun e he => hq e (List.mem_cons_of_mem _ he))]

theorem mapKeys_allEntries {V : Type} (gs : GoMap (GoMap V)) :
    mapKeys (allEntries gs) = gs.flatMap (fun e => mapKeys e.2) := by
  induction gs with
  | nil => rfl
  | cons e rest ih =>
    rw [allEntries_cons, mapKeys_append, ih]
    simp

theorem mapGet_eq_some_iff {V : Type} (m : GoMap V) (hm : MapWF m) (k : String) (v : V) :
    mapGet m k = some v ↔ (k, v) ∈ m := by
  induction m with
  | nil => simp [mapGet, List.lookup]
  | cons e rest ih =>
    obtain ⟨k', v'⟩ := e
    simp only [MapWF, mapKeys_cons, List.nodup_cons] at hm
    have ih' := ih hm.2
    simp only [mapGet] at ih' ⊢
    by_cases hk : k = k'
    · subst hk
      simp only [List.lookup, beq_self_eq_true, Option.some.injEq, List.mem_cons,
        Prod.mk.injEq, true_and]
      constructor
      · intro h
        exact Or.inl h.symm
      · rintro (h | h)
        · exact h.symm
        · exact absurd (List.mem_map_of_mem Prod.fst h) hm.1
    · have hb : (k == k') = false := by simpa using hk
      simp only [List.lookup, hb, ih', List.mem_cons, Prod.mk.injEq, hk, false_and, false_or]

theorem not_nodup_of_shared {V : Type} (gs : GoMap (GoMap V)) (e₁ e₂ : String × GoMap V)
    (h₁ : e₁ ∈ gs) (h₂ : e₂ ∈ gs) (hne : e₁.1 ≠ e₂.1) (n : String)
    (hn₁ : n ∈ mapKeys e₁.2) (hn₂ : n ∈ mapKeys e₂.2) :
    ¬ (mapKeys (allEntries gs)).Nodup := by
  rw [mapKeys_allEntries, List.nodup_flatMap]
  rintro ⟨_, hp⟩
  have hsymm : Symmetric (Function.onFun List.Disjoint
      (fun e : String × GoMap V => mapKeys e.2)) := by
    intro a b hab
    exact List.Disjoint.symm hab
  have hd := hp.forall hsymm h₁ h₂ (fun c => hne (by rw [c]))
  exact hd hn₁ hn₂

/-- The common shape of the `Flatten*` functions: query the groups, then
flatten the resulting map in the order `ord`. -/
theorem flatten_shared_error {G V : Type} (query : G → Except GoError (GoMap V))
    (gs : GoMap G) (ord : GoMap (GoMap V) → GoMap (GoMap V)) (hord : IsRangeOrder ord)
    (hwf : MapWF gs) (hq : AllSucceed query gs) (hs : SharedName query gs) :
    ∃ o, queryGroups query [] gs [] = .ok o ∧
      ∃ n, flattenGroups [] (ord o) [] =
        .error (.errorf ("key " ++ n ++ " already present")) := by
  have hq' : ∀ e ∈ includedGroups [] gs, ∃ a, query e.2 = .ok a := by
    rw [includedGroups_nil_exclude]; exact hq
  refine ⟨groupResults query [] gs, ?_, ?_⟩
  · have := queryGroups_ok query [] gs [] hq' hwf (by simp [mapKeys])
    simpa using this
  · obtain ⟨k₁, g₁, m₁, k₂, g₂, m₂, n, hm₁, hm₂, hne, hq₁, hq₂, hn₁, hn₂⟩ := hs
    have he₁ : (k₁, m₁) ∈ ord (groupResults query [] gs) :=
      (hord _).mem_iff.2 ((mem_groupResults_iff query [] gs k₁ m₁).2
        ⟨g₁, by rw [includedGroups_nil_exclude]; exact hm₁, hq₁⟩)
    have he₂ : (k₂, m₂) ∈ ord (groupResults query [] gs) :=
      (hord _).mem_iff.2 ((mem_groupResults_iff query [] gs k₂ m₂).2
        ⟨g₂, by rw [includedGroups_nil_exclude]; exact hm₂, hq₂⟩)
    have hnd := not_nodup_of_shared (ord (groupResults query [] gs)) (k₁, m₁) (k₂, m₂)
      he₁ he₂ hne n hn₁ hn₂
    obtain ⟨n', _, he⟩ := flattenGroups_error [] (ord (groupResults query [] gs)) []
      (by rw [includedGroups_nil_exclude]; exact fun h => hnd h.1)
    exact ⟨n', he⟩

/-! ## Flattening fails on a shared node name -/

/-- C1: for a cluster (group names distinct) whose per-group queries all
succeed, if one node name occurs in the per-group maps of two different groups,
then `FlattenOverlays` without exclusions, `FlattenBalances`,
`FlattenSettlements` and `FlattenTopologies` each return the error
`key <name> already present` and no mapping, in whatever order the groups are
visited (the list order of `c.nodeGroups` and the order `ord` are arbitrary) and
whatever the two entries hold. -/
theorem flatten_fails_on_shared_name (c : Cluster A B S T) (hwf : MapWF c.nodeGroups) :
    (AllSucceed (fun g => g.Overlays) c.nodeGroups →
      SharedName (fun g => g.Overlays) c.nodeGroups →
      ∀ ord, IsRangeOrder ord →
        ∃ n, c.FlattenOverlays ord [] =
          .error (.errorf ("key " ++ n ++ " already present"))) ∧
    (AllSucceed (fun g => g.Balances) c.nodeGroups →
      SharedName (fun g => g.Balances) c.nodeGroups →
      ∀ ord, IsRangeOrder ord →
        ∃ n, c.FlattenBalances ord =
          .error (.errorf ("key " ++ n ++ " already present"))) ∧
    (AllSucceed (fun g => g.Settlements) c.nodeGroups →
      SharedName (fun g => g.Settlements) c.nodeGroups →
      ∀ ord, IsRangeOrder ord →
        ∃ n, c.FlattenSettlements ord =
          .error (.errorf ("key " ++ n ++ " already present"))) ∧
    (AllSucceed (fun g => g.Topologies) c.nodeGroups →
      SharedName (fun g => g.Topologies) c.nodeGroups →
      ∀ ord, IsRangeOrder ord →
        ∃ n, c.FlattenTopologies ord =
          .error (.errorf ("key " ++ n ++ " already present"))) := by
  refine ⟨?_, ?_, ?_, ?_⟩
  · intro hq hs ord hord
    obtain ⟨o, ho, n, hn⟩ := flatten_shared_error _ c.nodeGroups ord hord hwf hq hs
    exact ⟨n, by simp only [Cluster.FlattenOverlays, Cluster.Overlays, ho, hn]⟩
  · intro hq hs ord hord
    obtain ⟨o, ho, n, hn⟩ := flatten_shared_error _ c.nodeGroups ord hord hwf hq hs
    exact ⟨n, by simp only [Cluster.FlattenBalances, Cluster.Balances, ho, hn]⟩
  · intro hq hs ord hord
    obtain ⟨o, ho, n, hn⟩ := flatten_shared_error _ c.nodeGroups ord hord hwf hq hs
    exact ⟨n, by simp only [Cluster.FlattenSettlements, Cluster.Settlements, ho, hn]⟩
  · intro hq hs ord hord
    obtain ⟨o, ho, n, hn⟩ := flatten_shared_error _ c.nodeGroups ord hord hwf hq hs
    exact ⟨n, by simp only [Cluster.FlattenTopologies, Cluster.Topologies, ho, hn]⟩

/-- Witness for C1: in `duplicateCluster` both groups answer the overlay query
with an entry for `bee-0`, and `FlattenOverlays` fails. -/
theorem flatten_fails_on_shared_name_witness :
    MapWF duplicateCluster.nodeGroups ∧
    AllSucceed (fun g => g.Overlays) duplicateCluster.nodeGroups ∧
    SharedName (fun g => g.Overlays) duplicateCluster.nodeGroups ∧
    ∃ n, duplicateCluster.FlattenOverlays id [] =
      .error (.errorf ("key " ++ n ++ " already present")) := by
  have hwf : MapWF duplicateCluster.nodeGroups := by decide
  have hq : AllSucceed (fun g => g.Overlays) duplicateCluster.nodeGroups := by
    intro e he
    simp only [duplicateCluster, List.mem_cons, List.mem_singleton, List.not_mem_nil,
      or_false] at he
    rcases he with rfl | rfl
    · exact ⟨_, rfl⟩
    · exact ⟨_, rfl⟩
  have hs : SharedName (fun g => g.Overlays) duplicateCluster.nodeGroups :=
    ⟨"bee", singleNodeGroup "bee-0" true 1, [("bee-0", Address.mk [1])],
      "light", singleNodeGroup "bee-0" false 2, [("bee-0", Address.mk [2])], "bee-0",
      by simp [duplicateCluster], by simp [duplicateCluster], by decide, rfl, rfl,
      by simp [mapKeys], by simp [mapKeys]⟩
  exact ⟨hwf, hq, hs,
    (flatten_fails_on_shared_name duplicateCluster hwf).1 hq hs id (fun m => List.Perm.refl m)⟩

/-! ## Flattening is the union of the per-group maps -/

theorem flatten_union {G V : Type} (query : G → Except GoError (GoMap V))
    (gs : GoMap G) (ord : GoMap (GoMap V) → GoMap (GoMap V)) (hord : IsRangeOrder ord)
    (hwf : MapWF gs) (hq : AllSucceed query gs) (hr : ResultsWF query gs)
    (hns : NoSharedName query gs) :
    ∃ o res, queryGroups query [] gs [] = .ok o ∧ flattenGroups [] (ord o) [] = .ok res ∧
      MapWF res ∧
      (∀ n v, mapGet res n = some v ↔
        ∃ e ∈ gs, ∃ m, query e.2 = .ok m ∧ mapGet m n = some v) ∧
      res.length = (gs.map (fun e => resultSize (query e.2))).sum := by
  have hq' : ∀ e ∈ includedGroups [] gs, ∃ a, query e.2 = .ok a := by
    rw [includedGroups_nil_exclude]; exact hq
  have hmem : ∀ k m, (k, m) ∈ groupResults query [] gs ↔
      ∃ g, (k, g) ∈ gs ∧ query g = .ok m := by
    intro k m
    rw [mem_groupResults_iff, includedGroups_nil_exclude]
  have hkeys : mapKeys (groupResults query [] gs) = mapKeys gs := by
    rw [mapKeys_groupResults query [] gs hq', includedGroups_nil_exclude]
  have hond : (groupResults query [] gs).Nodup :=
    List.Nodup.of_map Prod.fst (by rw [← mapKeys, hkeys]; exact hwf)
  have hnd : (mapKeys (allEntries (groupResults query [] gs))).Nodup := by
    rw [mapKeys_allEntries, List.nodup_flatMap]
    constructor
    · rintro ⟨k, m⟩ he
      obtain ⟨g, hg, hgq⟩ := (hmem k m).1 he
      exact hr (k, g) hg m hgq
    · apply hond.pairwise_of_forall_ne
      rintro ⟨k₁, m₁⟩ h₁ ⟨k₂, m₂⟩ h₂ hne
      obtain ⟨g₁, hg₁, hq₁⟩ := (hmem k₁ m₁).1 h₁
      obtain ⟨g₂, hg₂, hq₂⟩ := (hmem k₂ m₂).1 h₂
      have hk : k₁ ≠ k₂ := by
        intro hk
        apply hne
        have hinj := List.inj_on_of_nodup_map
          (show (List.map Prod.fst (groupResults query [] gs)).Nodup by
            rw [← mapKeys, hkeys]; exact hwf) h₁ h₂ hk
        exact hinj
      intro n hn₁ hn₂
      exact hns (k₁, g₁) hg₁ (k₂, g₂) hg₂ hk m₁ m₂ hq₁ hq₂ n hn₁ hn₂
  have hperm := hord (groupResults query [] gs)
  have hnd' : (mapKeys (allEntries (ord (groupResults query [] gs)))).Nodup := by
    rw [mapKeys_allEntries] at hnd ⊢
    exact ((hperm.flatMap_right _).nodup_iff).2 hnd
  refine ⟨groupResults query [] gs, allEntries (ord (groupResults query [] gs)), ?_, ?_,
    hnd', ?_, ?_⟩
  · have := queryGroups_ok query [] gs [] hq' hwf (by simp [mapKeys])
    simpa using this
  · have := flattenGroups_ok [] (ord (groupResults query [] gs)) []
      (by rw [includedGroups_nil_exclude]; exact hnd')
      (by simp [mapKeys])
    rw [includedGroups_nil_exclude] at this
    simpa using this
  · intro n v
    rw [mapGet_eq_some_iff _ hnd']
    simp only [allEntries, List.mem_flatMap]
    constructor
    · rintro ⟨⟨k, m⟩, he, hm⟩
      obtain ⟨g, hg, hgq⟩ := (hmem k m).1 (hperm.mem_iff.1 he)
      exact ⟨(k, g), hg, m, hgq, (mapGet_eq_some_iff m (hr (k, g) hg m hgq) n v).2 hm⟩
    · rintro ⟨⟨k, g⟩, hg, m, hgq, hm⟩
      exact ⟨(k, m), hperm.mem_iff.2 ((hmem k m).2 ⟨g, hg, hgq⟩),
        (mapGet_eq_some_iff m (hr (k, g) hg m hgq) n v).1 hm⟩
  · simp only [allEntries, List.length_flatMap]
    rw [(hperm.map _).sum_eq, groupResults_eq_map query [] gs [] hq',
      includedGroups_nil_exclude, List.map_map]
    congr 1
    apply List.map_congr_left
    intro e he
    obtain ⟨a, ha⟩ := hq e he
    simp [resultSize, ha]

/-- C2: for a cluster (group names distinct, every per-group overlay map a
well-formed map) in which no node name is shared between two groups and every
overlay query succeeds, `FlattenOverlays` without exclusions returns a mapping
`res` with one entry per name, in which `n` maps to `o` exactly when some
group's overlay map maps `n` to `o`, and whose number of entries is the sum of
the sizes of the per-group overlay maps; this holds for every visiting order. -/
theorem flattenOverlays_is_union (c : Cluster A B S T)
    (ord : GoMap NodeGroupOverlays → GoMap NodeGroupOverlays) (hord : IsRangeOrder ord)
    (hwf : MapWF c.nodeGroups)
    (hq : AllSucceed (fun g => g.Overlays) c.nodeGroups)
    (hr : ResultsWF (fun g => g.Overlays) c.nodeGroups)
    (hns : NoSharedName (fun g => g.Overlays) c.nodeGroups) :
    ∃ res, c.FlattenOverlays ord [] = .ok res ∧ MapWF res ∧
      (∀ n o, mapGet res n = some o ↔
        ∃ e ∈ c.nodeGroups, ∃ m, e.2.Overlays = .ok m ∧ mapGet m n = some o) ∧
      res.length = (c.nodeGroups.map (fun e => resultSize e.2.Overlays)).sum := by
  obtain ⟨o, res, ho, hres, h₁, h₂, h₃⟩ :=
    flatten_union (fun g : NodeGroup A B S T => g.Overlays) c.nodeGroups ord hord hwf hq hr hns
  exact ⟨res, by simp only [Cluster.FlattenOverlays, Cluster.Overlays, ho, hres], h₁, h₂, h₃⟩

/-- Witness for C2: `distinctCluster` has no shared node name, and
`FlattenOverlays` returns the union of its two overlay maps. -/
theorem flattenOverlays_is_union_witness :
    ∃ res, distinctCluster.FlattenOverlays id [] = .ok res ∧ MapWF res ∧
      (∀ n o, mapGet res n = some o ↔
        ∃ e ∈ distinctCluster.nodeGroups, ∃ m, e.2.Overlays = .ok m ∧ mapGet m n = some o) ∧
      res.length =
        (distinctCluster.nodeGroups.map (fun e => resultSize e.2.Overlays)).sum := by
  have hmem : ∀ e ∈ distinctCluster.nodeGroups,
      e = ("bee", singleNodeGroup "bee-0" true 1) ∨
        e = ("light", singleNodeGroup "light-0" false 2) := by
    intro e he
    simpa [distinctCluster] using he
  apply flattenOverlays_is_union distinctCluster id (fun m => List.Perm.refl m) (by decide)
  · intro e he
    rcases hmem e he with rfl | rfl
    · exact ⟨_, rfl⟩
    · exact ⟨_, rfl⟩
  · intro e he m hm
    rcases hmem e he with rfl | rfl
    · cases hm; decide
    · cases hm; decide
  · intro e₁ h₁ e₂ h₂ hne m₁ m₂ hm₁ hm₂ n hn₁ hn₂
    rcases hmem e₁ h₁ with rfl | rfl <;> rcases hmem e₂ h₂ with rfl | rfl
    · exact hne rfl
    · cases hm₁; cases hm₂
      simp only [mapKeys, List.map_cons, List.map_nil, List.mem_singleton] at hn₁ hn₂
      rw [hn₁] at hn₂
      exact absurd hn₂ (by decide)
    · cases hm₁; cases hm₂
      simp only [mapKeys, List.map_cons, List.map_nil, List.mem_singleton] at hn₁ hn₂
      rw [hn₁] at hn₂
      exact absurd hn₂ (by decide)
    · exact hne rfl

/-! ## Nodes -/

theorem mem_mapKeys_mapSet {V : Type} (m : GoMap V) (k : String) (v : V) (k' : String) :
    k' ∈ mapKeys (mapSet m k v) ↔ k' = k ∨ k' ∈ mapKeys m := by
  induction m with
  | nil => simp [mapSet, mapKeys]
  | cons e rest ih =>
    obtain ⟨k₀, v₀⟩ := e
    by_cases h : k₀ = k
    · subst h
      simp [mapSet, mapKeys]
    · simp only [mapSet, h, if_false, mapKeys_cons, List.mem_cons, ih]
      tauto

theorem mapWF_mapSet {V : Type} (m : GoMap V) (k : String) (v : V) (hm : MapWF m) :
    MapWF (mapSet m k v) := by
  induction m with
  | nil => simp [mapSet, MapWF, mapKeys]
  | cons e rest ih =>
    obtain ⟨k₀, v₀⟩ := e
    simp only [MapWF, mapKeys_cons, List.nodup_cons] at hm
    by_cases h : k₀ = k
    · subst h
      simpa [mapSet, MapWF, mapKeys_cons] using hm
    · have hs : mapSet ((k₀, v₀) :: rest) k v = (k₀, v₀) :: mapSet rest k v := by
        simp [mapSet, h]
      rw [hs]
      simp only [MapWF, mapKeys_cons, List.nodup_cons, mem_mapKeys_mapSet, not_or]
      exact ⟨⟨h, hm.1⟩, ih hm.2⟩

theorem mapGet_mapSet {V : Type} (m : GoMap V) (k : String) (v : V) (k' : String) :
    mapGet (mapSet m k v) k' = if k' = k then some v else mapGet m k' := by
  induction m with
  | nil =>
    by_cases h : k' = k
    · simp [mapSet, mapGet, List.lookup, h]
    · have hb : (k' == k) = false := by simpa using h
      simp [mapSet, mapGet, List.lookup, h, hb]
  | cons e rest ih =>
    obtain ⟨k₀, v₀⟩ := e
    simp only [mapGet] at ih ⊢
    by_cases h : k₀ = k
    · subst h
      by_cases h' : k' = k₀
      · simp [mapSet, List.lookup, h']
      · have hb : (k' == k₀) = false := by simpa using h'
        simp [mapSet, List.lookup, h', hb]
    · by_cases h' : k' = k₀
      · subst h'
        simp [mapSet, List.lookup, h]
      · have hb : (k' == k₀) = false := by simpa using h'
        simp only [mapSet, h, if_false, List.lookup, hb, ih]

theorem storeNodes_nil (n : GoMap Node) : storeNodes [] n = n := rfl

theorem storeNodes_cons (e : String × Node) (inner n : GoMap Node) :
    storeNodes (e :: inner) n = storeNodes inner (mapSet n e.1 e.2) := rfl

theorem mapWF_storeNodes (inner n : GoMap Node) (hn : MapWF n) :
    MapWF (storeNodes inner n) := by
  induction inner generalizing n with
  | nil => exact hn
  | cons e rest ih =>
    rw [storeNodes_cons]
    exact ih _ (mapWF_mapSet n e.1 e.2 hn)

theorem mem_mapKeys_storeNodes (inner n : GoMap Node) (k : String) :
    k ∈ mapKeys (storeNodes inner n) ↔ k ∈ mapKeys inner ∨ k ∈ mapKeys n := by
  induction inner generalizing n with
  | nil => simp [storeNodes_nil, mapKeys]
  | cons e rest ih =>
    rw [storeNodes_cons, ih, mem_mapKeys_mapSet, mapKeys_cons, List.mem_cons]
    tauto

theorem mapGet_storeNodes_of_not_mem (inner n : GoMap Node) (k : String)
    (h : k ∉ mapKeys inner) : mapGet (storeNodes inner n) k = mapGet n k := by
  induction inner generalizing n with
  | nil => rfl
  | cons e rest ih =>
    simp only [mapKeys_cons, List.mem_cons, not_or] at h
    rw [storeNodes_cons, ih _ h.2, mapGet_mapSet, if_neg h.1]

theorem mapGet_storeNodes_of_mem (inner n : GoMap Node) (hi : MapWF inner) (k : String)
    (v : Node) (h : (k, v) ∈ inner) : mapGet (storeNodes inner n) k = some v := by
  induction inner generalizing n with
  | nil => simp at h
  | cons e rest ih =>
    simp only [MapWF, mapKeys_cons, List.nodup_cons] at hi
    rw [storeNodes_cons]
    rcases List.mem_cons.1 h with h | h
    · subst h
      rw [mapGet_storeNodes_of_not_mem _ _ _ hi.1, mapGet_mapSet, if_pos rfl]
    · exact ih _ hi.2 h

theorem storeGroups_nil (n : GoMap Node) :
    storeGroups ([] : GoMap (NodeGroup A B S T)) n = n := rfl

theorem storeGroups_cons (e : String × NodeGroup A B S T) (gs : GoMap (NodeGroup A B S T))
    (n : GoMap Node) : storeGroups (e :: gs) n = storeGroups gs (storeNodes e.2.nodes n) := rfl

theorem storeGroups_append (gs₁ gs₂ : GoMap (NodeGroup A B S T)) (n : GoMap Node) :
    storeGroups (gs₁ ++ gs₂) n = storeGroups gs₂ (storeGroups gs₁ n) := by
  simp [storeGroups, List.foldl_append]

theorem mapWF_storeGroups (gs : GoMap (NodeGroup A B S T)) (n : GoMap Node) (hn : MapWF n) :
    MapWF (storeGroups gs n) := by
  induction gs generalizing n with
  | nil => exact hn
  | cons e rest ih =>
    rw [storeGroups_cons]
    exact ih _ (mapWF_storeNodes _ _ hn)

theorem mem_mapKeys_storeGroups (gs : GoMap (NodeGroup A B S T)) (n : GoMap Node)
    (k : String) :
    k ∈ mapKeys (storeGroups gs n) ↔ (∃ e ∈ gs, k ∈ mapKeys e.2.nodes) ∨ k ∈ mapKeys n := by
  induction gs generalizing n with
  | nil => simp [storeGroups_nil]
  | cons e rest ih =>
    rw [storeGroups_cons, ih, mem_mapKeys_storeNodes]
    simp only [List.mem_cons, exists_eq_or_imp]
    constructor
    · rintro (h | h | h)
      · exact Or.inl (Or.inr h)
      · exact Or.inl (Or.inl h)
      · exact Or.inr h
    · rintro ((h | h) | h)
      · exact Or.inr (Or.inl h)
      · exact Or.inl h
      · exact Or.inr (Or.inr h)

theorem mapGet_storeGroups_of_not_mem (gs : GoMap (NodeGroup A B S T)) (n : GoMap Node)
    (k : String) (h : ∀ e ∈ gs, k ∉ mapKeys e.2.nodes) :
    mapGet (storeGroups gs n) k = mapGet n k := by
  induction gs generalizing n with
  | nil => rfl
  | cons e rest ih =>
    rw [storeGroups_cons, ih _ (fun e' he' => h e' (List.mem_cons_of_mem _ he')),
      mapGet_storeNodes_of_not_mem _ _ _ (h e (List.mem_cons_self _ _))]

theorem nodes_eq_storeGroups (c : Cluster A B S T) : c.Nodes = storeGroups c.nodeGroups [] :=
  rfl

/-- C3, counterexample: in `duplicateCluster` the groups `bee` and `light` both
contain a node named `bee-0`, and `Nodes` returns a mapping whose only entry is
the node of `light`: the node of `bee` has been overwritten, and nothing
failed. -/
theorem nodes_overwrites_duplicate :
    (∃ e₁ ∈ duplicateCluster.nodeGroups, ∃ e₂ ∈ duplicateCluster.nodeGroups,
      e₁.1 ≠ e₂.1 ∧ "bee-0" ∈ mapKeys e₁.2.nodes ∧ "bee-0" ∈ mapKeys e₂.2.nodes) ∧
    duplicateCluster.Nodes = [("bee-0", { name := "bee-0", fullNode := false })] := by
  refine ⟨⟨("bee", singleNodeGroup "bee-0" true 1), by simp [duplicateCluster],
    ("light", singleNodeGroup "bee-0" false 2), by simp [duplicateCluster],
    by decide, by decide, by decide⟩, by decide⟩

/-- C3, amended: `Nodes` has no error result; it returns a well-formed mapping
whose keys are exactly the node names occurring in some group, and the entry of
a name is the node that the last visited group containing the name holds under
it (a later group's node replaces an earlier one of the same name). -/
theorem nodes_last_group_wins (c : Cluster A B S T) :
    MapWF c.Nodes ∧
    (∀ name, name ∈ mapKeys c.Nodes ↔ ∃ e ∈ c.nodeGroups, name ∈ mapKeys e.2.nodes) ∧
    (∀ pre k g post name v, c.nodeGroups = pre ++ (k, g) :: post → MapWF g.nodes →
      (name, v) ∈ g.nodes → (∀ e ∈ post, name ∉ mapKeys e.2.nodes) →
      mapGet c.Nodes name = some v) := by
  refine ⟨?_, ?_, ?_⟩
  · rw [nodes_eq_storeGroups]
    exact mapWF_storeGroups _ _ (by simp [MapWF, mapKeys])
  · intro name
    rw [nodes_eq_storeGroups, mem_mapKeys_storeGroups]
    simp [mapKeys]
  · intro pre k g post name v hc hg hv hpost
    rw [nodes_eq_storeGroups, hc, storeGroups_append, storeGroups_cons,
      mapGet_storeGroups_of_not_mem _ _ _ hpost]
    exact mapGet_storeNodes_of_mem _ _ hg name v hv

/-- Witness for C3 (amended): in `duplicateCluster` the group `light` is visited
last, and `Nodes` maps `bee-0` to its node. -/
theorem nodes_last_group_wins_witness :
    mapGet duplicateCluster.Nodes "bee-0" = some { name := "bee-0", fullNode := false } :=
  (nodes_last_group_wins duplicateCluster).2.2
    [("bee", singleNodeGroup "bee-0" true 1)] "light" (singleNodeGroup "bee-0" false 2) []
    "bee-0" { name := "bee-0", fullNode := false } rfl (by decide) (by simp [singleNodeGroup])
    (by simp)

/-! ## Global replication factor -/

theorem wrapInt_of_fits (x : Int) (h₀ : 0 ≤ x) (h₁ : x < 2 ^ 63) : wrapInt x = x := by
  unfold wrapInt
  rw [Int.emod_eq_of_lt (by omega) (by omega)]
  omega

theorem groupCount_sum_nonneg (a : Address) (gs : GoMap (NodeGroup A B S T))
    (hq : ∀ e ∈ gs, ∃ n, e.2.GroupReplicationFactor a = .ok n ∧ 0 ≤ n) :
    0 ≤ (gs.map (fun e => groupCount a e.2)).sum := by
  apply List.sum_nonneg
  intro x hx
  obtain ⟨e, he, rfl⟩ := List.mem_map.1 hx
  obtain ⟨n, hn, hn0⟩ := hq e he
  simp only [groupCount, hn]
  exact hn0

theorem replicationLoop_sum (a : Address) (gs : GoMap (NodeGroup A B S T)) (grf : Int)
    (hq : ∀ e ∈ gs, ∃ n, e.2.GroupReplicationFactor a = .ok n ∧ 0 ≤ n)
    (h₀ : 0 ≤ grf) (hfit : grf + (gs.map (fun e => groupCount a e.2)).sum < 2 ^ 63) :
    replicationLoop a gs grf = .ok (grf + (gs.map (fun e => groupCount a e.2)).sum) := by
  induction gs generalizing grf with
  | nil => simp [replicationLoop]
  | cons e rest ih =>
    obtain ⟨k, v⟩ := e
    obtain ⟨n, hn', hn0⟩ := hq (k, v) (List.mem_cons_self _ _)
    have hn : v.GroupReplicationFactor a = .ok n := hn'
    have hrest : ∀ e ∈ rest, ∃ n, e.2.GroupReplicationFactor a = .ok n ∧ 0 ≤ n :=
      fun e he => hq e (List.mem_cons_of_mem _ he)
    have hs := groupCount_sum_nonneg a rest hrest
    have hc : groupCount a v = n := by simp [groupCount, hn]
    simp only [List.map_cons, List.sum_cons, hc] at hfit ⊢
    have hw : wrapInt (grf + n) = grf + n := wrapInt_of_fits _ (by omega) (by omega)
    simp only [replicationLoop, hn, hw]
    rw [ih (grf + n) hrest (by omega) (by omega)]
    congr 1
    omega

/-- C4: if every group's replication-factor query for the address succeeds with
a count (a non-negative number) and the total fits a Go `int`, then
`GlobalReplicationFactor` returns exactly the sum of the groups' counts, in
whatever order the groups are visited; when every count is zero (in particular
for a cluster without groups) it returns 0 and no error. -/
theorem globalReplicationFactor_is_sum (c : Cluster A B S T) (a : Address)
    (hq : ∀ e ∈ c.nodeGroups, ∃ n, e.2.GroupReplicationFactor a = .ok n ∧ 0 ≤ n)
    (hfit : (c.nodeGroups.map (fun e => groupCount a e.2)).sum < 2 ^ 63) :
    (∀ gs, gs.Perm c.nodeGroups →
      ({ c with nodeGroups := gs } : Cluster A B S T).GlobalReplicationFactor a =
        .ok ((c.nodeGroups.map (fun e => groupCount a e.2)).sum)) ∧
    ((∀ e ∈ c.nodeGroups, groupCount a e.2 = 0) → c.GlobalReplicationFactor a = .ok 0) := by
  have key : ∀ gs, gs.Perm c.nodeGroups →
      replicationLoop a gs 0 = .ok ((c.nodeGroups.map (fun e => groupCount a e.2)).sum) := by
    intro gs hp
    have hsum : (gs.map (fun e => groupCount a e.2)).sum =
        (c.nodeGroups.map (fun e => groupCount a e.2)).sum := (hp.map _).sum_eq
    rw [replicationLoop_sum a gs 0 (fun e he => hq e (hp.mem_iff.1 he)) (le_refl 0)
      (by rw [hsum]; omega), hsum]
    simp
  refine ⟨fun gs hp => key gs hp, ?_⟩
  intro hz
  have hsum : (c.nodeGroups.map (fun e => groupCount a e.2)).sum = 0 := by
    apply List.sum_eq_zero
    intro x hx
    obtain ⟨e, he, rfl⟩ := List.mem_map.1 hx
    exact hz e he
  have := key c.nodeGroups (List.Perm.refl _)
  rw [hsum] at this
  exact this

/-- Witness for C4: in `distinctCluster` each of the two groups reports one
node holding the address, and the global replication factor is 2 in both
visiting orders. -/
theorem globalReplicationFactor_is_sum_witness :
    distinctCluster.GlobalReplicationFactor (Address.mk [7]) = .ok 2 ∧
    ({ distinctCluster with nodeGroups := distinctCluster.nodeGroups.reverse } :
      Cluster Nat Nat Nat Nat).GlobalReplicationFactor (Address.mk [7]) = .ok 2 := by
  have hmem : ∀ e ∈ distinctCluster.nodeGroups,
      e = ("bee", singleNodeGroup "bee-0" true 1) ∨
        e = ("light", singleNodeGroup "light-0" false 2) := by
    intro e he
    simpa [distinctCluster] using he
  have h := globalReplicationFactor_is_sum distinctCluster (Address.mk [7])
    (by
      intro e he
      rcases hmem e he with rfl | rfl
      · exact ⟨1, rfl, by decide⟩
      · exact ⟨1, rfl, by decide⟩)
    (by decide)
  exact ⟨h.1 _ (List.Perm.refl _), h.1 _ (List.reverse_perm _)⟩

/-! ## Per-group queries: all results or none -/

theorem mapWF_includedGroups {V : Type} (exclude : List String) (gs : GoMap V)
    (hwf : MapWF gs) : MapWF (includedGroups exclude gs) := by
  unfold MapWF mapKeys includedGroups
  exact List.Nodup.sublist ((List.filter_sublist gs).map Prod.fst) hwf

theorem queryGroups_contract {G R : Type} (query : G → Except GoError R)
    (exclude : List String) (gs : GoMap G) (hwf : MapWF gs) :
    QueryContract query exclude gs (queryGroups query exclude gs []) := by
  refine ⟨?_, ?_⟩
  · intro hq
    have hres := queryGroups_ok query exclude gs [] hq hwf (by simp [mapKeys])
    have hkeys := mapKeys_groupResults query exclude gs hq
    have hwf' : MapWF (groupResults query exclude gs) := by
      unfold MapWF
      rw [hkeys]
      exact mapWF_includedGroups exclude gs hwf
    refine ⟨groupResults query exclude gs, by simpa using hres, hkeys, hwf', ?_⟩
    rintro ⟨k, v⟩ he
    obtain ⟨a, ha⟩ := hq (k, v) he
    exact ⟨a, ha, (mapGet_eq_some_iff _ hwf' k a).2
      ((mem_groupResults_iff query exclude gs k a).2 ⟨v, he, ha⟩)⟩
  · intro hq
    exact queryGroups_error query exclude gs [] hq

/-- C5: for a cluster with distinct group names, each of `Addresses`,
`Balances`, `Overlays`, `Peers`, `Settlements` and `Topologies` meets the
contract `QueryContract`: if every queried group's query succeeds the result
has exactly one entry per queried group name, holding that group's result; if
a queried group's query fails the call returns no mapping but the error of a
failing queried group wrapped with that group's name in front.  For `Overlays`
and `Peers` the queried groups are those not named in `exclude`; the others
query every group. -/
theorem group_queries_all_or_nothing (c : Cluster A B S T) (exclude : List String)
    (hwf : MapWF c.nodeGroups) :
    QueryContract (fun g => g.Addresses) [] c.nodeGroups c.Addresses ∧
    QueryContract (fun g => g.Balances) [] c.nodeGroups c.Balances ∧
    QueryContract (fun g => g.Overlays) exclude c.nodeGroups (c.Overlays exclude) ∧
    QueryContract (fun g => g.Peers) exclude c.nodeGroups (c.Peers exclude) ∧
    QueryContract (fun g => g.Settlements) [] c.nodeGroups c.Settlements ∧
    QueryContract (fun g => g.Topologies) [] c.nodeGroups c.Topologies :=
  ⟨queryGroups_contract _ _ _ hwf, queryGroups_contract _ _ _ hwf,
    queryGroups_contract _ _ _ hwf, queryGroups_contract _ _ _ hwf,
    queryGroups_contract _ _ _ hwf, queryGroups_contract _ _ _ hwf⟩

/-- Witness for C5: in `distinctCluster` every address query succeeds and
`Addresses` has the keys `bee` and `light`; in `failingCluster` the overlay
query of `light` fails and `Overlays` returns that error wrapped with
`light`. -/
theorem group_queries_all_or_nothing_witness :
    (∃ res, distinctCluster.Addresses = .ok res ∧ mapKeys res = ["bee", "light"]) ∧
    failingCluster.Overlays [] =
      .error (.wrap "light" (.errorf "connection refused")) := by
  constructor
  · obtain ⟨res, h₁, h₂, -, -⟩ :=
      (group_queries_all_or_nothing distinctCluster [] (by decide)).1.1 (by
        intro e he
        have he' : e = ("bee", singleNodeGroup "bee-0" true 1) ∨
            e = ("light", singleNodeGroup "light-0" false 2) := by
          simpa [distinctCluster, includedGroups, containsName] using he
        rcases he' with rfl | rfl
        · exact ⟨_, rfl⟩
        · exact ⟨_, rfl⟩)
    exact ⟨res, h₁, by rw [h₂]; decide⟩
  · rfl

/-! ## RandomNode -/

theorem contains_iff (list : List String) (find : String) :
    contains list find = true ↔ find ∈ list := containsName_iff list find

theorem appendRunning_eq (stopped : List String) (m : GoMap Node) (nodes : List Node) :
    appendRunning stopped m nodes =
      nodes ++ (m.filter (fun kv => !contains stopped kv.2.name)).map Prod.snd := by
  induction m generalizing nodes with
  | nil => simp [appendRunning]
  | cons e rest ih =>
    obtain ⟨k, v⟩ := e
    by_cases h : contains stopped v.name = true
    · simp [appendRunning, h, ih]
    · have h' : contains stopped v.name = false := by simpa using h
      simp [appendRunning, h', ih]

theorem runningPool_cons (e : String × NodeGroup A B S T) (gs : GoMap (NodeGroup A B S T)) :
    runningPool (e :: gs) = runningNodes e.2 ++ runningPool gs := by
  simp [runningPool]

theorem randomNodePool_ok (gs : GoMap (NodeGroup A B S T)) (nodes : List Node)
    (hok : ∀ e ∈ gs, ¬ StoppedQueryFails e.2) :
    randomNodePool gs nodes = .ok (nodes ++ runningPool gs) := by
  induction gs generalizing nodes with
  | nil => simp [randomNodePool, runningPool]
  | cons e rest ih =>
    obtain ⟨k, ng⟩ := e
    have hng : ¬ StoppedQueryFails ng := hok (k, ng) (List.mem_cons_self _ _)
    have hrest := fun nodes => ih nodes (fun e he => hok e (List.mem_cons_of_mem _ he))
    have hrun : ∀ stopped, ng.StoppedNodes.1 = stopped →
        appendRunning stopped ng.getNodes nodes ++ runningPool rest =
          nodes ++ runningPool ((k, ng) :: rest) := by
      intro stopped hs
      rw [appendRunning_eq, runningPool_cons, ← hs]
      simp [runningNodes, NodeGroup.getNodes]
    rcases hsn : ng.StoppedNodes with ⟨stopped, _ | err⟩
    · simp only [randomNodePool, hsn]
      rw [hrest, hrun stopped (by rw [hsn])]
    · have herr : err = GoError.ErrNotSet := by
        by_contra hne
        exact hng ⟨err, by rw [hsn], hne⟩
      simp only [randomNodePool, hsn, herr, ne_eq, not_true_eq_false, if_false]
      rw [hrest, hrun stopped (by rw [hsn])]

theorem randomNodePool_error (gs : GoMap (NodeGroup A B S T)) (nodes : List Node)
    (hf : ∃ e ∈ gs, StoppedQueryFails e.2) :
    ∃ e ∈ gs, ∃ err, e.2.StoppedNodes.2 = some err ∧ err ≠ GoError.ErrNotSet ∧
      randomNodePool gs nodes = .error (.wrap "stopped nodes" err) := by
  induction gs generalizing nodes with
  | nil => simp at hf
  | cons e rest ih =>
    obtain ⟨k, ng⟩ := e
    by_cases hng : StoppedQueryFails ng
    · obtain ⟨err, he, hne⟩ := hng
      refine ⟨(k, ng), List.mem_cons_self _ _, err, he, hne, ?_⟩
      rcases hsn : ng.StoppedNodes with ⟨stopped, _ | err'⟩
      · rw [hsn] at he; cases he
      · rw [hsn] at he
        cases he
        simp [randomNodePool, hsn, hne]
    · have hrest : ∃ e ∈ rest, StoppedQueryFails e.2 := by
        obtain ⟨e, he, hfe⟩ := hf
        rcases List.mem_cons.1 he with rfl | he
        · exact absurd hfe hng
        · exact ⟨e, he, hfe⟩
      have key : ∀ nodes', ∃ e ∈ (k, ng) :: rest, ∃ err, e.2.StoppedNodes.2 = some err ∧
          err ≠ GoError.ErrNotSet ∧
          randomNodePool rest nodes' = .error (.wrap "stopped nodes" err) := by
        intro nodes'
        obtain ⟨e, he, err, h₁, h₂, h₃⟩ := ih nodes' hrest
        exact ⟨e, List.mem_cons_of_mem _ he, err, h₁, h₂, h₃⟩
      rcases hsn : ng.StoppedNodes with ⟨stopped, _ | err⟩
      · simp only [randomNodePool, hsn]
        exact key _
      · have herr : err = GoError.ErrNotSet := by
          by_contra hne
          exact hng ⟨err, by rw [hsn], hne⟩
        simp only [randomNodePool, hsn, herr, ne_eq, not_true_eq_false, if_false]
        exact key _

theorem randomNode_of_pool (c : Cluster A B S T) (r : Rand)
    (hok : ∀ e ∈ c.nodeGroups, ¬ StoppedQueryFails e.2)
    (hpos : 0 < (runningPool c.nodeGroups).length) :
    ∃ node, (runningPool c.nodeGroups)[r.gen r.hist (runningPool c.nodeGroups).length]? =
        some node ∧
      c.RandomNode r = .ok (node, { r with
        hist := r.hist ++ [(runningPool c.nodeGroups).length] }) := by
  have hlt := r.gen_lt r.hist _ hpos
  have hpool : randomNodePool c.NodeGroups [] = .ok (runningPool c.nodeGroups) := by
    have := randomNodePool_ok c.nodeGroups [] hok
    simpa [Cluster.NodeGroups] using this
  refine ⟨(runningPool c.nodeGroups)[r.gen r.hist (runningPool c.nodeGroups).length],
    List.getElem?_eq_getElem hlt, ?_⟩
  simp only [Cluster.RandomNode, hpool, Rand.Intn, hpos, if_true,
    List.getElem?_eq_getElem hlt]

theorem randomNode_error_iff (c : Cluster A B S T) (r : Rand) :
    (∃ err, c.RandomNode r = .error err) ↔ ∃ e ∈ c.nodeGroups, StoppedQueryFails e.2 := by
  constructor
  · rintro ⟨err, herr⟩
    by_contra hno
    have hok : ∀ e ∈ c.nodeGroups, ¬ StoppedQueryFails e.2 :=
      fun e he hf => hno ⟨e, he, hf⟩
    have hpool : randomNodePool c.NodeGroups [] = .ok (runningPool c.nodeGroups) := by
      have := randomNodePool_ok c.nodeGroups [] hok
      simpa [Cluster.NodeGroups] using this
    simp only [Cluster.RandomNode, hpool] at herr
    split at herr
    · cases herr
    · split at herr <;> cases herr
  · intro hf
    obtain ⟨e, _, err, _, _, h⟩ := randomNodePool_error c.nodeGroups [] hf
    exact ⟨.wrap "stopped nodes" err, by simp [Cluster.RandomNode, Cluster.NodeGroups, h]⟩

theorem mem_runningNodes_iff (g : NodeGroup A B S T) (node : Node) :
    node ∈ runningNodes g ↔
      ∃ kv ∈ g.nodes, kv.2 = node ∧ node.name ∉ g.StoppedNodes.1 := by
  simp only [runningNodes, List.mem_map, List.mem_filter, Bool.not_eq_true',
    ← Bool.not_eq_true, contains_iff]
  constructor
  · rintro ⟨kv, ⟨hkv, hs⟩, rfl⟩
    exact ⟨kv, hkv, rfl, hs⟩
  · rintro ⟨kv, hkv, rfl, hs⟩
    exact ⟨kv, ⟨hkv, hs⟩, rfl⟩

theorem mem_runningPool_iff (gs : GoMap (NodeGroup A B S T)) (node : Node) :
    node ∈ runningPool gs ↔
      ∃ e ∈ gs, ∃ kv ∈ e.2.nodes, kv.2 = node ∧ node.name ∉ e.2.StoppedNodes.1 := by
  simp only [runningPool, List.mem_flatMap, mem_runningNodes_iff]

/-- C6: `RandomNode` returns an error exactly when the stopped-nodes query of
some group returns an error other than `ErrNotSet`.  Otherwise, if some node is
not stopped, it returns a node of some group of the cluster whose name is not
in that group's stopped list.  Every operation of the not-set client answers
with `ErrNotSet` (and no stopped nodes), and a group with that answer does not
make `RandomNode` fail and has all its nodes in the pool of candidates. -/
theorem randomNode_tolerates_not_set (c : Cluster A B S T) (r : Rand) :
    ((∃ err, c.RandomNode r = .error err) ↔ ∃ e ∈ c.nodeGroups, StoppedQueryFails e.2) ∧
    ((∀ e ∈ c.nodeGroups, ¬ StoppedQueryFails e.2) →
      (∃ e ∈ c.nodeGroups, ∃ kv ∈ e.2.nodes, kv.2.name ∉ e.2.StoppedNodes.1) →
      ∃ node r', c.RandomNode r = .ok (node, r') ∧
        ∃ e ∈ c.nodeGroups, ∃ kv ∈ e.2.nodes,
          kv.2 = node ∧ node.name ∉ e.2.StoppedNodes.1) ∧
    (∀ name ns, notsetCreate = some .ErrNotSet ∧ notsetDelete name ns = some .ErrNotSet ∧
      notsetReady name ns = (false, some .ErrNotSet) ∧
      notsetRunningNodes ns = ([], some .ErrNotSet) ∧
      notsetStart name ns = some .ErrNotSet ∧ notsetStop name ns = some .ErrNotSet ∧
      notsetStoppedNodes ns = ([], some .ErrNotSet)) ∧
    (∀ e ∈ c.nodeGroups, ∀ ns, e.2.StoppedNodes = notsetStoppedNodes ns →
      ¬ StoppedQueryFails e.2 ∧ runningNodes e.2 = e.2.nodes.map Prod.snd) ∧
    ((∀ e ∈ c.nodeGroups, ¬ StoppedQueryFails e.2) →
      randomNodePool c.NodeGroups [] = .ok (runningPool c.nodeGroups)) := by
  refine ⟨randomNode_error_iff c r, ?_, ?_, ?_, ?_⟩
  · rintro hok ⟨e, he, kv, hkv, hs⟩
    have hmem : kv.2 ∈ runningPool c.nodeGroups :=
      (mem_runningPool_iff _ _).2 ⟨e, he, kv, hkv, rfl, hs⟩
    obtain ⟨node, hget, hres⟩ := randomNode_of_pool c r hok (List.length_pos_of_mem hmem)
    exact ⟨node, _, hres, (mem_runningPool_iff _ _).1 (List.getElem?_mem hget)⟩
  · intro name ns
    exact ⟨rfl, rfl, rfl, rfl, rfl, rfl, rfl⟩
  · intro e _ ns hns
    constructor
    · rintro ⟨err, h₁, h₂⟩
      rw [hns] at h₁
      simp only [notsetStoppedNodes, Option.some.injEq] at h₁
      exact h₂ h₁.symm
    · simp [runningNodes, hns, notsetStoppedNodes, contains, containsName]
  · intro hok
    have := randomNodePool_ok c.nodeGroups [] hok
    simpa [Cluster.NodeGroups] using this

/-- Witness for C6: in `notSetCluster` both groups answer with `ErrNotSet`, no
query fails, and `RandomNode` returns a node. -/
theorem randomNode_tolerates_not_set_witness :
    ∃ node r', notSetCluster.RandomNode zeroRand = .ok (node, r') ∧
      ∃ e ∈ notSetCluster.nodeGroups, ∃ kv ∈ e.2.nodes,
        kv.2 = node ∧ node.name ∉ e.2.StoppedNodes.1 := by
  have hmem : ∀ e ∈ notSetCluster.nodeGroups, ¬ StoppedQueryFails e.2 := by
    intro e he
    exact ((randomNode_tolerates_not_set notSetCluster zeroRand).2.2.2.1 e he "default" (by
      have he' : e = ("bee", { singleNodeGroup "bee-0" true 1 with
            StoppedNodes := notsetStoppedNodes "default" }) ∨
          e = ("light", { singleNodeGroup "light-0" false 2 with
            StoppedNodes := notsetStoppedNodes "default" }) := by
        simpa [notSetCluster] using he
      rcases he' with rfl | rfl <;> rfl)).1
  exact (randomNode_tolerates_not_set notSetCluster zeroRand).2.1 hmem
    ⟨("bee", { singleNodeGroup "bee-0" true 1 with
        StoppedNodes := notsetStoppedNodes "default" }),
      by simp [notSetCluster], ("bee-0", { name := "bee-0", fullNode := true }),
      by simp [singleNodeGroup], by simp [notsetStoppedNodes]⟩

theorem length_filter_range_getElem {α : Type} (p : α → Bool) (l : List α) :
    ((List.range l.length).filter (fun i => (l[i]?).any p)).length =
      (l.filter p).length := by
  induction l with
  | nil => rfl
  | cons a t ih =>
    rw [List.length_cons, List.range_succ_eq_map, List.filter_cons, List.filter_map,
      List.filter_cons]
    have hcomp : ((fun i => ((a :: t)[i]?).any p) ∘ Nat.succ) = (fun i => (t[i]?).any p) := by
      funext i
      simp
    rw [hcomp]
    by_cases hp : p a = true
    · simp [hp, ih]
    · have hp' : p a = false := by simpa using hp
      simp [hp', ih]

theorem runningNodes_subset (g : NodeGroup A B S T) :
    runningNodes g ⊆ g.nodes.map Prod.snd :=
  (List.Sublist.map Prod.snd (List.filter_sublist g.nodes)).subset

theorem runningPool_nodup (gs : GoMap (NodeGroup A B S T)) (hn : (clusterNodes gs).Nodup) :
    (runningPool gs).Nodup := by
  unfold clusterNodes at hn
  unfold runningPool
  rw [List.nodup_flatMap] at hn ⊢
  refine ⟨fun e he => ?_, ?_⟩
  · exact List.Nodup.sublist (List.Sublist.map Prod.snd (List.filter_sublist e.2.nodes))
      (hn.1 e he)
  · refine hn.2.imp ?_
    intro e₁ e₂ hd
    exact List.disjoint_of_subset_left (runningNodes_subset e₁.2)
      (List.disjoint_of_subset_right (runningNodes_subset e₂.2) hd)

theorem mem_group_of_mem_pool (gs : GoMap (NodeGroup A B S T))
    (hn : (clusterNodes gs).Nodup) (e : String × NodeGroup A B S T) (he : e ∈ gs)
    (node : Node) (hp : node ∈ runningPool gs) (hv : node ∈ e.2.nodes.map Prod.snd) :
    node ∈ runningNodes e.2 := by
  obtain ⟨e', he', hr⟩ := List.mem_flatMap.1 hp
  by_cases hee : e' = e
  · rw [← hee]; exact hr
  · exfalso
    unfold clusterNodes at hn
    have hpw := (List.nodup_flatMap.1 hn).2
    have hsymm : Symmetric (Function.onFun List.Disjoint
        (fun e : String × NodeGroup A B S T => e.2.nodes.map Prod.snd)) := by
      intro a b hab
      exact List.Disjoint.symm hab
    exact hpw.forall hsymm he' he hee (runningNodes_subset e'.2 hr) hv

theorem length_selectingIndices (gs : GoMap (NodeGroup A B S T))
    (hn : (clusterNodes gs).Nodup) (e : String × NodeGroup A B S T) (he : e ∈ gs) :
    (selectingIndices (runningPool gs) e.2).length = (runningNodes e.2).length := by
  unfold selectingIndices
  rw [length_filter_range_getElem (fun node => decide (node ∈ e.2.nodes.map Prod.snd))]
  apply List.Perm.length_eq
  have hpool := runningPool_nodup gs hn
  have hrun : (runningNodes e.2).Nodup := by
    unfold clusterNodes at hn
    exact List.Nodup.sublist (List.Sublist.map Prod.snd (List.filter_sublist e.2.nodes))
      ((List.nodup_flatMap.1 hn).1 e he)
  rw [List.perm_ext_iff_of_nodup (hpool.filter _) hrun]
  intro node
  simp only [List.mem_filter, decide_eq_true_eq]
  constructor
  · rintro ⟨hp, hv⟩
    exact mem_group_of_mem_pool gs hn e he node hp hv
  · intro hr
    exact ⟨List.mem_flatMap.2 ⟨e, he, hr⟩, runningNodes_subset e.2 hr⟩

theorem runningNodes_of_none_stopped (g : NodeGroup A B S T) (h : g.StoppedNodes.1 = []) :
    runningNodes g = g.nodes.map Prod.snd := by
  simp [runningNodes, h, contains, containsName]

/-- C7: when no stopped-nodes query fails, `RandomNode` builds one pool, the
running nodes of all groups, group after group (each running node of each group
once; its length is the sum of the groups' numbers of running nodes), and
returns the pool element at the one index `Intn(len(pool))`, which lies in
`[0, len(pool))`.  When the nodes of the cluster are pairwise distinct, every
running node occurs exactly once in the pool and the number of index values
that select a node of a group is that group's number of running nodes.  Hence
for two groups of 1 and 9 nodes, none stopped, the pool has 10 index values, of
which exactly 1 selects the node of the first group and 9 select a node of the
second, in either visiting order. -/
theorem randomNode_flat_selection (c : Cluster A B S T) (r : Rand)
    (hok : ∀ e ∈ c.nodeGroups, ¬ StoppedQueryFails e.2) :
    randomNodePool c.NodeGroups [] = .ok (runningPool c.nodeGroups) ∧
    (runningPool c.nodeGroups).length =
      (c.nodeGroups.map (fun e => (runningNodes e.2).length)).sum ∧
    (0 < (runningPool c.nodeGroups).length →
      r.gen r.hist (runningPool c.nodeGroups).length < (runningPool c.nodeGroups).length ∧
      ∃ node,
        (runningPool c.nodeGroups)[r.gen r.hist (runningPool c.nodeGroups).length]? =
          some node ∧
        c.RandomNode r = .ok (node, { r with
          hist := r.hist ++ [(runningPool c.nodeGroups).length] })) ∧
    ((clusterNodes c.nodeGroups).Nodup → ∀ e ∈ c.nodeGroups,
      (∀ node ∈ runningNodes e.2, (runningPool c.nodeGroups).count node = 1) ∧
      (selectingIndices (runningPool c.nodeGroups) e.2).length =
        (runningNodes e.2).length) ∧
    (∀ k₁ g₁ k₂ g₂, c.nodeGroups.Perm [(k₁, g₁), (k₂, g₂)] →
      (clusterNodes c.nodeGroups).Nodup →
      g₁.nodes.length = 1 → g₂.nodes.length = 9 →
      g₁.StoppedNodes.1 = [] → g₂.StoppedNodes.1 = [] →
      (runningPool c.nodeGroups).length = 10 ∧
      (selectingIndices (runningPool c.nodeGroups) g₁).length = 1 ∧
      (selectingIndices (runningPool c.nodeGroups) g₂).length = 9) := by
  have hlen : (runningPool c.nodeGroups).length =
      (c.nodeGroups.map (fun e => (runningNodes e.2).length)).sum := by
    simp only [runningPool, List.length_flatMap]
    rfl
  refine ⟨?_, hlen, ?_, ?_, ?_⟩
  · have := randomNodePool_ok c.nodeGroups [] hok
    simpa [Cluster.NodeGroups] using this
  · intro hpos
    exact ⟨r.gen_lt _ _ hpos, randomNode_of_pool c r hok hpos⟩
  · intro hn e he
    refine ⟨fun node hnode => ?_, length_selectingIndices c.nodeGroups hn e he⟩
    exact List.count_eq_one_of_mem (runningPool_nodup c.nodeGroups hn)
      (List.mem_flatMap.2 ⟨e, he, hnode⟩)
  · intro k₁ g₁ k₂ g₂ hp hn h₁ h₂ hs₁ hs₂
    have hr₁ : (runningNodes g₁).length = 1 := by
      rw [runningNodes_of_none_stopped g₁ hs₁, List.length_map, h₁]
    have hr₂ : (runningNodes g₂).length = 9 := by
      rw [runningNodes_of_none_stopped g₂ hs₂, List.length_map, h₂]
    refine ⟨?_, ?_, ?_⟩
    · rw [hlen, (hp.map _).sum_eq]
      simp [hr₁, hr₂]
    · rw [length_selectingIndices c.nodeGroups hn (k₁, g₁) (hp.mem_iff.2 (by simp)), hr₁]
    · rw [length_selectingIndices c.nodeGroups hn (k₂, g₂) (hp.mem_iff.2 (by simp)), hr₂]

/-- Witness for C7: in `skewedCluster` (groups of 1 and 9 nodes) the pool has
10 index values, 1 selecting the node of `solo` and 9 a node of `many`. -/
theorem randomNode_flat_selection_witness :
    (runningPool skewedCluster.nodeGroups).length = 10 ∧
    (selectingIndices (runningPool skewedCluster.nodeGroups)
      ({ nodes := (nodesNamed ["solo-0"]) } : NodeGroup Nat Nat Nat Nat)).length = 1 ∧
    (selectingIndices (runningPool skewedCluster.nodeGroups)
      ({ nodes := (nodesNamed
        ["many-0", "many-1", "many-2", "many-3", "many-4", "many-5", "many-6", "many-7",
          "many-8"]) } : NodeGroup Nat Nat Nat Nat)).length = 9 := by
  have hok : ∀ e ∈ skewedCluster.nodeGroups, ¬ StoppedQueryFails e.2 := by
    intro e he
    have he' : e.2.StoppedNodes = ([], none) := by
      simp only [skewedCluster, List.mem_cons, List.mem_singleton, List.not_mem_nil,
        or_false] at he
      rcases he with rfl | rfl <;> rfl
    rintro ⟨err, h, -⟩
    rw [he'] at h
    cases h
  exact (randomNode_flat_selection skewedCluster zeroRand hok).2.2.2.2
    "solo" _ "many" _ (List.Perm.refl _) (by decide) rfl rfl rfl rfl

/-! ## ClusterOverlays.Random -/

theorem rangePick_eq {V : Type} (zero : V) (m : GoMap V) (i : Nat) (e : String × V)
    (h : m[i]? = some e) : rangePick zero m i = e := by
  induction m generalizing i with
  | nil => simp at h
  | cons a rest ih =>
    obtain ⟨n, v⟩ := a
    cases i with
    | zero =>
      simp only [List.getElem?_cons_zero, Option.some.injEq] at h
      simp [rangePick, h]
    | succ i =>
      simp only [List.getElem?_cons_succ] at h
      simp only [rangePick, Nat.add_one_ne_zero, if_false, Nat.add_sub_cancel]
      exact ih i h

theorem random_eq (view : ClusterOverlays) (r : Rand) (hc : 0 < view.length)
    (ng : String) (ngo : NodeGroupOverlays)
    (hi : view[r.gen r.hist view.length]? = some (ng, ngo)) (hg : 0 < ngo.length)
    (name : String) (o : Address)
    (hj : ngo[r.gen (r.hist ++ [view.length]) ngo.length]? = some (name, o)) :
    ClusterOverlays.Random view r =
      some (ng, name, o, { r with hist := r.hist ++ [view.length] ++ [ngo.length] }) := by
  simp only [ClusterOverlays.Random, Rand.Intn, hc, if_true,
    rangePick_eq _ view _ _ hi, hg, rangePick_eq _ ngo _ _ hj]

theorem random_returns_entry (view : ClusterOverlays) (r : Rand) (hc : 0 < view.length)
    (hne : ∀ e ∈ view, 0 < e.2.length) :
    ∃ ng ngo name o r',
      view[r.gen r.hist view.length]? = some (ng, ngo) ∧
      ngo[r.gen (r.hist ++ [view.length]) ngo.length]? = some (name, o) ∧
      ClusterOverlays.Random view r = some (ng, name, o, r') := by
  have hi := r.gen_lt r.hist view.length hc
  have hget : view[r.gen r.hist view.length]? = some view[r.gen r.hist view.length] :=
    List.getElem?_eq_getElem hi
  rcases hce : view[r.gen r.hist view.length] with ⟨ng, ngo⟩
  rw [hce] at hget
  have hmem : (ng, ngo) ∈ view := List.getElem?_mem hget
  have hg : 0 < ngo.length := hne (ng, ngo) hmem
  have hj := r.gen_lt (r.hist ++ [view.length]) ngo.length hg
  have hget' : ngo[r.gen (r.hist ++ [view.length]) ngo.length]? =
      some ngo[r.gen (r.hist ++ [view.length]) ngo.length] := List.getElem?_eq_getElem hj
  rcases hoe : ngo[r.gen (r.hist ++ [view.length]) ngo.length] with ⟨name, o⟩
  rw [hoe] at hget'
  exact ⟨ng, ngo, name, o, _, hget, hget', random_eq view r hc ng ngo hget hg name o hget'⟩

theorem randomSelection_drawsRand (view : ClusterOverlays) (i j : Nat) (ng : String)
    (ngo : NodeGroupOverlays) (hi : view[i]? = some (ng, ngo)) (name : String) (o : Address)
    (hj : ngo[j]? = some (name, o)) :
    randomSelection view (drawsRand i j) = some (ng, name, o) := by
  have hilt : i < view.length := by
    by_contra h
    rw [List.getElem?_eq_none (by omega)] at hi
    cases hi
  have hjlt : j < ngo.length := by
    by_contra h
    rw [List.getElem?_eq_none (by omega)] at hj
    cases hj
  have h₁ : (drawsRand i j).gen (drawsRand i j).hist view.length = i := by
    simp [drawsRand, Nat.mod_eq_of_lt hilt]
  have h₂ : (drawsRand i j).gen ((drawsRand i j).hist ++ [view.length]) ngo.length = j := by
    simp [drawsRand, Nat.mod_eq_of_lt hjlt]
  have := random_eq view (drawsRand i j) (by omega) ng ngo (by rw [h₁]; exact hi) (by omega)
    name o (by rw [h₂]; exact hj)
  simp [randomSelection, this]

theorem index_eq_of_key_eq {V : Type} (m : GoMap V) (hm : MapWF m) (i j : Nat)
    (hi : i < m.length) (hj : j < m.length) (h : m[i].1 = m[j].1) : i = j := by
  have hi' : i < (mapKeys m).length := by simpa [mapKeys] using hi
  have hj' : j < (mapKeys m).length := by simpa [mapKeys] using hj
  have hkey : (mapKeys m)[i] = (mapKeys m)[j] := by
    simpa [mapKeys] using h
  exact (List.Nodup.getElem_inj_iff hm).1 hkey

theorem randomProbability_eq (view : ClusterOverlays) (hwf : MapWF view)
    (hwf' : ∀ e ∈ view, MapWF e.2) (k : String) (m : NodeGroupOverlays) (name : String)
    (o : Address) (hk : (k, m) ∈ view) (hn : (name, o) ∈ m) :
    randomProbability view (k, name, o) = 1 / ((view.length : ℚ) * (m.length : ℚ)) := by
  obtain ⟨i₀, hi₀, hvi₀⟩ := List.getElem_of_mem hk
  obtain ⟨j₀, hj₀, hmj₀⟩ := List.getElem_of_mem hn
  have hget₀ : view[i₀]? = some (k, m) := by rw [List.getElem?_eq_getElem hi₀, hvi₀]
  have hsz : groupSizeAt view i₀ = m.length := by simp [groupSizeAt, hget₀]
  unfold randomProbability
  rw [Finset.sum_eq_single i₀]
  · rw [hsz, Finset.sum_eq_single j₀]
    · rw [randomSelection_drawsRand view i₀ j₀ k m hget₀ name o
        (by rw [List.getElem?_eq_getElem hj₀, hmj₀])]
      simp
    · intro j hj hne
      have hjlt : j < m.length := Finset.mem_range.1 hj
      rw [randomSelection_drawsRand view i₀ j k m hget₀ m[j].1 m[j].2
        (by rw [List.getElem?_eq_getElem hjlt])]
      rw [if_neg]
      intro heq
      simp only [Option.some.injEq, Prod.mk.injEq, true_and] at heq
      apply hne
      apply index_eq_of_key_eq m (hwf' (k, m) hk) j j₀ hjlt hj₀
      rw [hmj₀]
      exact heq.1
    · intro h
      exact absurd (Finset.mem_range.2 hj₀) h
  · intro i hi hne
    have hilt : i < view.length := Finset.mem_range.1 hi
    have hgeti : view[i]? = some (view[i].1, view[i].2) := by
      rw [List.getElem?_eq_getElem hilt]
    have hszi : groupSizeAt view i = view[i].2.length := by simp [groupSizeAt, hgeti]
    apply Finset.sum_eq_zero
    intro j hj
    rw [hszi] at hj
    have hjlt : j < view[i].2.length := Finset.mem_range.1 hj
    rw [randomSelection_drawsRand view i j view[i].1 view[i].2 hgeti
      (view[i].2)[j].1 (view[i].2)[j].2 (by rw [List.getElem?_eq_getElem hjlt])]
    rw [if_neg]
    intro heq
    simp only [Option.some.injEq, Prod.mk.injEq] at heq
    apply hne
    apply index_eq_of_key_eq view hwf i i₀ hilt hi₀
    rw [hvi₀]
    exact heq.1
  · intro h
    exact absurd (Finset.mem_range.2 hi₀) h

/-- C8: for an overlay view (a well-formed map of well-formed maps) with at
least one group and no empty group, `ClusterOverlays.Random` draws a group
index with `Intn(len(view))`, then a node index with `Intn(len(group))`, and
returns the group name, node name and overlay found there: the group is a key
of the view, the name a key of that group and the overlay its value.  With
both draws uniform, a node of a group `m` is returned with probability
`1 / (len(view) * len(m))`; for two groups of sizes 1 and 9 the lone node has
probability 1/2 and each of the nine has 1/18. -/
theorem random_overlay_two_stage (view : ClusterOverlays) (hc : 0 < view.length)
    (hne : ∀ e ∈ view, 0 < e.2.length) (hwf : MapWF view) (hwf' : ∀ e ∈ view, MapWF e.2) :
    (∀ r : Rand, ∃ ng ngo name o r',
      r.gen r.hist view.length < view.length ∧
      view[r.gen r.hist view.length]? = some (ng, ngo) ∧
      r.gen (r.hist ++ [view.length]) ngo.length < ngo.length ∧
      ngo[r.gen (r.hist ++ [view.length]) ngo.length]? = some (name, o) ∧
      ClusterOverlays.Random view r = some (ng, name, o, r') ∧
      mapGet view ng = some ngo ∧ mapGet ngo name = some o) ∧
    (∀ k m name o, (k, m) ∈ view → (name, o) ∈ m →
      randomProbability view (k, name, o) = 1 / ((view.length : ℚ) * (m.length : ℚ))) ∧
    (∀ k₁ m₁ k₂ m₂, view.Perm [(k₁, m₁), (k₂, m₂)] → m₁.length = 1 → m₂.length = 9 →
      (∀ name o, (name, o) ∈ m₁ → randomProbability view (k₁, name, o) = 1 / 2) ∧
      (∀ name o, (name, o) ∈ m₂ → randomProbability view (k₂, name, o) = 1 / 18)) := by
  refine ⟨?_, ?_, ?_⟩
  · intro r
    obtain ⟨ng, ngo, name, o, r', h₁, h₂, h₃⟩ := random_returns_entry view r hc hne
    have hm₁ : (ng, ngo) ∈ view := List.getElem?_mem h₁
    have hm₂ : (name, o) ∈ ngo := List.getElem?_mem h₂
    exact ⟨ng, ngo, name, o, r', r.gen_lt _ _ hc, h₁, r.gen_lt _ _ (hne _ hm₁), h₂, h₃,
      (mapGet_eq_some_iff view hwf ng ngo).2 hm₁,
      (mapGet_eq_some_iff ngo (hwf' _ hm₁) name o).2 hm₂⟩
  · intro k m name o hk hn
    exact randomProbability_eq view hwf hwf' k m name o hk hn
  · intro k₁ m₁ k₂ m₂ hp h₁ h₂
    have hlen : view.length = 2 := by rw [hp.length_eq]; rfl
    constructor
    · intro name o hn
      rw [randomProbability_eq view hwf hwf' k₁ m₁ name o (hp.mem_iff.2 (by simp)) hn,
        hlen, h₁]
      norm_num
    · intro name o hn
      rw [randomProbability_eq view hwf hwf' k₂ m₂ name o (hp.mem_iff.2 (by simp)) hn,
        hlen, h₂]
      norm_num

/-- Witness for C8: in `skewedOverlays` (groups of 1 and 9 nodes) the node of
`solo` is returned with probability 1/2. -/
theorem random_overlay_two_stage_witness :
    randomProbability skewedOverlays ("solo", "solo-0", Address.mk [0]) = 1 / 2 :=
  ((random_overlay_two_stage skewedOverlays (by decide) (by decide) (by decide)
    (by decide)).2.2 "solo" _ "many" _ (List.Perm.refl _) rfl rfl).1 "solo-0" (Address.mk [0])
    (by simp)

/-! ## Address derivation -/

theorem hostPattern_namespaced (name ns domain : String) :
    hostPattern name ns domain false = name ++ "." ++ ns ++ "." ++ domain := by
  simp [hostPattern, String.intercalate, String.intercalate.go]

theorem hostPattern_flat (name ns domain : String) :
    hostPattern name ns domain true = name ++ "." ++ domain := by
  simp [hostPattern, String.intercalate, String.intercalate.go]

theorem debug_suffix : "-debug." = "-debug" ++ "." := by decide

theorem ingressHost_eq_pattern (c : Cluster A B S T) (name : String) :
    c.ingressHost name = hostPattern name c.namespace_ c.apiDomain c.disableNamespace := by
  cases h : c.disableNamespace
  · simp [Cluster.ingressHost, h, hostPattern_namespaced]
  · simp [Cluster.ingressHost, h, hostPattern_flat]

theorem ingressDebugHost_eq_pattern (c : Cluster A B S T) (name : String) :
    c.ingressDebugHost name =
      hostPattern (name ++ "-debug") c.namespace_ c.debugAPIDomain c.disableNamespace := by
  cases h : c.disableNamespace
  · simp [Cluster.ingressDebugHost, h, hostPattern_namespaced, debug_suffix,
      String.append_assoc]
  · simp [Cluster.ingressDebugHost, h, hostPattern_flat, debug_suffix, String.append_assoc]

theorem apiURL_eq (U : Type) (parse : String → Except GoError U) (c : Cluster A B S T)
    (name : String) :
    c.apiURL parse name =
      match parse (c.apiScheme ++ "://" ++ c.ingressHost name) with
      | .error err => .error (.wrap ("bad API url for node " ++ name) err)
      | .ok u => .ok u := by
  cases h : c.disableNamespace
  · simp [Cluster.apiURL, Cluster.ingressHost, h, String.append_assoc]
  · simp [Cluster.apiURL, Cluster.ingressHost, h, String.append_assoc]

theorem debugAPIURL_eq (U : Type) (parse : String → Except GoError U) (c : Cluster A B S T)
    (name : String) :
    c.debugAPIURL parse name =
      match parse (c.debugAPIScheme ++ "://" ++ c.ingressDebugHost name) with
      | .error err => .error (.wrap ("bad debug API url for node " ++ name) err)
      | .ok u => .ok u := by
  cases h : c.disableNamespace
  · simp [Cluster.debugAPIURL, Cluster.ingressDebugHost, h, String.append_assoc]
  · simp [Cluster.debugAPIURL, Cluster.ingressDebugHost, h, String.append_assoc]

/-- C9: if the text `<scheme>://<name>.<namespace>.<domain>` (namespaces in
use) or `<scheme>://<name>.<domain>` (namespaces disabled) parses to the URL
`u`, then `apiURL(name)` is `u`; `debugAPIURL` is the same with `name-debug`
for the name and the debug scheme and debug domain.  For `(bee-0, testnet,
example.com, https)` the texts are `https://bee-0.testnet.example.com` and
`https://bee-0.example.com`, and for the debug API
`https://bee-0-debug.testnet.example.com` and
`https://bee-0-debug.example.com`. -/
theorem apiURL_follows_pattern (U : Type) (parse : String → Except GoError U)
    (c : Cluster A B S T) (name : String) :
    (∀ u, parse (urlPattern c.apiScheme
        (hostPattern name c.namespace_ c.apiDomain c.disableNamespace)) = .ok u →
      c.apiURL parse name = .ok u) ∧
    (∀ u, parse (urlPattern c.debugAPIScheme
        (hostPattern (name ++ "-debug") c.namespace_ c.debugAPIDomain
          c.disableNamespace)) = .ok u →
      c.debugAPIURL parse name = .ok u) ∧
    (exampleConfig false).apiURL textURL "bee-0" = .ok "https://bee-0.testnet.example.com" ∧
    (exampleConfig true).apiURL textURL "bee-0" = .ok "https://bee-0.example.com" ∧
    (exampleConfig false).debugAPIURL textURL "bee-0" =
      .ok "https://bee-0-debug.testnet.example.com" ∧
    (exampleConfig true).debugAPIURL textURL "bee-0" =
      .ok "https://bee-0-debug.example.com" := by
  refine ⟨?_, ?_, ?_, ?_, ?_, ?_⟩
  · intro u hu
    rw [apiURL_eq, ingressHost_eq_pattern]
    unfold urlPattern at hu
    rw [hu]
  · intro u hu
    rw [debugAPIURL_eq, ingressDebugHost_eq_pattern]
    unfold urlPattern at hu
    rw [hu]
  · decide
  · decide
  · decide
  · decide

/-- Witness for C9: with the parser that accepts every text, the API URL of
`bee-0` in the example configuration is `https://bee-0.testnet.example.com`. -/
theorem apiURL_follows_pattern_witness :
    (exampleConfig false).apiURL textURL "bee-0" = .ok "https://bee-0.testnet.example.com" :=
  (apiURL_follows_pattern String textURL (exampleConfig false) "bee-0").1
    "https://bee-0.testnet.example.com" (by decide)

/-- C10 (counterexample): with an empty API scheme the ingress host of `bee-0`
is `bee-0.testnet.example.com`, the text handed to the URL parser is
`://bee-0.testnet.example.com`, which `url.Parse` rejects, and `apiURL` returns
no URL but the wrapped error. -/
theorem apiURL_rejects_empty_scheme :
    schemelessConfig.ingressHost "bee-0" = "bee-0.testnet.example.com" ∧
      schemelessConfig.apiScheme ++ "://" ++ schemelessConfig.ingressHost "bee-0" =
        "://bee-0.testnet.example.com" ∧
      schemelessConfig.apiURL rejectEmptyScheme "bee-0" =
        .error (.wrap "bad API url for node bee-0" (.errorf "missing protocol scheme")) := by
  decide

/-- C10 (amended): in both addressing modes the text that `apiURL(name)` hands
to the URL parser is `apiScheme ++ "://" ++ ingressHost(name)` and the one that
`debugAPIURL(name)` hands over is `debugAPIScheme ++ "://" ++
ingressDebugHost(name)`, so the host part of that text and the ingress host are
the same string.  `apiURL` and `debugAPIURL` return a URL exactly when the
parser accepts that text, and then the parser's URL; otherwise they return the
parser's error wrapped with the node name.  The debug host is the host pattern
applied to `name ++ "-debug"` with the same namespace and the debug domain,
that is `ingressHost` of `name-debug` in a cluster whose API domain is the debug
domain. -/
theorem url_host_is_ingress_host (U : Type) (parse : String → Except GoError U)
    (c : Cluster A B S T) (name : String) :
    (c.apiURL parse name =
      match parse (c.apiScheme ++ "://" ++ c.ingressHost name) with
      | .error err => .error (.wrap ("bad API url for node " ++ name) err)
      | .ok u => .ok u) ∧
    (c.debugAPIURL parse name =
      match parse (c.debugAPIScheme ++ "://" ++ c.ingressDebugHost name) with
      | .error err => .error (.wrap ("bad debug API url for node " ++ name) err)
      | .ok u => .ok u) ∧
    (∀ u, c.apiURL parse name = .ok u ↔
      parse (c.apiScheme ++ "://" ++ c.ingressHost name) = .ok u) ∧
    (∀ u, c.debugAPIURL parse name = .ok u ↔
      parse (c.debugAPIScheme ++ "://" ++ c.ingressDebugHost name) = .ok u) ∧
    (∀ err, parse (c.apiScheme ++ "://" ++ c.ingressHost name) = .error err →
      c.apiURL parse name = .error (.wrap ("bad API url for node " ++ name) err)) ∧
    (∀ err, parse (c.debugAPIScheme ++ "://" ++ c.ingressDebugHost name) = .error err →
      c.debugAPIURL parse name =
        .error (.wrap ("bad debug API url for node " ++ name) err)) ∧
    c.ingressDebugHost name =
      ({ c with apiDomain := c.debugAPIDomain } : Cluster A B S T).ingressHost
        (name ++ "-debug") ∧
    c.ingressHost name = hostPattern name c.namespace_ c.apiDomain c.disableNamespace ∧
    c.ingressDebugHost name =
      hostPattern (name ++ "-debug") c.namespace_ c.debugAPIDomain c.disableNamespace := by
  refine ⟨apiURL_eq U parse c name, debugAPIURL_eq U parse c name, ?_, ?_, ?_, ?_, ?_,
    ingressHost_eq_pattern c name, ingressDebugHost_eq_pattern c name⟩
  · intro u
    rw [apiURL_eq]
    cases parse (c.apiScheme ++ "://" ++ c.ingressHost name) <;> simp
  · intro u
    rw [debugAPIURL_eq]
    cases parse (c.debugAPIScheme ++ "://" ++ c.ingressDebugHost name) <;> simp
  · intro err herr
    rw [apiURL_eq, herr]
  · intro err herr
    rw [debugAPIURL_eq, herr]
  · rw [ingressDebugHost_eq_pattern, ingressHost_eq_pattern]

/-- Witness for C10 (amended): the parser rejects the text of the
configuration with an empty scheme, and `apiURL` wraps its error. -/
theorem url_host_is_ingress_host_witness :
    schemelessConfig.apiURL rejectEmptyScheme "bee-0" =
      .error (.wrap "bad API url for node bee-0" (.errorf "missing protocol scheme")) :=
  (url_host_is_ingress_host String rejectEmptyScheme schemelessConfig "bee-0").2.2.2.2.1
    (.errorf "missing protocol scheme") (by decide)

/-! ## AddNodeGroup and mergeMaps -/

theorem storeEntries_nil {V : Type} (acc : GoMap V) : storeEntries [] acc = acc := rfl

theorem storeEntries_cons {V : Type} (e : String × V) (inner acc : GoMap V) :
    storeEntries (e :: inner) acc = storeEntries inner (mapSet acc e.1 e.2) := rfl

theorem mapWF_storeEntries {V : Type} (inner acc : GoMap V) (h : MapWF acc) :
    MapWF (storeEntries inner acc) := by
  induction inner generalizing acc with
  | nil => exact h
  | cons e rest ih =>
    rw [storeEntries_cons]
    exact ih _ (mapWF_mapSet acc e.1 e.2 h)

theorem mem_mapKeys_storeEntries {V : Type} (inner acc : GoMap V) (k : String) :
    k ∈ mapKeys (storeEntries inner acc) ↔ k ∈ mapKeys inner ∨ k ∈ mapKeys acc := by
  induction inner generalizing acc with
  | nil => simp [storeEntries_nil, mapKeys]
  | cons e rest ih =>
    rw [storeEntries_cons, ih, mem_mapKeys_mapSet, mapKeys_cons, List.mem_cons]
    tauto

theorem mapGet_storeEntries_of_not_mem {V : Type} (inner acc : GoMap V) (k : String)
    (h : k ∉ mapKeys inner) : mapGet (storeEntries inner acc) k = mapGet acc k := by
  induction inner generalizing acc with
  | nil => rfl
  | cons e rest ih =>
    simp only [mapKeys_cons, List.mem_cons, not_or] at h
    rw [storeEntries_cons, ih _ h.2, mapGet_mapSet, if_neg h.1]

theorem mapGet_storeEntries_of_mem {V : Type} (inner acc : GoMap V) (hi : MapWF inner)
    (k : String) (v : V) (h : (k, v) ∈ inner) :
    mapGet (storeEntries inner acc) k = some v := by
  induction inner generalizing acc with
  | nil => simp at h
  | cons e rest ih =>
    simp only [MapWF, mapKeys_cons, List.nodup_cons] at hi
    rw [storeEntries_cons]
    rcases List.mem_cons.1 h with h | h
    · subst h
      rw [mapGet_storeEntries_of_not_mem _ _ _ hi.1, mapGet_mapSet, if_pos rfl]
    · exact ih _ hi.2 h

theorem mapGet_eq_none_of_not_mem {V : Type} (m : GoMap V) (k : String)
    (h : k ∉ mapKeys m) : mapGet m k = none := by
  induction m with
  | nil => rfl
  | cons e rest ih =>
    obtain ⟨k', v'⟩ := e
    simp only [mapKeys_cons, List.mem_cons, not_or] at h
    have hb : (k == k') = false := by simpa using h.1
    have ih' := ih h.2
    simp only [mapGet] at ih' ⊢
    simp only [List.lookup, hb, ih']

theorem exists_mem_of_mem_mapKeys {V : Type} (m : GoMap V) (k : String)
    (h : k ∈ mapKeys m) : ∃ v, (k, v) ∈ m := by
  simp only [mapKeys, List.mem_map] at h
  obtain ⟨⟨k', v⟩, he, rfl⟩ := h
  exact ⟨v, he⟩

theorem mapGet_storeEntries_empty {V : Type} (a : GoMap V) (ha : MapWF a) (k : String) :
    mapGet (storeEntries a []) k = mapGet a k := by
  by_cases hk : k ∈ mapKeys a
  · obtain ⟨v, hv⟩ := exists_mem_of_mem_mapKeys a k hk
    rw [mapGet_storeEntries_of_mem a [] ha k v hv, (mapGet_eq_some_iff a ha k v).2 hv]
  · rw [mapGet_storeEntries_of_not_mem a [] k hk, mapGet_eq_none_of_not_mem a k hk]
    rfl

theorem mergeMaps_eq (a b : GoMap String) :
    mergeMaps a b = storeEntries b (storeEntries a []) := rfl

theorem mapGet_mergeMaps_of_mem (a b : GoMap String) (hb : MapWF b) (k : String)
    (hk : k ∈ mapKeys b) : mapGet (mergeMaps a b) k = mapGet b k := by
  obtain ⟨v, hv⟩ := exists_mem_of_mem_mapKeys b k hk
  rw [mergeMaps_eq, mapGet_storeEntries_of_mem b _ hb k v hv,
    (mapGet_eq_some_iff b hb k v).2 hv]

theorem mapGet_mergeMaps_of_not_mem (a b : GoMap String) (ha : MapWF a) (k : String)
    (hk : k ∉ mapKeys b) : mapGet (mergeMaps a b) k = mapGet a k := by
  rw [mergeMaps_eq, mapGet_storeEntries_of_not_mem b _ k hk, mapGet_storeEntries_empty a ha]

theorem addNodeGroup_nodeGroups (N : String → NodeGroupOptions → NodeGroup A B S T)
    (c : Cluster A B S T) (name : String) (o : NodeGroupOptions) :
    (c.AddNodeGroup N name o).nodeGroups =
      mapSet c.nodeGroups name
        { N name o with
          k8s := if c.k8s then .kubernetes else .notset
          opts := { (N name o).opts with
            Annotations := mergeMaps c.annotations o.Annotations
            Labels := mergeMaps c.labels o.Labels } } := rfl

/-- C11, counterexample: `bee` is registered in `duplicateCluster` with the
node `bee-0`; `AddNodeGroup` with the name `bee` returns a cluster (it has no
error result) in which the group registered under `bee` has no node: the
previously registered group has been replaced. -/
theorem addNodeGroup_replaces_registered :
    (mapGet duplicateCluster.nodeGroups "bee").map (fun g => mapKeys g.nodes) =
      some ["bee-0"] ∧
    (mapGet (duplicateCluster.AddNodeGroup emptyNodeGroup "bee" {}).nodeGroups "bee").map
      (fun g => mapKeys g.nodes) = some [] ∧
    mapKeys (duplicateCluster.AddNodeGroup emptyNodeGroup "bee" {}).nodeGroups =
      ["bee", "light"] := by
  refine ⟨by decide, by decide, by decide⟩

/-- C11, amended: `AddNodeGroup` has no error result and cannot fail: it stores
the new group under the name, whether or not the name is already registered (a
previously registered group of that name is replaced); the groups registered
under other names are not changed, the registered names are the old ones and
the new one, and a well-formed group map stays well-formed. -/
theorem addNodeGroup_stores_group (N : String → NodeGroupOptions → NodeGroup A B S T)
    (c : Cluster A B S T) (name : String) (o : NodeGroupOptions) :
    mapGet (c.AddNodeGroup N name o).nodeGroups name =
      some { N name o with
        k8s := if c.k8s then .kubernetes else .notset
        opts := { (N name o).opts with
          Annotations := mergeMaps c.annotations o.Annotations
          Labels := mergeMaps c.labels o.Labels } } ∧
    (∀ k, k ≠ name →
      mapGet (c.AddNodeGroup N name o).nodeGroups k = mapGet c.nodeGroups k) ∧
    (∀ k, k ∈ mapKeys (c.AddNodeGroup N name o).nodeGroups ↔
      k = name ∨ k ∈ mapKeys c.nodeGroups) ∧
    (MapWF c.nodeGroups → MapWF (c.AddNodeGroup N name o).nodeGroups) := by
  rw [addNodeGroup_nodeGroups]
  refine ⟨?_, ?_, ?_, ?_⟩
  · rw [mapGet_mapSet, if_pos rfl]
  · intro k hk
    rw [mapGet_mapSet, if_neg hk]
  · intro k
    exact mem_mapKeys_mapSet _ _ _ _
  · intro h
    exact mapWF_mapSet _ _ _ h

/-- Witness for C11 (amended): registering `bee` again in `duplicateCluster`
keeps the group map well-formed. -/
theorem addNodeGroup_stores_group_witness :
    MapWF (duplicateCluster.AddNodeGroup emptyNodeGroup "bee" {}).nodeGroups :=
  (addNodeGroup_stores_group emptyNodeGroup duplicateCluster "bee" {}).2.2.2 (by decide)

/-- C12: for well-formed maps `a` (cluster level) and `b` (group level),
`m = mergeMaps a b` is a well-formed map whose keys are the keys of `a` and of
`b`, with `m[k] = b[k]` for every key of `b` and `m[k] = a[k]` for every key
that is not in `b`; with a nil (empty) `a` it agrees with `b`, with a nil `b`
it agrees with `a`.  `AddNodeGroup` gives the registered group the annotations
`mergeMaps c.annotations o.Annotations` and the labels
`mergeMaps c.labels o.Labels`, and leaves the cluster's own maps unchanged (the
inputs of the pure function `mergeMaps` cannot change). -/
theorem mergeMaps_group_wins (a b : GoMap String) (ha : MapWF a) (hb : MapWF b) :
    MapWF (mergeMaps a b) ∧
    (∀ k, k ∈ mapKeys (mergeMaps a b) ↔ k ∈ mapKeys a ∨ k ∈ mapKeys b) ∧
    (∀ k, k ∈ mapKeys b → mapGet (mergeMaps a b) k = mapGet b k) ∧
    (∀ k, k ∉ mapKeys b → mapGet (mergeMaps a b) k = mapGet a k) ∧
    (∀ k, mapGet (mergeMaps [] b) k = mapGet b k) ∧
    (∀ k, mapGet (mergeMaps a []) k = mapGet a k) ∧
    (∀ (A B S T : Type) (N : String → NodeGroupOptions → NodeGroup A B S T)
      (c : Cluster A B S T) (name : String) (o : NodeGroupOptions),
      c.annotations = a → o.Annotations = b →
      (∃ g, mapGet (c.AddNodeGroup N name o).nodeGroups name = some g ∧
        g.opts.Annotations = mergeMaps a b ∧
        g.opts.Labels = mergeMaps c.labels o.Labels) ∧
      (c.AddNodeGroup N name o).annotations = a ∧
      (c.AddNodeGroup N name o).labels = c.labels) := by
  refine ⟨?_, ?_, ?_, ?_, ?_, ?_, ?_⟩
  · rw [mergeMaps_eq]
    exact mapWF_storeEntries _ _ (mapWF_storeEntries _ _ (by simp [MapWF, mapKeys]))
  · intro k
    rw [mergeMaps_eq, mem_mapKeys_storeEntries, mem_mapKeys_storeEntries]
    simp only [mapKeys_nil, List.not_mem_nil, or_false]
    tauto
  · intro k hk
    exact mapGet_mergeMaps_of_mem a b hb k hk
  · intro k hk
    exact mapGet_mergeMaps_of_not_mem a b ha k hk
  · intro k
    by_cases hk : k ∈ mapKeys b
    · exact mapGet_mergeMaps_of_mem [] b hb k hk
    · rw [mapGet_mergeMaps_of_not_mem [] b (by simp [MapWF, mapKeys]) k hk,
        mapGet_eq_none_of_not_mem b k hk]
      rfl
  · intro k
    exact mapGet_mergeMaps_of_not_mem a [] ha k (by simp [mapKeys])
  · intro A B S T N c name o hca hob
    refine ⟨⟨_, (addNodeGroup_stores_group N c name o).1, ?_, rfl⟩, hca, rfl⟩
    simp only [hca, hob]

/-- Witness for C12: the group value wins for the shared key `app`, the
cluster value is kept for `tier`. -/
theorem mergeMaps_group_wins_witness :
    mapGet (mergeMaps [("app", "bee"), ("tier", "test")] [("app", "light")]) "app" =
      some "light" ∧
    mapGet (mergeMaps [("app", "bee"), ("tier", "test")] [("app", "light")]) "tier" =
      some "test" := by
  have h := mergeMaps_group_wins [("app", "bee"), ("tier", "test")] [("app", "light")]
    (by decide) (by decide)
  exact ⟨by rw [h.2.2.1 "app" (by decide)]; decide,
    by rw [h.2.2.2.1 "tier" (by decide)]; decide⟩

/-! ## NodeGroupsSorted -/

theorem fillNames_eq {G : Type} (gs : GoMap G) (pre : List String) :
    fillNames gs (pre ++ List.replicate gs.length "") pre.length = pre ++ mapKeys gs := by
  induction gs generalizing pre with
  | nil => simp [fillNames, mapKeys]
  | cons e rest ih =>
    obtain ⟨k, v⟩ := e
    have hset : (pre ++ List.replicate (rest.length + 1) "").set pre.length k =
        (pre ++ [k]) ++ List.replicate rest.length "" := by
      simp [List.replicate_succ, List.set_append]
    have hlen : pre.length + 1 = (pre ++ [k]).length := by simp
    simp only [fillNames, List.length_cons]
    rw [hset, hlen, ih (pre ++ [k])]
    simp [mapKeys]

theorem nodeGroupsSorted_eq (c : Cluster A B S T) :
    c.NodeGroupsSorted = sortStrings (mapKeys c.nodeGroups) := by
  have h := fillNames_eq c.nodeGroups []
  simp only [List.nil_append, List.length_nil] at h
  simp only [Cluster.NodeGroupsSorted, h]

/-- C13: `NodeGroupsSorted` returns a list in ascending order of strings that
is a permutation of the registered group names (without repetition, as the
names of a well-formed map are distinct), and the list is the same for every
order in which the group map is visited. -/
theorem nodeGroupsSorted_sorted_perm (c : Cluster A B S T) :
    List.Sorted (· ≤ ·) c.NodeGroupsSorted ∧
    c.NodeGroupsSorted.Perm (mapKeys c.nodeGroups) ∧
    (MapWF c.nodeGroups → c.NodeGroupsSorted.Nodup ∧ List.Sorted (· < ·) c.NodeGroupsSorted) ∧
    (∀ gs, gs.Perm c.nodeGroups →
      ({ c with nodeGroups := gs } : Cluster A B S T).NodeGroupsSorted =
        c.NodeGroupsSorted) := by
  have hs : ∀ l : List String, List.Sorted (· ≤ ·) (sortStrings l) :=
    fun l => List.sorted_insertionSort (· ≤ ·) l
  have hp : ∀ l : List String, (sortStrings l).Perm l :=
    fun l => List.perm_insertionSort (· ≤ ·) l
  refine ⟨?_, ?_, ?_, ?_⟩
  · rw [nodeGroupsSorted_eq]; exact hs _
  · rw [nodeGroupsSorted_eq]; exact hp _
  · intro hwf
    rw [nodeGroupsSorted_eq]
    have hnd : (sortStrings (mapKeys c.nodeGroups)).Nodup := (hp _).nodup_iff.2 hwf
    exact ⟨hnd, (hs _).lt_of_le hnd⟩
  · intro gs hgs
    rw [nodeGroupsSorted_eq, nodeGroupsSorted_eq]
    apply List.eq_of_perm_of_sorted (r := (· ≤ ·)) _ (hs _) (hs _)
    exact (hp _).trans (((hgs.map Prod.fst)).trans (hp _).symm)

/-- Witness for C13: the names of `duplicateCluster` come back without
repetition, also when the groups are visited in the reverse order. -/
theorem nodeGroupsSorted_sorted_perm_witness :
    duplicateCluster.NodeGroupsSorted.Nodup ∧
    ({ duplicateCluster with nodeGroups := duplicateCluster.nodeGroups.reverse } :
      Cluster Nat Nat Nat Nat).NodeGroupsSorted = duplicateCluster.NodeGroupsSorted :=
  ⟨((nodeGroupsSorted_sorted_perm duplicateCluster).2.2.1 (by decide)).1,
    (nodeGroupsSorted_sorted_perm duplicateCluster).2.2.2 _ (List.reverse_perm _)⟩

/-! ## FlattenOverlays with exclusions -/

theorem flattenGroups_exclude_eq {V : Type} (exclude : List String) (gs : GoMap (GoMap V))
    (res : GoMap V) :
    flattenGroups exclude gs res = flattenGroups [] (includedGroups exclude gs) res := by
  induction gs generalizing res with
  | nil => rfl
  | cons e rest ih =>
    obtain ⟨ngn, ngo⟩ := e
    by_cases hx : containsName exclude ngn = true
    · rw [includedGroups_cons_of_excluded exclude (ngn, ngo) rest hx]
      simp only [flattenGroups, hx, if_true]
      exact ih res
    · have hx' : containsName exclude ngn = false := by simpa using hx
      rw [includedGroups_cons_of_included exclude (ngn, ngo) rest hx']
      simp only [flattenGroups, hx', containsName_nil, Bool.false_eq_true, if_false]
      cases flattenGroup ngo res with
      | error err => rfl
      | ok res' => exact ih res'

/-- C14, the code at the failing input: in `failingCluster` the overlay query
of the group `light` fails.  `FlattenOverlays` with `light` excluded returns
that group's error, because it calls `Overlays` without the exclusions; the
same cluster without the group `light` flattens to the overlays of `bee`, and
`Overlays` with `light` excluded succeeds as well. -/
theorem flattenOverlays_queries_excluded_group :
    failingCluster.FlattenOverlays id ["light"] =
      .error (.wrap "light" (.errorf "connection refused")) ∧
    ({ failingCluster with
        nodeGroups := includedGroups ["light"] failingCluster.nodeGroups } :
      Cluster Nat Nat Nat Nat).FlattenOverlays id [] = .ok [("bee-0", Address.mk [1])] ∧
    failingCluster.Overlays ["light"] = .ok [("bee", [("bee-0", Address.mk [1])])] := by
  refine ⟨by decide, by decide, by decide⟩

/-! ## The engine: basic lemmas -/

theorem trace_call (st : RunState) (client : Client) (op : Op) :
    (st.call client op).trace = st.trace ++ [.call client op] := rfl

theorem calls_call (st : RunState) (client : Client) (op : Op) :
    (st.call client op).calls = st.calls + 1 := rfl

theorem pushes_call (st : RunState) (client : Client) (op : Op) :
    (st.call client op).pushes = st.pushes := rfl

theorem rnds_call (st : RunState) (client : Client) (op : Op) :
    (st.call client op).rnds = st.rnds := rfl

theorem trace_inc (st : RunState) (c : Counter) (label : Address) :
    (st.inc c label).trace = st.trace ++ [.inc c label] := rfl

theorem calls_inc (st : RunState) (c : Counter) (label : Address) :
    (st.inc c label).calls = st.calls := rfl

theorem pushes_inc (st : RunState) (c : Counter) (label : Address) :
    (st.inc c label).pushes = st.pushes := rfl

theorem rnds_inc (st : RunState) (c : Counter) (label : Address) :
    (st.inc c label).rnds = st.rnds := rfl

theorem trace_pushMetrics (st : RunState) (env : Env) (pusher : Bool) :
    (st.pushMetrics env pusher).trace = st.trace ++ pushEvents env pusher st.pushes := by
  cases pusher <;> simp [RunState.pushMetrics, pushEvents]

theorem calls_pushMetrics (st : RunState) (env : Env) (pusher : Bool) :
    (st.pushMetrics env pusher).calls = st.calls := by
  cases pusher <;> simp [RunState.pushMetrics]

theorem rnds_pushMetrics (st : RunState) (env : Env) (pusher : Bool) :
    (st.pushMetrics env pusher).rnds = st.rnds := by
  cases pusher <;> simp [RunState.pushMetrics]

theorem forRange_nil (body : Nat → RunState → Step × RunState) (st : RunState) :
    forRange body [] st = (.next, st) := rfl

theorem forRange_cons_next (body : Nat → RunState → Step × RunState) (i : Nat)
    (rest : List Nat) (st st' : RunState) (h : body i st = (.next, st')) :
    forRange body (i :: rest) st = forRange body rest st' := by
  simp [forRange, h]

theorem forRange_cons_stop (body : Nat → RunState → Step × RunState) (i : Nat)
    (rest : List Nat) (st st' : RunState) (err : GoError) (h : body i st = (.stop err, st')) :
    forRange body (i :: rest) st = (.stop err, st') := by
  simp [forRange, h]

theorem forRange_cons_panic (body : Nat → RunState → Step × RunState) (i : Nat)
    (rest : List Nat) (st st' : RunState) (h : body i st = (.panic, st')) :
    forRange body (i :: rest) st = (.panic, st') := by
  simp [forRange, h]

theorem forRange_single (body : Nat → RunState → Step × RunState) (i : Nat) (st : RunState) :
    forRange body [i] st = body i st := by
  rcases h : body i st with ⟨step, st'⟩
  cases step with
  | next => rw [forRange_cons_next body i [] st st' h, forRange_nil]
  | stop err => rw [forRange_cons_stop body i [] st st' err h]
  | panic => rw [forRange_cons_panic body i [] st st' h]

theorem incCount_append (c : Counter) (l₁ l₂ : List Event) :
    incCount c (l₁ ++ l₂) = incCount c l₁ + incCount c l₂ := by
  simp [incCount, List.countP_append]

theorem incCount_pushEvents (c : Counter) (env : Env) (pusher : Bool) (n : Nat) :
    incCount c (pushEvents env pusher n) = 0 := by
  cases pusher <;> simp [incCount, pushEvents]

/-! ## The simulation: one chunk -/

theorem getElem?_set_self' {α : Type} (l : List α) (i : Nat) (x y : α)
    (h : l[i]? = some x) : (l.set i y)[i]? = some y := by
  have hi : i < l.length := by
    by_contra hc
    rw [List.getElem?_eq_none (by omega)] at h
    cases h
  simp [List.getElem?_set, hi]

theorem simChunk_chunk_error (env : Env) (o : SimOptions) (clients : GoMap Client)
    (overlays : GoMap Address) (sortedNodes : List String) (nodeName : String)
    (client : Client) (batchID : String) (i : Nat) (st : RunState) (r : Rand) (e : GoError)
    (hr : st.rnds[i]? = some r) (hc : (env.NewRandomChunk r).1 = .error e) :
    simChunk env o clients overlays sortedNodes nodeName client batchID i st =
      (.next, { st with rnds := st.rnds.set i (env.NewRandomChunk r).2 }) := by
  simp only [simChunk, hr, hc]

theorem simChunk_tag_error (env : Env) (o : SimOptions) (clients : GoMap Client)
    (overlays : GoMap Address) (sortedNodes : List String) (nodeName : String)
    (client : Client) (batchID : String) (i : Nat) (st : RunState) (r : Rand) (chunk : Chunk)
    (e : GoError) (hr : st.rnds[i]? = some r) (hc : (env.NewRandomChunk r).1 = .ok chunk)
    (ht : env.api.CreateTag st.calls client = .error e) :
    simChunk env o clients overlays sortedNodes nodeName client batchID i st =
      (.stop (.wrap ("create tag on node " ++ nodeName) e),
        ({ st with rnds := st.rnds.set i (env.NewRandomChunk r).2 } : RunState).call client
          .CreateTag) := by
  simp only [simChunk, hr, hc, ht]

theorem simChunk_upload_error (env : Env) (o : SimOptions) (clients : GoMap Client)
    (overlays : GoMap Address) (sortedNodes : List String) (nodeName : String)
    (client : Client) (batchID : String) (i : Nat) (st : RunState) (r : Rand) (chunk : Chunk)
    (tag : Nat) (e : GoError) (hr : st.rnds[i]? = some r)
    (hc : (env.NewRandomChunk r).1 = .ok chunk)
    (ht : env.api.CreateTag st.calls client = .ok tag)
    (hu : env.api.UploadChunk (st.calls + 1) client chunk.data batchID tag = .error e) :
    ∃ st', simChunk env o clients overlays sortedNodes nodeName client batchID i st =
        (.next, st') ∧
      st'.trace = st.trace ++ [.call client .CreateTag,
        .call client (.UploadChunk chunk.data batchID tag),
        .inc .notUploaded (overlayLabel overlays nodeName)] ++
        pushEvents env o.MetricsPusher st.pushes := by
  refine ⟨_, by simp only [simChunk, hr, hc, ht, calls_call, hu]; rfl, ?_⟩
  simp [trace_pushMetrics, trace_inc, trace_call, pushes_inc, pushes_call]

theorem simChunk_sync_error (env : Env) (o : SimOptions) (clients : GoMap Client)
    (overlays : GoMap Address) (sortedNodes : List String) (nodeName : String)
    (client : Client) (batchID : String) (i : Nat) (st : RunState) (r : Rand) (chunk : Chunk)
    (tag : Nat) (ref : Address) (e : GoError) (hr : st.rnds[i]? = some r)
    (hc : (env.NewRandomChunk r).1 = .ok chunk)
    (ht : env.api.CreateTag st.calls client = .ok tag)
    (hu : env.api.UploadChunk (st.calls + 1) client chunk.data batchID tag = .ok ref)
    (hs : env.api.WaitSync (st.calls + 2) client tag = some e) :
    ∃ st', simChunk env o clients overlays sortedNodes nodeName client batchID i st =
        (.next, st') ∧
      st'.trace = st.trace ++ [.call client .CreateTag,
        .call client (.UploadChunk chunk.data batchID tag),
        .inc .uploaded (overlayLabel overlays nodeName),
        .call client (.WaitSync tag),
        .inc .notSynced (overlayLabel overlays nodeName)] ++
        pushEvents env o.MetricsPusher st.pushes := by
  refine ⟨_, by simp only [simChunk, hr, hc, ht, calls_call, calls_inc, hu, hs]; rfl, ?_⟩
  simp [trace_pushMetrics, trace_inc, trace_call, pushes_inc, pushes_call]

theorem simChunk_download_error (env : Env) (o : SimOptions) (clients : GoMap Client)
    (overlays : GoMap Address) (sortedNodes : List String) (nodeName : String)
    (client : Client) (batchID : String) (i : Nat) (st : RunState) (r : Rand) (chunk : Chunk)
    (tag : Nat) (ref : Address) (draw : Nat × Rand) (downloadNode : String) (dl : Client)
    (e : GoError) (hr : st.rnds[i]? = some r)
    (hc : (env.NewRandomChunk r).1 = .ok chunk)
    (ht : env.api.CreateTag st.calls client = .ok tag)
    (hu : env.api.UploadChunk (st.calls + 1) client chunk.data batchID tag = .ok ref)
    (hs : env.api.WaitSync (st.calls + 2) client tag = none)
    (hd : (env.NewRandomChunk r).2.Intn sortedNodes.length = some draw)
    (hn : sortedNodes[draw.1]? = some downloadNode)
    (hdl : mapGet clients downloadNode = some dl)
    (he : env.api.DownloadChunk (st.calls + 3) dl ref = .error e) :
    ∃ st', simChunk env o clients overlays sortedNodes nodeName client batchID i st =
        (.next, st') ∧
      st'.trace = st.trace ++ [.call client .CreateTag,
        .call client (.UploadChunk chunk.data batchID tag),
        .inc .uploaded (overlayLabel overlays nodeName),
        .call client (.WaitSync tag),
        .inc .synced (overlayLabel overlays nodeName),
        .call dl (.DownloadChunk ref),
        .inc .notDownloaded (overlayLabel overlays downloadNode)] ++
        pushEvents env o.MetricsPusher st.pushes := by
  have hget := getElem?_set_self' st.rnds i r (env.NewRandomChunk r).2 hr
  refine ⟨_, by
    simp only [simChunk, hr, hc, ht, calls_call, calls_inc, rnds_call, rnds_inc, hu, hs, hget,
      hd, hn, hdl, he]
    rfl, ?_⟩
  simp [trace_pushMetrics, trace_inc, trace_call, pushes_inc, pushes_call]

theorem simChunk_downloaded (env : Env) (o : SimOptions) (clients : GoMap Client)
    (overlays : GoMap Address) (sortedNodes : List String) (nodeName : String)
    (client : Client) (batchID : String) (i : Nat) (st : RunState) (r : Rand) (chunk : Chunk)
    (tag : Nat) (ref : Address) (draw : Nat × Rand) (downloadNode : String) (dl : Client)
    (data : Bytes) (hr : st.rnds[i]? = some r)
    (hc : (env.NewRandomChunk r).1 = .ok chunk)
    (ht : env.api.CreateTag st.calls client = .ok tag)
    (hu : env.api.UploadChunk (st.calls + 1) client chunk.data batchID tag = .ok ref)
    (hs : env.api.WaitSync (st.calls + 2) client tag = none)
    (hd : (env.NewRandomChunk r).2.Intn sortedNodes.length = some draw)
    (hn : sortedNodes[draw.1]? = some downloadNode)
    (hdl : mapGet clients downloadNode = some dl)
    (he : env.api.DownloadChunk (st.calls + 3) dl ref = .ok data) :
    ∃ st', simChunk env o clients overlays sortedNodes nodeName client batchID i st =
        (.next, st') ∧
      st'.trace = st.trace ++ [.call client .CreateTag,
        .call client (.UploadChunk chunk.data batchID tag),
        .inc .uploaded (overlayLabel overlays nodeName),
        .call client (.WaitSync tag),
        .inc .synced (overlayLabel overlays nodeName),
        .call dl (.DownloadChunk ref),
        .inc .downloaded (overlayLabel overlays downloadNode),
        .inc (if chunk.data ≠ data then .notRetrieved else .retrieved)
          (overlayLabel overlays downloadNode)] ++
        pushEvents env o.MetricsPusher st.pushes := by
  have hget := getElem?_set_self' st.rnds i r (env.NewRandomChunk r).2 hr
  by_cases hne : chunk.data ≠ data
  · refine ⟨_, by
      simp only [simChunk, hr, hc, ht, calls_call, calls_inc, rnds_call, rnds_inc, hu, hs,
        hget, hd, hn, hdl, he]
      rw [if_pos hne], ?_⟩
    simp [trace_pushMetrics, trace_inc, trace_call, pushes_inc, pushes_call, hne]
  · refine ⟨_, by
      simp only [simChunk, hr, hc, ht, calls_call, calls_inc, rnds_call, rnds_inc, hu, hs,
        hget, hd, hn, hdl, he]
      rw [if_neg hne], ?_⟩
    simp [trace_pushMetrics, trace_inc, trace_call, pushes_inc, pushes_call, hne]

/-- C18: in the simulation, for a unit whose chunk and tag have been created:
if the upload fails, or the upload succeeds and `WaitSync` fails, or the sync
succeeds and the download fails, or the download succeeds and the bytes differ
from the chunk's data, the unit records exactly the events listed (ending in
the one increment of `notUploaded`, `notSynced`, `notDownloaded` or
`notRetrieved` and the metrics push, with no event of a later stage) and ends
in `next`: `Run` does not return and the loop goes on with the next unit.
With one upload node, one chunk per sweep and a client whose `WaitSync` always
fails while its other operations succeed, a sweep records exactly one
`notSynced` increment and no `synced`, `downloaded`, `notDownloaded`,
`retrieved` or `notRetrieved` increment. -/
theorem simulation_failure_is_recorded (env : Env) (o : SimOptions) (clients : GoMap Client)
    (overlays : GoMap Address) (sortedNodes : List String) (nodeName : String)
    (client : Client) (batchID : String) (i : Nat) (st : RunState) (r : Rand) (chunk : Chunk)
    (tag : Nat) (hr : st.rnds[i]? = some r) (hc : (env.NewRandomChunk r).1 = .ok chunk)
    (ht : env.api.CreateTag st.calls client = .ok tag) :
    (∀ e, env.api.UploadChunk (st.calls + 1) client chunk.data batchID tag = .error e →
      ∃ st', simChunk env o clients overlays sortedNodes nodeName client batchID i st =
          (.next, st') ∧
        st'.trace = st.trace ++ [.call client .CreateTag,
          .call client (.UploadChunk chunk.data batchID tag),
          .inc .notUploaded (overlayLabel overlays nodeName)] ++
          pushEvents env o.MetricsPusher st.pushes) ∧
    (∀ ref e, env.api.UploadChunk (st.calls + 1) client chunk.data batchID tag = .ok ref →
      env.api.WaitSync (st.calls + 2) client tag = some e →
      ∃ st', simChunk env o clients overlays sortedNodes nodeName client batchID i st =
          (.next, st') ∧
        st'.trace = st.trace ++ [.call client .CreateTag,
          .call client (.UploadChunk chunk.data batchID tag),
          .inc .uploaded (overlayLabel overlays nodeName),
          .call client (.WaitSync tag),
          .inc .notSynced (overlayLabel overlays nodeName)] ++
          pushEvents env o.MetricsPusher st.pushes) ∧
    (∀ ref draw downloadNode dl e,
      env.api.UploadChunk (st.calls + 1) client chunk.data batchID tag = .ok ref →
      env.api.WaitSync (st.calls + 2) client tag = none →
      (env.NewRandomChunk r).2.Intn sortedNodes.length = some draw →
      sortedNodes[draw.1]? = some downloadNode → mapGet clients downloadNode = some dl →
      env.api.DownloadChunk (st.calls + 3) dl ref = .error e →
      ∃ st', simChunk env o clients overlays sortedNodes nodeName client batchID i st =
          (.next, st') ∧
        st'.trace = st.trace ++ [.call client .CreateTag,
          .call client (.UploadChunk chunk.data batchID tag),
          .inc .uploaded (overlayLabel overlays nodeName),
          .call client (.WaitSync tag),
          .inc .synced (overlayLabel overlays nodeName),
          .call dl (.DownloadChunk ref),
          .inc .notDownloaded (overlayLabel overlays downloadNode)] ++
          pushEvents env o.MetricsPusher st.pushes) ∧
    (∀ ref draw downloadNode dl data,
      env.api.UploadChunk (st.calls + 1) client chunk.data batchID tag = .ok ref →
      env.api.WaitSync (st.calls + 2) client tag = none →
      (env.NewRandomChunk r).2.Intn sortedNodes.length = some draw →
      sortedNodes[draw.1]? = some downloadNode → mapGet clients downloadNode = some dl →
      env.api.DownloadChunk (st.calls + 3) dl ref = .ok data → chunk.data ≠ data →
      ∃ st', simChunk env o clients overlays sortedNodes nodeName client batchID i st =
          (.next, st') ∧
        st'.trace = st.trace ++ [.call client .CreateTag,
          .call client (.UploadChunk chunk.data batchID tag),
          .inc .uploaded (overlayLabel overlays nodeName),
          .call client (.WaitSync tag),
          .inc .synced (overlayLabel overlays nodeName),
          .call dl (.DownloadChunk ref),
          .inc .downloaded (overlayLabel overlays downloadNode),
          .inc .notRetrieved (overlayLabel overlays downloadNode)] ++
          pushEvents env o.MetricsPusher st.pushes) ∧
    (o.UploadNodeCount = 1 → o.ChunksPerNode = 1 → i = 0 →
      sortedNodes[0]? = some nodeName → mapGet clients nodeName = some client →
      (∀ k, ∃ b, env.api.GetOrCreateBatch k client o.PostageAmount o.PostageDepth o.GasPrice
        o.PostageLabel = .ok b) →
      (∀ k, ∃ t, env.api.CreateTag k client = .ok t) →
      (∀ k d b t, ∃ ref, env.api.UploadChunk k client d b t = .ok ref) →
      (∀ k t, ∃ e, env.api.WaitSync k client t = some e) →
      ∃ st' evs, simSweep env o clients overlays sortedNodes st = (.next, st') ∧
        st'.trace = st.trace ++ evs ∧
        incCount .notSynced evs = 1 ∧ incCount .synced evs = 0 ∧
        incCount .downloaded evs = 0 ∧ incCount .notDownloaded evs = 0 ∧
        incCount .retrieved evs = 0 ∧ incCount .notRetrieved evs = 0) := by
  refine ⟨?_, ?_, ?_, ?_, ?_⟩
  · intro e hu
    exact simChunk_upload_error env o clients overlays sortedNodes nodeName client batchID i st
      r chunk tag e hr hc ht hu
  · intro ref e hu hs
    exact simChunk_sync_error env o clients overlays sortedNodes nodeName client batchID i st
      r chunk tag ref e hr hc ht hu hs
  · intro ref draw downloadNode dl e hu hs hd hn hdl he
    exact simChunk_download_error env o clients overlays sortedNodes nodeName client batchID i
      st r chunk tag ref draw downloadNode dl e hr hc ht hu hs hd hn hdl he
  · intro ref draw downloadNode dl data hu hs hd hn hdl he hne
    obtain ⟨st', h₁, h₂⟩ := simChunk_downloaded env o clients overlays sortedNodes nodeName
      client batchID i st r chunk tag ref draw downloadNode dl data hr hc ht hu hs hd hn hdl he
    rw [if_pos hne] at h₂
    exact ⟨st', h₁, h₂⟩
  · intro hN hC hi hname hclient hbatch htag hup hsync
    subst hi
    obtain ⟨b, hb⟩ := hbatch st.calls
    obtain ⟨t, ht'⟩ := htag (st.calls + 1)
    obtain ⟨ref, href⟩ := hup (st.calls + 1 + 1) chunk.data b t
    obtain ⟨e, he⟩ := hsync (st.calls + 1 + 2) t
    have hone : List.range 1 = [0] := rfl
    obtain ⟨st', h₁, h₂⟩ := simChunk_sync_error env o clients overlays sortedNodes nodeName
      client b 0
      (st.call client
        (.GetOrCreateBatch o.PostageAmount o.PostageDepth o.GasPrice o.PostageLabel))
      r chunk t ref e hr hc ht' href he
    refine ⟨st', _, ?_, h₂.trans (by rw [trace_call, List.append_assoc, List.append_assoc]),
      ?_, ?_, ?_, ?_, ?_, ?_⟩
    · simp only [simSweep, hN, hone, forRange_single, simNode, hname, hclient, hb, hC]
      exact h₁
    all_goals
      simp only [incCount_append, incCount_pushEvents]
      simp [incCount]

/-- Witness for C18: with the collaborators of `exampleEnv neverSyncedAPI`, one
upload node and one chunk per sweep, a sweep ends in `next` and records one
`notSynced` increment and no `synced` increment. -/
theorem simulation_failure_is_recorded_witness :
    ∃ st' evs, simSweep (exampleEnv neverSyncedAPI) {} [("bee-0", Client.mk "bee-0")] []
        ["bee-0"] { rnds := oneZeroRand } = (.next, st') ∧
      st'.trace = ([] : List Event) ++ evs ∧
      incCount .notSynced evs = 1 ∧ incCount .synced evs = 0 := by
  obtain ⟨st', evs, h₁, h₂, h₃, h₄, -⟩ :=
    (simulation_failure_is_recorded (exampleEnv neverSyncedAPI) {}
      [("bee-0", Client.mk "bee-0")] [] ["bee-0"] "bee-0" (Client.mk "bee-0") "batch" 0
      { rnds := oneZeroRand } zeroRand { data := [], address := Address.mk [3] } 7
      rfl rfl rfl).2.2.2.2 rfl rfl rfl rfl rfl
      (fun _ => ⟨_, rfl⟩) (fun _ => ⟨_, rfl⟩) (fun _ _ _ _ => ⟨_, rfl⟩) (fun _ _ => ⟨_, rfl⟩)
  exact ⟨st', evs, h₁, h₂, h₃, h₄⟩

/-! ## The simulation: the loop -/

theorem simChunk_rnds_length (env : Env) (o : SimOptions) (clients : GoMap Client)
    (overlays : GoMap Address) (sortedNodes : List String) (nodeName : String)
    (client : Client) (batchID : String) (i : Nat) (st : RunState) :
    (simChunk env o clients overlays sortedNodes nodeName client batchID i st).2.rnds.length =
      st.rnds.length := by
  simp only [simChunk]
  cases st.rnds[i]? with
  | none => rfl
  | some r =>
    simp only []
    cases (env.NewRandomChunk r).1 with
    | error e => simp [List.length_set]
    | ok chunk =>
      simp only []
      cases env.api.CreateTag st.calls client with
      | error e => simp [rnds_call, List.length_set]
      | ok tag =>
        simp only [calls_call, calls_inc, rnds_call, rnds_inc]
        cases env.api.UploadChunk (st.calls + 1) client chunk.data batchID tag with
        | error e => simp [rnds_pushMetrics, rnds_inc, rnds_call, List.length_set]
        | ok ref =>
          simp only []
          cases env.api.WaitSync (st.calls + 1 + 1) client tag with
          | some e => simp [rnds_pushMetrics, rnds_inc, rnds_call, List.length_set]
          | none =>
            simp only []
            cases (st.rnds.set i (env.NewRandomChunk r).2)[i]? with
            | none => simp [rnds_inc, rnds_call, List.length_set]
            | some r₁ =>
              simp only []
              cases r₁.Intn sortedNodes.length with
              | none => simp [rnds_inc, rnds_call, List.length_set]
              | some draw =>
                simp only []
                cases sortedNodes[draw.1]? with
                | none => simp [List.length_set]
                | some downloadNode =>
                  simp only []
                  cases mapGet clients downloadNode with
                  | none => simp [List.length_set]
                  | some dl =>
                    simp only [calls_call, calls_inc]
                    cases env.api.DownloadChunk (st.calls + 1 + 1 + 1) dl ref with
                    | error e =>
                      simp [rnds_pushMetrics, rnds_inc, rnds_call, List.length_set]
                    | ok data =>
                      simp only []
                      split <;>
                        simp [rnds_pushMetrics, rnds_inc, rnds_call, List.length_set]

theorem simChunk_step (env : Env) (o : SimOptions) (clients : GoMap Client)
    (overlays : GoMap Address) (sortedNodes : List String) (nodeName : String)
    (client : Client) (batchID : String) (i : Nat) (st : RunState)
    (hi : i < st.rnds.length) (hpos : 0 < sortedNodes.length)
    (hcl : ∀ name ∈ sortedNodes, ∃ cl, mapGet clients name = some cl) :
    (simChunk env o clients overlays sortedNodes nodeName client batchID i st).1 = .next ∨
    ∃ e, IsTagError env e ∧
      (simChunk env o clients overlays sortedNodes nodeName client batchID i st).1 =
        .stop e := by
  have hr : st.rnds[i]? = some st.rnds[i] := List.getElem?_eq_getElem hi
  have hget := getElem?_set_self' st.rnds i st.rnds[i] (env.NewRandomChunk st.rnds[i]).2 hr
  have hdraw := (env.NewRandomChunk st.rnds[i]).2.gen_lt
    (env.NewRandomChunk st.rnds[i]).2.hist sortedNodes.length hpos
  have hnode : sortedNodes[(env.NewRandomChunk st.rnds[i]).2.gen
      (env.NewRandomChunk st.rnds[i]).2.hist sortedNodes.length]? =
      some sortedNodes[(env.NewRandomChunk st.rnds[i]).2.gen
        (env.NewRandomChunk st.rnds[i]).2.hist sortedNodes.length] :=
    List.getElem?_eq_getElem hdraw
  obtain ⟨dl, hdl⟩ := hcl _ (List.getElem_mem hdraw)
  simp only [simChunk, hr]
  cases hc : (env.NewRandomChunk st.rnds[i]).1 with
  | error e => exact Or.inl rfl
  | ok chunk =>
    simp only []
    cases ht : env.api.CreateTag st.calls client with
    | error e => exact Or.inr ⟨_, ⟨nodeName, e, st.calls, client, rfl, ht⟩, rfl⟩
    | ok tag =>
      simp only [calls_call, calls_inc, rnds_call, rnds_inc]
      cases hu : env.api.UploadChunk (st.calls + 1) client chunk.data batchID tag with
      | error e => exact Or.inl rfl
      | ok ref =>
        simp only []
        cases hs : env.api.WaitSync (st.calls + 1 + 1) client tag with
        | some e => exact Or.inl rfl
        | none =>
          simp only [hget, Rand.Intn, hpos, if_true, hnode, hdl]
          cases env.api.DownloadChunk (st.calls + 1 + 1 + 1) dl ref with
          | error e => exact Or.inl rfl
          | ok data =>
            simp only []
            split <;> exact Or.inl rfl

theorem forRange_invariant (body : Nat → RunState → Step × RunState)
    (I : RunState → Prop) (E : GoError → Prop) (is : List Nat)
    (h : ∀ i ∈ is, ∀ st, I st →
      I (body i st).2 ∧ ((body i st).1 = .next ∨ ∃ e, E e ∧ (body i st).1 = .stop e)) :
    ∀ st, I st →
      I (forRange body is st).2 ∧
        ((forRange body is st).1 = .next ∨ ∃ e, E e ∧ (forRange body is st).1 = .stop e) := by
  induction is with
  | nil =>
    intro st hst
    exact ⟨hst, Or.inl rfl⟩
  | cons i rest ih =>
    intro st hst
    obtain ⟨h₁, h₂⟩ := h i (List.mem_cons_self _ _) st hst
    rcases hb : body i st with ⟨step, st'⟩
    rw [hb] at h₁ h₂
    rcases h₂ with h₂ | ⟨e, he, h₂⟩
    · simp only at h₂
      subst h₂
      rw [forRange_cons_next body i rest st st' hb]
      exact ih (fun j hj => h j (List.mem_cons_of_mem _ hj)) st' h₁
    · simp only at h₂
      subst h₂
      rw [forRange_cons_stop body i rest st st' e hb]
      exact ⟨h₁, Or.inr ⟨e, he, rfl⟩⟩

theorem simNode_step (env : Env) (o : SimOptions) (clients : GoMap Client)
    (overlays : GoMap Address) (sortedNodes : List String) (i : Nat) (st : RunState) (n : Nat)
    (hin : i < n) (hres : Resolved clients sortedNodes n st.rnds) :
    Resolved clients sortedNodes n (simNode env o clients overlays sortedNodes i st).2.rnds ∧
    ((simNode env o clients overlays sortedNodes i st).1 = .next ∨
      ∃ e, IsTagError env e ∧ (simNode env o clients overlays sortedNodes i st).1 = .stop e) := by
  obtain ⟨hn, hr, hcl⟩ := hres
  have hi : i < sortedNodes.length := by omega
  have hname : sortedNodes[i]? = some sortedNodes[i] := List.getElem?_eq_getElem hi
  obtain ⟨client, hclient⟩ := hcl _ (List.getElem_mem hi)
  simp only [simNode, hname, hclient]
  cases env.api.GetOrCreateBatch st.calls client o.PostageAmount o.PostageDepth o.GasPrice
      o.PostageLabel with
  | error e => exact ⟨⟨hn, hr, hcl⟩, Or.inl rfl⟩
  | ok batchID =>
    simp only []
    have key := forRange_invariant
      (fun _ st => simChunk env o clients overlays sortedNodes sortedNodes[i] client batchID i st)
      (fun st => Resolved clients sortedNodes n st.rnds) (IsTagError env)
      (List.range o.ChunksPerNode)
      (by
        intro j _ st' hst'
        refine ⟨⟨hst'.1, ?_, hst'.2.2⟩, ?_⟩
        · rw [simChunk_rnds_length]; exact hst'.2.1
        · exact simChunk_step env o clients overlays sortedNodes sortedNodes[i] client batchID
            i st' (by have := hst'.2.1; omega) (by omega) hst'.2.2)
    exact key _ ⟨hn, hr, hcl⟩

theorem simSweep_step (env : Env) (o : SimOptions) (clients : GoMap Client)
    (overlays : GoMap Address) (sortedNodes : List String) (st : RunState)
    (hres : Resolved clients sortedNodes o.UploadNodeCount st.rnds) :
    Resolved clients sortedNodes o.UploadNodeCount
      (simSweep env o clients overlays sortedNodes st).2.rnds ∧
    ((simSweep env o clients overlays sortedNodes st).1 = .next ∨
      ∃ e, IsTagError env e ∧ (simSweep env o clients overlays sortedNodes st).1 = .stop e) := by
  have key := forRange_invariant (simNode env o clients overlays sortedNodes)
    (fun st => Resolved clients sortedNodes o.UploadNodeCount st.rnds) (IsTagError env)
    (List.range o.UploadNodeCount)
    (by
      intro i hi st' hst'
      exact simNode_step env o clients overlays sortedNodes i st' o.UploadNodeCount
        (List.mem_range.1 hi) hst')
  exact key st hres

theorem simLoop_returns (sweep : Nat → RunState → Step × RunState) (ctx : Context)
    (I : RunState → Prop) (E : GoError → Prop)
    (h : ∀ k st, I st →
      I (sweep k st).2 ∧ ((sweep k st).1 = .next ∨ ∃ e, E e ∧ (sweep k st).1 = .stop e))
    (fuel k : Nat) (st : RunState) (hst : I st) (res : Outcome Unit × RunState)
    (hres : simLoop sweep ctx fuel k st = some res) :
    (res.1 = .error ctx.err ∧ ∃ j, k ≤ j ∧ j < k + fuel ∧ ctx.doneAt j = true ∧
      ∀ j', k ≤ j' → j' < j → ctx.doneAt j' = false) ∨
    (∃ e, E e ∧ res.1 = .error e) := by
  induction fuel generalizing k st with
  | zero => simp [simLoop] at hres
  | succ fuel ih =>
    obtain ⟨h₁, h₂⟩ := h k st hst
    rcases hsw : sweep k st with ⟨step, st'⟩
    rw [hsw] at h₁ h₂
    simp only [simLoop, hsw] at hres
    rcases h₂ with h₂ | ⟨e, he, h₂⟩
    · simp only at h₂
      subst h₂
      simp only at hres
      by_cases hd : ctx.doneAt k = true
      · rw [if_pos hd] at hres
        cases hres
        exact Or.inl ⟨rfl, k, le_refl _, by omega, hd, fun j' h₁' h₂' => by omega⟩
      · rw [if_neg hd] at hres
        rcases ih (k + 1) st' h₁ hres with ⟨hr, j, hj₁, hj₂, hj₃, hj₄⟩ | hr
        · refine Or.inl ⟨hr, j, by omega, by omega, hj₃, fun j' h₁' h₂' => ?_⟩
          by_cases hjk : j' = k
          · subst hjk; simpa using hd
          · exact hj₄ j' (by omega) h₂'
        · exact Or.inr hr
    · simp only at h₂
      subst h₂
      simp only at hres
      cases hres
      exact Or.inr ⟨e, he, rfl⟩

theorem simLoop_runs_until_done (sweep : Nat → RunState → Step × RunState) (ctx : Context)
    (I : RunState → Prop) (h : ∀ k st, I st → I (sweep k st).2 ∧ (sweep k st).1 = .next)
    (n k : Nat) (st : RunState) (hst : I st) (hd : ctx.doneAt (k + n) = true)
    (hnd : ∀ j, j < n → ctx.doneAt (k + j) = false) :
    (∃ st', simLoop sweep ctx (n + 1) k st = some (.error ctx.err, st')) ∧
    ∀ fuel, fuel ≤ n → simLoop sweep ctx fuel k st = none := by
  induction n generalizing k st with
  | zero =>
    obtain ⟨_, h₂⟩ := h k st hst
    rcases hsw : sweep k st with ⟨step, st'⟩
    rw [hsw] at h₂
    simp only at h₂
    subst h₂
    refine ⟨⟨st', by simp [simLoop, hsw, (by simpa using hd : ctx.doneAt k = true)]⟩, ?_⟩
    intro fuel hf
    have : fuel = 0 := by omega
    subst this
    rfl
  | succ n ih =>
    obtain ⟨h₁, h₂⟩ := h k st hst
    rcases hsw : sweep k st with ⟨step, st'⟩
    rw [hsw] at h₁ h₂
    simp only at h₂
    subst h₂
    have hk : ctx.doneAt k = false := by simpa using hnd 0 (by omega)
    obtain ⟨⟨st'', hrun⟩, hnone⟩ := ih (k + 1) st' h₁
      (by rw [← hd]; congr 1; omega)
      (fun j hj => by rw [← hnd (j + 1) (by omega)]; congr 1; omega)
    refine ⟨⟨st'', ?_⟩, ?_⟩
    · rw [simLoop, hsw]
      simp only [hk, Bool.false_eq_true, if_false]
      exact hrun
    · intro fuel hf
      cases fuel with
      | zero => rfl
      | succ fuel =>
        rw [simLoop, hsw]
        simp only [hk, Bool.false_eq_true, if_false]
        exact hnone fuel (by omega)

/-- C19, counterexample: the context is never done, every answer of the nodes
except the creation of a tag is a success, and `Simulation.Run` returns in the
first sweep, with the tag error wrapped for the node `bee-0`. -/
theorem simulation_returns_on_tag_error :
    (∀ k, neverDone.doneAt k = false) ∧
    (Simulation.Run (exampleEnv tagFailAPI) soloCluster id (fun _ names => names) {} neverDone
      1).map Prod.fst =
      some (.error (.wrap "create tag on node bee-0" (.errorf "tag"))) := by
  refine ⟨fun _ => rfl, by decide⟩

/-- C19, amended: once the setup has succeeded, and provided `UploadNodeCount`
is at most the number of node names and of generators and every node name has
a client (so that nothing panics), then in whatever order `NodeNames` returns
the names in each sweep, `Simulation.Run` returns only in two ways: at the
wait after a sweep at which the context is done, for the first time, with the
context's error; or inside a sweep when the creation of a tag fails, with that
error wrapped as `create tag on node <name>`.  If no tag creation fails, then
whatever the batch, upload, sync and download calls answer, `Run` is still
running after every sweep before the context is done and returns the context's
error at the first wait at which it is done. -/
theorem simulation_runs_until_cancelled (env : Env) (c : Cluster A B S T)
    (ord : GoMap NodeGroupOverlays → GoMap NodeGroupOverlays)
    (nodeOrder : Nat → List String → List String) (o : SimOptions) (ctx : Context)
    (overlays : GoMap Address) (clients : GoMap Client)
    (ho : c.FlattenOverlays ord [] = .ok overlays) (hc : c.NodesClients = .ok clients)
    (hperm : ∀ k, (nodeOrder k c.NodeNames).Perm c.NodeNames)
    (hres : Resolved clients c.NodeNames o.UploadNodeCount
      (env.PseudoGenerators o.Seed o.UploadNodeCount)) :
    (∀ fuel res, Simulation.Run env c ord nodeOrder o ctx fuel = some res →
      (res.1 = .error ctx.err ∧ ∃ k, k < fuel ∧ ctx.doneAt k = true ∧
        ∀ j, j < k → ctx.doneAt j = false) ∨
      (∃ name e k client, res.1 = .error (.wrap ("create tag on node " ++ name) e) ∧
        env.api.CreateTag k client = .error e)) ∧
    ((∀ k client, ∃ t, env.api.CreateTag k client = .ok t) →
      ∀ n, ctx.doneAt n = true → (∀ j, j < n → ctx.doneAt j = false) →
        (∃ st, Simulation.Run env c ord nodeOrder o ctx (n + 1) =
          some (.error ctx.err, st)) ∧
        ∀ fuel, fuel ≤ n → Simulation.Run env c ord nodeOrder o ctx fuel = none) := by
  have hrun : ∀ fuel, Simulation.Run env c ord nodeOrder o ctx fuel =
      simLoop (fun k => simSweep env o clients overlays (nodeOrder k c.NodeNames)) ctx fuel 0
        { rnds := env.PseudoGenerators o.Seed o.UploadNodeCount } := by
    intro fuel
    simp only [Simulation.Run, ho, hc]
  have hstep : ∀ k st, o.UploadNodeCount ≤ st.rnds.length →
      o.UploadNodeCount ≤
        (simSweep env o clients overlays (nodeOrder k c.NodeNames) st).2.rnds.length ∧
      ((simSweep env o clients overlays (nodeOrder k c.NodeNames) st).1 = .next ∨
        ∃ e, IsTagError env e ∧
          (simSweep env o clients overlays (nodeOrder k c.NodeNames) st).1 = .stop e) := by
    intro k st hst
    have hr : Resolved clients (nodeOrder k c.NodeNames) o.UploadNodeCount st.rnds :=
      ⟨by rw [(hperm k).length_eq]; exact hres.1, hst,
        fun name hn => hres.2.2 name ((hperm k).mem_iff.mp hn)⟩
    obtain ⟨h₁, h₂⟩ := simSweep_step env o clients overlays (nodeOrder k c.NodeNames) st hr
    exact ⟨h₁.2.1, h₂⟩
  constructor
  · intro fuel res hr
    rw [hrun] at hr
    rcases simLoop_returns
      (fun k => simSweep env o clients overlays (nodeOrder k c.NodeNames)) ctx
      (fun st => o.UploadNodeCount ≤ st.rnds.length) (IsTagError env) hstep
      fuel 0 { rnds := env.PseudoGenerators o.Seed o.UploadNodeCount } hres.2.1 res hr with
      ⟨h₁, j, _, hj₂, hj₃, hj₄⟩ | ⟨e, ⟨name, inner, k, client, he, hk⟩, h₂⟩
    · exact Or.inl ⟨h₁, j, by omega, hj₃, fun j' hj' => hj₄ j' (Nat.zero_le _) hj'⟩
    · exact Or.inr ⟨name, inner, k, client, by rw [h₂, he], hk⟩
  · intro htag n hd hnd
    have hnext : ∀ k st, o.UploadNodeCount ≤ st.rnds.length →
        o.UploadNodeCount ≤
          (simSweep env o clients overlays (nodeOrder k c.NodeNames) st).2.rnds.length ∧
        (simSweep env o clients overlays (nodeOrder k c.NodeNames) st).1 = .next := by
      intro k st hst
      obtain ⟨h₁, h₂⟩ := hstep k st hst
      refine ⟨h₁, ?_⟩
      rcases h₂ with h₂ | ⟨e, ⟨name, inner, k', client, _, hk⟩, _⟩
      · exact h₂
      · obtain ⟨t, ht⟩ := htag k' client
        rw [ht] at hk
        cases hk
    obtain ⟨⟨st, h₁⟩, h₂⟩ := simLoop_runs_until_done
      (fun k => simSweep env o clients overlays (nodeOrder k c.NodeNames)) ctx
      (fun st => o.UploadNodeCount ≤ st.rnds.length) hnext n 0
      { rnds := env.PseudoGenerators o.Seed o.UploadNodeCount } hres.2.1
      (by simpa using hd) (fun j hj => by simpa using hnd j hj)
    exact ⟨⟨st, by rw [hrun]; exact h₁⟩, fun fuel hf => by rw [hrun]; exact h₂ fuel hf⟩

theorem soloCluster_resolved (n : Nat) (hn : n ≤ 1) :
    Resolved [("bee-0", Client.mk "bee-0")] soloCluster.NodeNames n
      (List.replicate n zeroRand) := by
  refine ⟨by simpa [soloCluster, Cluster.NodeNames, Cluster.NodeGroups, NodeGroup.getNodes,
    runningGroup, nodesNamed] using hn, by simp, ?_⟩
  intro name hname
  have : name = "bee-0" := by
    simpa [soloCluster, Cluster.NodeNames, Cluster.NodeGroups, NodeGroup.getNodes,
      runningGroup, nodesNamed] using hname
  subst this
  exact ⟨_, rfl⟩

/-- Witness for C19 (amended): in `soloCluster`, with `WaitSync` failing in
every sweep and the context done at the first wait, `Run` returns the
context's error after one sweep. -/
theorem simulation_runs_until_cancelled_witness :
    ∃ st, Simulation.Run (exampleEnv neverSyncedAPI) soloCluster id (fun _ names => names) {}
        doneAtFirstWait 1 =
      some (.error doneAtFirstWait.err, st) :=
  ((simulation_runs_until_cancelled (exampleEnv neverSyncedAPI) soloCluster id
    (fun _ names => names) {}
    doneAtFirstWait [("bee-0", Address.mk [5])] [("bee-0", Client.mk "bee-0")] rfl rfl
    (fun _ => List.Perm.refl _)
    (soloCluster_resolved 1 (le_refl 1))).2 (fun _ _ => ⟨7, rfl⟩) 0 rfl
    (fun j hj => absurd hj (Nat.not_lt_zero j))).1

/-! ## Metrics pushes do not steer a run -/

theorem observable_append (t₁ t₂ : List Event) :
    observable (t₁ ++ t₂) = observable t₁ ++ observable t₂ := by
  simp [observable]

theorem observable_pushEvents (env : Env) (pusher : Bool) (n : Nat) :
    observable (pushEvents env pusher n) = [] := by
  cases pusher <;> simp [observable, pushEvents]

theorem same_call (st₁ st₂ : RunState) (h : SameButPushResults st₁ st₂) (client : Client)
    (op : Op) : SameButPushResults (st₁.call client op) (st₂.call client op) := by
  obtain ⟨h₁, h₂, h₃, h₄⟩ := h
  exact ⟨by rw [trace_call, trace_call, observable_append, observable_append, h₁],
    by rw [calls_call, calls_call, h₂], h₃, h₄⟩

theorem same_inc (st₁ st₂ : RunState) (h : SameButPushResults st₁ st₂) (c : Counter)
    (label : Address) : SameButPushResults (st₁.inc c label) (st₂.inc c label) := by
  obtain ⟨h₁, h₂, h₃, h₄⟩ := h
  exact ⟨by rw [trace_inc, trace_inc, observable_append, observable_append, h₁], h₂, h₃, h₄⟩

theorem same_pushMetrics (st₁ st₂ : RunState) (h : SameButPushResults st₁ st₂)
    (env₁ env₂ : Env) (pusher : Bool) :
    SameButPushResults (st₁.pushMetrics env₁ pusher) (st₂.pushMetrics env₂ pusher) := by
  obtain ⟨h₁, h₂, h₃, h₄⟩ := h
  refine ⟨?_, ?_, ?_, ?_⟩
  · rw [trace_pushMetrics, trace_pushMetrics, observable_append, observable_append,
      observable_pushEvents, observable_pushEvents, h₁]
  · rw [calls_pushMetrics, calls_pushMetrics, h₂]
  · cases pusher <;> simp [RunState.pushMetrics, h₃]
  · rw [rnds_pushMetrics, rnds_pushMetrics, h₄]

theorem same_rnds (t₁ t₂ : List Event) (c p : Nat) (r : List Rand)
    (h : observable t₁ = observable t₂) :
    SameButPushResults { trace := t₁, calls := c, pushes := p, rnds := r }
      { trace := t₂, calls := c, pushes := p, rnds := r } :=
  ⟨h, rfl, rfl, rfl⟩

theorem same_refl (st : RunState) : SameButPushResults st st := ⟨rfl, rfl, rfl, rfl⟩

theorem defaultUnit_same (env : Env) (push : Nat → Option GoError) (o : CheckOptions)
    (clients : GoMap Client) (overlays : GoMap Address) (nodeName lastNodeName : String)
    (i j : Nat) (st₁ st₂ : RunState) (h : SameButPushResults st₁ st₂) :
    (defaultUnit env o clients overlays nodeName lastNodeName i j st₁).1 =
      (defaultUnit { env with Push := push } o clients overlays nodeName lastNodeName i j
        st₂).1 ∧
    SameButPushResults (defaultUnit env o clients overlays nodeName lastNodeName i j st₁).2
      (defaultUnit { env with Push := push } o clients overlays nodeName lastNodeName i j
        st₂).2 := by
  obtain ⟨t₁, c₁, p₁, r₁⟩ := st₁
  obtain ⟨t₂, c₂, p₂, r₂⟩ := st₂
  obtain ⟨ht, hc, hp, hr⟩ := h
  simp only at hc hp hr
  subst hc hp hr
  simp only [defaultUnit]
  cases r₁[i]? with
  | none => exact ⟨rfl, same_rnds _ _ _ _ _ ht⟩
  | some r =>
    simp only []
    cases mapGet clients nodeName with
    | none => exact ⟨rfl, same_rnds _ _ _ _ _ ht⟩
    | some client =>
      simp only []
      cases env.api.CreatePostageBatch c₁ client o.PostageAmount
          (2 + env.EstimatePostageBatchDepth (env.NewRandomFile r (fileName o i j)
            o.FileSize).1.size) o.GasPrice o.PostageLabel with
      | error err => exact ⟨rfl, same_call _ _ (same_rnds _ _ _ _ _ ht) _ _⟩
      | ok batchID =>
        simp only [calls_call, calls_inc]
        cases env.api.UploadFile (c₁ + 1) client
            (env.NewRandomFile r (fileName o i j) o.FileSize).1 batchID with
        | error err =>
          exact ⟨rfl, same_call _ _ (same_call _ _ (same_rnds _ _ _ _ _ ht) _ _) _ _⟩
        | ok address =>
          simp only []
          cases mapGet clients lastNodeName with
          | none =>
            exact ⟨rfl, same_inc _ _
              (same_call _ _ (same_call _ _ (same_rnds _ _ _ _ _ ht) _ _) _ _) _ _⟩
          | some last =>
            simp only []
            cases env.api.DownloadFile (c₁ + 1 + 1) last address with
            | error err =>
              exact ⟨rfl, same_call _ _ (same_inc _ _
                (same_call _ _ (same_call _ _ (same_rnds _ _ _ _ _ ht) _ _) _ _) _ _) _ _⟩
            | ok sizeHash =>
              simp only []
              split
              · exact ⟨rfl, same_inc _ _ (same_inc _ _ (same_call _ _ (same_inc _ _
                  (same_call _ _ (same_call _ _ (same_rnds _ _ _ _ _ ht) _ _) _ _) _ _) _ _)
                  _ _) _ _⟩
              · exact ⟨rfl, same_pushMetrics _ _ (same_inc _ _ (same_inc _ _ (same_call _ _
                  (same_inc _ _ (same_call _ _ (same_call _ _ (same_rnds _ _ _ _ _ ht) _ _)
                  _ _) _ _) _ _) _ _) _ _) _ _ _⟩

theorem forRange_same (body₁ body₂ : Nat → RunState → Step × RunState) (is : List Nat)
    (h : ∀ i st₁ st₂, SameButPushResults st₁ st₂ →
      (body₁ i st₁).1 = (body₂ i st₂).1 ∧ SameButPushResults (body₁ i st₁).2 (body₂ i st₂).2) :
    ∀ st₁ st₂, SameButPushResults st₁ st₂ →
      (forRange body₁ is st₁).1 = (forRange body₂ is st₂).1 ∧
        SameButPushResults (forRange body₁ is st₁).2 (forRange body₂ is st₂).2 := by
  induction is with
  | nil =>
    intro st₁ st₂ hs
    exact ⟨rfl, hs⟩
  | cons i rest ih =>
    intro st₁ st₂ hs
    obtain ⟨h₁, h₂⟩ := h i st₁ st₂ hs
    rcases hb₁ : body₁ i st₁ with ⟨step₁, st₁'⟩
    rcases hb₂ : body₂ i st₂ with ⟨step₂, st₂'⟩
    rw [hb₁, hb₂] at h₁ h₂
    simp only at h₁ h₂
    subst h₁
    cases step₁ with
    | next =>
      rw [forRange_cons_next body₁ i rest st₁ st₁' hb₁,
        forRange_cons_next body₂ i rest st₂ st₂' hb₂]
      exact ih st₁' st₂' h₂
    | stop err =>
      rw [forRange_cons_stop body₁ i rest st₁ st₁' err hb₁,
        forRange_cons_stop body₂ i rest st₂ st₂' err hb₂]
      exact ⟨rfl, h₂⟩
    | panic =>
      rw [forRange_cons_panic body₁ i rest st₁ st₁' hb₁,
        forRange_cons_panic body₂ i rest st₂ st₂' hb₂]
      exact ⟨rfl, h₂⟩

theorem fullDownloads_same (env : Env) (push : Nat → Option GoError) (o : CheckOptions)
    (overlays : GoMap Address) (nodeName : String) (file : File) (address : Address)
    (entries : GoMap Client) :
    ∀ st₁ st₂, SameButPushResults st₁ st₂ →
      (fullDownloads env o overlays nodeName file address entries st₁).1 =
        (fullDownloads { env with Push := push } o overlays nodeName file address entries
          st₂).1 ∧
      SameButPushResults (fullDownloads env o overlays nodeName file address entries st₁).2
        (fullDownloads { env with Push := push } o overlays nodeName file address entries
          st₂).2 := by
  induction entries with
  | nil =>
    intro st₁ st₂ hs
    exact ⟨rfl, hs⟩
  | cons e rest ih =>
    intro st₁ st₂ hs
    obtain ⟨n, nc⟩ := e
    by_cases hn : n = nodeName
    · simp only [fullDownloads, hn, if_true]
      exact ih st₁ st₂ hs
    · simp only [fullDownloads, hn, if_false]
      rw [← hs.2.1]
      cases env.api.DownloadFile st₁.calls nc address with
      | error err => exact ⟨rfl, same_call _ _ hs _ _⟩
      | ok sizeHash =>
        simp only []
        split
        · exact ⟨rfl, same_inc _ _ (same_inc _ _ (same_call _ _ hs _ _) _ _) _ _⟩
        · exact ih _ _ (same_pushMetrics _ _
            (same_inc _ _ (same_inc _ _ (same_call _ _ hs _ _) _ _) _ _) _ _ _)

theorem fullUnit_same (env : Env) (push : Nat → Option GoError) (o : CheckOptions)
    (clients : GoMap Client) (overlays : GoMap Address)
    (visit : GoMap Client → GoMap Client) (nodeName : String)
    (i j : Nat) (st₁ st₂ : RunState) (h : SameButPushResults st₁ st₂) :
    (fullUnit env o clients overlays visit nodeName i j st₁).1 =
      (fullUnit { env with Push := push } o clients overlays visit nodeName i j st₂).1 ∧
    SameButPushResults (fullUnit env o clients overlays visit nodeName i j st₁).2
      (fullUnit { env with Push := push } o clients overlays visit nodeName i j st₂).2 := by
  obtain ⟨t₁, c₁, p₁, r₁⟩ := st₁
  obtain ⟨t₂, c₂, p₂, r₂⟩ := st₂
  obtain ⟨ht, hc, hp, hr⟩ := h
  simp only at hc hp hr
  subst hc hp hr
  simp only [fullUnit]
  cases r₁[i]? with
  | none => exact ⟨rfl, same_rnds _ _ _ _ _ ht⟩
  | some r =>
    simp only []
    cases mapGet clients nodeName with
    | none => exact ⟨rfl, same_rnds _ _ _ _ _ ht⟩
    | some client =>
      simp only []
      cases env.api.CreatePostageBatch c₁ client o.PostageAmount
          (2 + env.EstimatePostageBatchDepth (env.NewRandomFile r (fileName o i j)
            o.FileSize).1.size) o.GasPrice o.PostageLabel with
      | error err => exact ⟨rfl, same_call _ _ (same_rnds _ _ _ _ _ ht) _ _⟩
      | ok batchID =>
        simp only [calls_call, calls_inc]
        cases env.api.UploadFile (c₁ + 1) client
            (env.NewRandomFile r (fileName o i j) o.FileSize).1 batchID with
        | error err =>
          exact ⟨rfl, same_call _ _ (same_call _ _ (same_rnds _ _ _ _ _ ht) _ _) _ _⟩
        | ok address =>
          simp only []
          exact fullDownloads_same env push o overlays nodeName _ address (visit clients) _ _
            (same_inc _ _ (same_call _ _ (same_call _ _ (same_rnds _ _ _ _ _ ht) _ _) _ _)
              _ _)

theorem simChunk_same (env : Env) (push : Nat → Option GoError) (o : SimOptions)
    (clients : GoMap Client) (overlays : GoMap Address) (sortedNodes : List String)
    (nodeName : String) (client : Client) (batchID : String) (i : Nat)
    (st₁ st₂ : RunState) (h : SameButPushResults st₁ st₂) :
    (simChunk env o clients overlays sortedNodes nodeName client batchID i st₁).1 =
      (simChunk { env with Push := push } o clients overlays sortedNodes nodeName client
        batchID i st₂).1 ∧
    SameButPushResults
      (simChunk env o clients overlays sortedNodes nodeName client batchID i st₁).2
      (simChunk { env with Push := push } o clients overlays sortedNodes nodeName client
        batchID i st₂).2 := by
  obtain ⟨t₁, c₁, p₁, r₁⟩ := st₁
  obtain ⟨t₂, c₂, p₂, r₂⟩ := st₂
  obtain ⟨ht, hc, hp, hr⟩ := h
  simp only at hc hp hr
  subst hc hp hr
  simp only [simChunk]
  cases r₁[i]? with
  | none => exact ⟨rfl, same_rnds _ _ _ _ _ ht⟩
  | some r =>
    simp only []
    cases (env.NewRandomChunk r).1 with
    | error e => exact ⟨rfl, same_rnds _ _ _ _ _ ht⟩
    | ok chunk =>
      simp only []
      cases env.api.CreateTag c₁ client with
      | error e => exact ⟨rfl, same_call _ _ (same_rnds _ _ _ _ _ ht) _ _⟩
      | ok tag =>
        simp only [calls_call, calls_inc, rnds_call, rnds_inc]
        have s₁ := same_call _ _ (same_rnds t₁ t₂ c₁ p₁ (r₁.set i (env.NewRandomChunk r).2) ht)
          client .CreateTag
        cases env.api.UploadChunk (c₁ + 1) client chunk.data batchID tag with
        | error e =>
          exact ⟨rfl, same_pushMetrics _ _ (same_inc _ _ (same_call _ _ s₁ _ _) _ _) _ _ _⟩
        | ok ref =>
          simp only []
          have s₂ := same_inc _ _ (same_call _ _ s₁ client
            (.UploadChunk chunk.data batchID tag)) .uploaded (overlayLabel overlays nodeName)
          cases env.api.WaitSync (c₁ + 1 + 1) client tag with
          | some e =>
            exact ⟨rfl, same_pushMetrics _ _ (same_inc _ _ (same_call _ _ s₂ _ _) _ _) _ _ _⟩
          | none =>
            simp only []
            have s₃ := same_inc _ _ (same_call _ _ s₂ client (.WaitSync tag)) .synced
              (overlayLabel overlays nodeName)
            cases (r₁.set i (env.NewRandomChunk r).2)[i]? with
            | none => exact ⟨rfl, s₃⟩
            | some r₁' =>
              simp only []
              cases r₁'.Intn sortedNodes.length with
              | none => exact ⟨rfl, s₃⟩
              | some draw =>
                simp only []
                have s₄ : SameButPushResults
                    { trace := t₁ ++ [Event.call client Op.CreateTag] ++
                        [Event.call client (Op.UploadChunk chunk.data batchID tag)] ++
                        [Event.inc Counter.uploaded (overlayLabel overlays nodeName)] ++
                        [Event.call client (Op.WaitSync tag)] ++
                        [Event.inc Counter.synced (overlayLabel overlays nodeName)],
                      calls := c₁ + 1 + 1 + 1, pushes := p₁,
                      rnds := (r₁.set i (env.NewRandomChunk r).2).set i draw.2 }
                    { trace := t₂ ++ [Event.call client Op.CreateTag] ++
                        [Event.call client (Op.UploadChunk chunk.data batchID tag)] ++
                        [Event.inc Counter.uploaded (overlayLabel overlays nodeName)] ++
                        [Event.call client (Op.WaitSync tag)] ++
                        [Event.inc Counter.synced (overlayLabel overlays nodeName)],
                      calls := c₁ + 1 + 1 + 1, pushes := p₁,
                      rnds := (r₁.set i (env.NewRandomChunk r).2).set i draw.2 } :=
                  ⟨s₃.1, rfl, rfl, rfl⟩
                cases sortedNodes[draw.1]? with
                | none => exact ⟨rfl, s₄⟩
                | some downloadNode =>
                  simp only []
                  cases mapGet clients downloadNode with
                  | none => exact ⟨rfl, s₄⟩
                  | some dl =>
                    simp only []
                    cases env.api.DownloadChunk (c₁ + 1 + 1 + 1) dl ref with
                    | error e =>
                      exact ⟨rfl, same_pushMetrics _ _
                        (same_inc _ _ (same_call _ _ s₄ _ _) _ _) _ _ _⟩
                    | ok data =>
                      simp only []
                      split
                      · exact ⟨rfl, same_pushMetrics _ _ (same_inc _ _
                          (same_inc _ _ (same_call _ _ s₄ _ _) _ _) _ _) _ _ _⟩
                      · exact ⟨rfl, same_pushMetrics _ _ (same_inc _ _
                          (same_inc _ _ (same_call _ _ s₄ _ _) _ _) _ _) _ _ _⟩

theorem simNode_same (env : Env) (push : Nat → Option GoError) (o : SimOptions)
    (clients : GoMap Client) (overlays : GoMap Address) (sortedNodes : List String) (i : Nat)
    (st₁ st₂ : RunState) (h : SameButPushResults st₁ st₂) :
    (simNode env o clients overlays sortedNodes i st₁).1 =
      (simNode { env with Push := push } o clients overlays sortedNodes i st₂).1 ∧
    SameButPushResults (simNode env o clients overlays sortedNodes i st₁).2
      (simNode { env with Push := push } o clients overlays sortedNodes i st₂).2 := by
  simp only [simNode]
  cases sortedNodes[i]? with
  | none => exact ⟨rfl, h⟩
  | some nodeName =>
    simp only []
    cases mapGet clients nodeName with
    | none => exact ⟨rfl, h⟩
    | some client =>
      simp only []
      rw [← h.2.1]
      cases env.api.GetOrCreateBatch st₁.calls client o.PostageAmount o.PostageDepth
          o.GasPrice o.PostageLabel with
      | error e => exact ⟨rfl, same_call _ _ h _ _⟩
      | ok batchID =>
        simp only []
        exact forRange_same _ _ _
          (fun _ s₁ s₂ hs => simChunk_same env push o clients overlays sortedNodes nodeName
            client batchID i s₁ s₂ hs) _ _ (same_call _ _ h _ _)

theorem simSweep_same (env : Env) (push : Nat → Option GoError) (o : SimOptions)
    (clients : GoMap Client) (overlays : GoMap Address) (sortedNodes : List String)
    (st₁ st₂ : RunState) (h : SameButPushResults st₁ st₂) :
    (simSweep env o clients overlays sortedNodes st₁).1 =
      (simSweep { env with Push := push } o clients overlays sortedNodes st₂).1 ∧
    SameButPushResults (simSweep env o clients overlays sortedNodes st₁).2
      (simSweep { env with Push := push } o clients overlays sortedNodes st₂).2 :=
  forRange_same _ _ _
    (fun i s₁ s₂ hs => simNode_same env push o clients overlays sortedNodes i s₁ s₂ hs) _ _ h

theorem simLoop_same (sweep₁ sweep₂ : Nat → RunState → Step × RunState) (ctx : Context)
    (h : ∀ k st₁ st₂, SameButPushResults st₁ st₂ →
      (sweep₁ k st₁).1 = (sweep₂ k st₂).1 ∧
        SameButPushResults (sweep₁ k st₁).2 (sweep₂ k st₂).2)
    (fuel : Nat) :
    ∀ k st₁ st₂, SameButPushResults st₁ st₂ →
      (simLoop sweep₁ ctx fuel k st₁).map Prod.fst =
        (simLoop sweep₂ ctx fuel k st₂).map Prod.fst ∧
      (simLoop sweep₁ ctx fuel k st₁).map (fun r => observable r.2.trace) =
        (simLoop sweep₂ ctx fuel k st₂).map (fun r => observable r.2.trace) := by
  induction fuel with
  | zero =>
    intro k st₁ st₂ _
    exact ⟨rfl, rfl⟩
  | succ fuel ih =>
    intro k st₁ st₂ hs
    obtain ⟨h₁, h₂⟩ := h k st₁ st₂ hs
    rcases hb₁ : sweep₁ k st₁ with ⟨step₁, st₁'⟩
    rcases hb₂ : sweep₂ k st₂ with ⟨step₂, st₂'⟩
    rw [hb₁, hb₂] at h₁ h₂
    simp only at h₁ h₂
    subst h₁
    rw [simLoop, simLoop, hb₁, hb₂]
    cases step₁ with
    | next =>
      simp only []
      by_cases hd : ctx.doneAt k = true
      · rw [if_pos hd, if_pos hd]
        exact ⟨rfl, by simp [h₂.1]⟩
      · rw [if_neg hd, if_neg hd]
        exact ih (k + 1) st₁' st₂' h₂
    | stop err => exact ⟨rfl, by simp [h₂.1]⟩
    | panic => exact ⟨rfl, by simp [h₂.1]⟩

theorem finishRun_same (r₁ r₂ : Step × RunState) (h₁ : r₁.1 = r₂.1)
    (h₂ : SameButPushResults r₁.2 r₂.2) :
    (finishRun r₁).1 = (finishRun r₂).1 ∧
      observable (finishRun r₁).2.trace = observable (finishRun r₂).2.trace := by
  obtain ⟨s₁, st₁⟩ := r₁
  obtain ⟨s₂, st₂⟩ := r₂
  simp only at h₁ h₂
  subst h₁
  cases s₁ <;> exact ⟨rfl, h₂.1⟩

theorem defaultLoops_same (env : Env) (push : Nat → Option GoError) (o : CheckOptions)
    (clients : GoMap Client) (overlays : GoMap Address) (sortedNodes : List String)
    (lastNodeName : String) (st₁ st₂ : RunState) (h : SameButPushResults st₁ st₂) :
    (defaultLoops env o clients overlays sortedNodes lastNodeName st₁).1 =
      (defaultLoops { env with Push := push } o clients overlays sortedNodes lastNodeName
        st₂).1 ∧
    SameButPushResults (defaultLoops env o clients overlays sortedNodes lastNodeName st₁).2
      (defaultLoops { env with Push := push } o clients overlays sortedNodes lastNodeName
        st₂).2 := by
  unfold defaultLoops
  apply forRange_same _ _ _ _ st₁ st₂ h
  intro i s₁ s₂ hs
  dsimp only
  cases sortedNodes[i]? with
  | none => exact ⟨rfl, hs⟩
  | some nodeName =>
    exact forRange_same _ _ _
      (fun j t₁ t₂ ht => defaultUnit_same env push o clients overlays nodeName
        lastNodeName i j t₁ t₂ ht) s₁ s₂ hs

theorem fullLoops_same (env : Env) (push : Nat → Option GoError) (o : CheckOptions)
    (clients : GoMap Client) (overlays : GoMap Address)
    (visit : Nat → Nat → GoMap Client → GoMap Client) (sortedNodes : List String)
    (st₁ st₂ : RunState) (h : SameButPushResults st₁ st₂) :
    (fullLoops env o clients overlays visit sortedNodes st₁).1 =
      (fullLoops { env with Push := push } o clients overlays visit sortedNodes st₂).1 ∧
    SameButPushResults (fullLoops env o clients overlays visit sortedNodes st₁).2
      (fullLoops { env with Push := push } o clients overlays visit sortedNodes st₂).2 := by
  unfold fullLoops
  apply forRange_same _ _ _ _ st₁ st₂ h
  intro i s₁ s₂ hs
  dsimp only
  cases sortedNodes[i]? with
  | none => exact ⟨rfl, hs⟩
  | some nodeName =>
    exact forRange_same _ _ _
      (fun j t₁ t₂ ht => fullUnit_same env push o clients overlays (visit i j) nodeName i j
        t₁ t₂ ht) s₁ s₂ hs

/-- C20: a run does not depend on the results of the metrics pushes.  For the
default check, the full check and the simulation (for every number of sweeps
looked at and every order in which `NodeNames` returns the names in each
sweep), replacing the push results of the collaborators by any other results
`push` leaves the returned outcome and the sequence of client calls and counter
increments unchanged: a failed push is only printed. -/
theorem push_failure_never_aborts (env : Env) (push : Nat → Option GoError)
    (c : Cluster A B S T) (ord : GoMap NodeGroupOverlays → GoMap NodeGroupOverlays)
    (visit : Nat → Nat → GoMap Client → GoMap Client)
    (nodeOrder : Nat → List String → List String) (o : CheckOptions) (so : SimOptions)
    (ctx : Context) (fuel : Nat) :
    ((defaultCheck env c ord o).1 = (defaultCheck { env with Push := push } c ord o).1 ∧
      observable (defaultCheck env c ord o).2.trace =
        observable (defaultCheck { env with Push := push } c ord o).2.trace) ∧
    ((fullCheck env c ord visit o).1 = (fullCheck { env with Push := push } c ord visit o).1 ∧
      observable (fullCheck env c ord visit o).2.trace =
        observable (fullCheck { env with Push := push } c ord visit o).2.trace) ∧
    ((Simulation.Run env c ord nodeOrder so ctx fuel).map Prod.fst =
        (Simulation.Run { env with Push := push } c ord nodeOrder so ctx fuel).map Prod.fst ∧
      (Simulation.Run env c ord nodeOrder so ctx fuel).map (fun r => observable r.2.trace) =
        (Simulation.Run { env with Push := push } c ord nodeOrder so ctx fuel).map
          (fun r => observable r.2.trace)) := by
  refine ⟨?_, ?_, ?_⟩
  · simp only [defaultCheck]
    cases c.FlattenOverlays ord [] with
    | error err => exact ⟨rfl, rfl⟩
    | ok overlays =>
      simp only []
      cases c.NodesClients with
      | error err => exact ⟨rfl, rfl⟩
      | ok clients =>
        simp only []
        cases c.NodeNames.getLast? with
        | none => exact ⟨rfl, rfl⟩
        | some lastNodeName =>
          simp only []
          have key := defaultLoops_same env push o clients overlays c.NodeNames lastNodeName
            { rnds := env.PseudoGenerators o.Seed o.UploadNodeCount }
            { rnds := env.PseudoGenerators o.Seed o.UploadNodeCount } (same_refl _)
          exact finishRun_same _ _ key.1 key.2
  · simp only [fullCheck]
    cases c.FlattenOverlays ord [] with
    | error err => exact ⟨rfl, rfl⟩
    | ok overlays =>
      simp only []
      cases c.NodesClients with
      | error err => exact ⟨rfl, rfl⟩
      | ok clients =>
        simp only []
        have key := fullLoops_same env push o clients overlays visit c.NodeNames
          { rnds := env.PseudoGenerators o.Seed o.UploadNodeCount }
          { rnds := env.PseudoGenerators o.Seed o.UploadNodeCount } (same_refl _)
        exact finishRun_same _ _ key.1 key.2
  · simp only [Simulation.Run]
    cases c.FlattenOverlays ord [] with
    | error err => exact ⟨rfl, rfl⟩
    | ok overlays =>
      simp only []
      cases c.NodesClients with
      | error err => exact ⟨rfl, rfl⟩
      | ok clients =>
        simp only []
        exact simLoop_same _ _ ctx
          (fun k s₁ s₂ hs =>
            simSweep_same env push so clients overlays (nodeOrder k c.NodeNames) s₁ s₂ hs)
          fuel 0 _ _ (same_refl _)

/-! ## The default check: one unit -/

theorem defaultUnit_batch_error (env : Env) (o : CheckOptions) (clients : GoMap Client)
    (overlays : GoMap Address) (nodeName lastNodeName : String) (i j : Nat) (st : RunState)
    (r : Rand) (up : Client) (e : GoError) (hr : st.rnds[i]? = some r)
    (hup : mapGet clients nodeName = some up)
    (hb : batchAnswer env o st.calls up (unitFile env o r (i, j)) = .error e) :
    ∃ st', defaultUnit env o clients overlays nodeName lastNodeName i j st =
        (.stop (.wrapf ("node " ++ nodeName ++ ": created batched id ") e), st') ∧
      st'.rnds.length = st.rnds.length ∧
      st'.trace = st.trace ++ [batchCall env o up (unitFile env o r (i, j))] := by
  simp only [batchAnswer, unitFile] at hb
  refine ⟨_, by simp only [defaultUnit, hr, hup, hb]; rfl, ?_, ?_⟩
  · simp [rnds_call, List.length_set]
  · simp [trace_call, batchCall, unitFile]

theorem defaultUnit_upload_error (env : Env) (o : CheckOptions) (clients : GoMap Client)
    (overlays : GoMap Address) (nodeName lastNodeName : String) (i j : Nat) (st : RunState)
    (r : Rand) (up : Client) (batchID : String) (e : GoError) (hr : st.rnds[i]? = some r)
    (hup : mapGet clients nodeName = some up)
    (hb : batchAnswer env o st.calls up (unitFile env o r (i, j)) = .ok batchID)
    (hu : env.api.UploadFile (st.calls + 1) up (unitFile env o r (i, j)) batchID = .error e) :
    ∃ st', defaultUnit env o clients overlays nodeName lastNodeName i j st =
        (.stop (.wrap ("node " ++ nodeName) e), st') ∧
      st'.rnds.length = st.rnds.length ∧
      st'.trace = st.trace ++ [batchCall env o up (unitFile env o r (i, j)),
        .call up (.UploadFile (unitFile env o r (i, j)) batchID)] := by
  simp only [batchAnswer, unitFile] at hb hu
  refine ⟨_, by simp only [defaultUnit, hr, hup, hb, calls_call, hu]; rfl, ?_, ?_⟩
  · simp [rnds_call, List.length_set]
  · simp [trace_call, batchCall, unitFile]

theorem defaultUnit_download_error (env : Env) (o : CheckOptions) (clients : GoMap Client)
    (overlays : GoMap Address) (nodeName lastNodeName : String) (i j : Nat) (st : RunState)
    (r : Rand) (up last : Client) (batchID : String) (address : Address) (e : GoError)
    (hr : st.rnds[i]? = some r) (hup : mapGet clients nodeName = some up)
    (hlast : mapGet clients lastNodeName = some last)
    (hb : batchAnswer env o st.calls up (unitFile env o r (i, j)) = .ok batchID)
    (hu : env.api.UploadFile (st.calls + 1) up (unitFile env o r (i, j)) batchID = .ok address)
    (hd : env.api.DownloadFile (st.calls + 2) last address = .error e) :
    ∃ st', defaultUnit env o clients overlays nodeName lastNodeName i j st =
        (.stop (.wrap ("node " ++ lastNodeName) e), st') ∧
      st'.rnds.length = st.rnds.length ∧
      st'.trace = st.trace ++ [batchCall env o up (unitFile env o r (i, j)),
        .call up (.UploadFile (unitFile env o r (i, j)) batchID),
        .inc .uploaded (overlayLabel overlays nodeName),
        .call last (.DownloadFile address)] := by
  simp only [batchAnswer, unitFile] at hb hu
  refine ⟨_, by
    simp only [defaultUnit, hr, hup, hb, calls_call, calls_inc, hu, hlast, hd]; rfl, ?_, ?_⟩
  · simp [rnds_call, rnds_inc, List.length_set]
  · simp [trace_call, trace_inc, batchCall, unitFile]

theorem defaultUnit_downloaded (env : Env) (o : CheckOptions) (clients : GoMap Client)
    (overlays : GoMap Address) (nodeName lastNodeName : String) (i j : Nat) (st : RunState)
    (r : Rand) (up last : Client) (batchID : String) (address : Address)
    (sizeHash : Int × Bytes)
    (hr : st.rnds[i]? = some r) (hup : mapGet clients nodeName = some up)
    (hlast : mapGet clients lastNodeName = some last)
    (hb : batchAnswer env o st.calls up (unitFile env o r (i, j)) = .ok batchID)
    (hu : env.api.UploadFile (st.calls + 1) up (unitFile env o r (i, j)) batchID = .ok address)
    (hd : env.api.DownloadFile (st.calls + 2) last address = .ok sizeHash) :
    ∃ st', defaultUnit env o clients overlays nodeName lastNodeName i j st =
        (if env.fileHash (unitFile env o r (i, j)) ≠ sizeHash.2 then .stop errFileRetrieval
          else .next, st') ∧
      st'.rnds.length = st.rnds.length ∧
      st'.trace = st.trace ++ [batchCall env o up (unitFile env o r (i, j)),
        .call up (.UploadFile (unitFile env o r (i, j)) batchID),
        .inc .uploaded (overlayLabel overlays nodeName),
        .call last (.DownloadFile address),
        .inc .downloaded (overlayLabel overlays nodeName)] ++
        (if env.fileHash (unitFile env o r (i, j)) ≠ sizeHash.2 then
          [.inc .notRetrieved (overlayLabel overlays nodeName)]
        else
          [.inc .retrieved (overlayLabel overlays nodeName)] ++
            pushEvents env o.MetricsPusher st.pushes) := by
  simp only [batchAnswer, unitFile] at hb hu
  by_cases hne : env.fileHash (unitFile env o r (i, j)) ≠ sizeHash.2
  · rw [if_pos hne, if_pos hne]
    simp only [unitFile] at hne
    refine ⟨_, by
      simp only [defaultUnit, hr, hup, hb, calls_call, calls_inc, hu, hlast, hd]
      rw [if_pos hne], ?_, ?_⟩
    · simp [rnds_call, rnds_inc, List.length_set]
    · simp [trace_call, trace_inc, batchCall, unitFile]
  · rw [if_neg hne, if_neg hne]
    simp only [unitFile] at hne
    refine ⟨_, by
      simp only [defaultUnit, hr, hup, hb, calls_call, calls_inc, hu, hlast, hd]
      rw [if_neg hne], ?_, ?_⟩
    · simp [rnds_call, rnds_inc, rnds_pushMetrics, List.length_set]
    · simp [trace_call, trace_inc, trace_pushMetrics, pushes_call, pushes_inc, batchCall,
        unitFile]

/-! ## The default check: the loops as one loop over the units -/

theorem forUnits_append (body : Nat × Nat → RunState → Step × RunState)
    (l₁ l₂ : List (Nat × Nat)) (st : RunState) :
    forUnits body (l₁ ++ l₂) st =
      match forUnits body l₁ st with
      | (.next, st') => forUnits body l₂ st'
      | (.stop err, st') => (.stop err, st')
      | (.panic, st') => (.panic, st') := by
  induction l₁ generalizing st with
  | nil => simp [forUnits]
  | cons u rest ih =>
    simp only [List.cons_append, forUnits]
    rcases hb : body u st with ⟨step, st'⟩
    cases step with
    | next => exact ih st'
    | stop e => rfl
    | panic => rfl

theorem forRange_eq_forUnits (h : Nat → RunState → Step × RunState)
    (F : Nat × Nat → RunState → Step × RunState) (i : Nat)
    (hF : ∀ j st, h j st = F (i, j) st) (js : List Nat) (st : RunState) :
    forRange h js st = forUnits F (js.map (fun j => (i, j))) st := by
  induction js generalizing st with
  | nil => rfl
  | cons j rest ih =>
    simp only [forRange, List.map_cons, forUnits, hF]
    rcases hb : F (i, j) st with ⟨step, st'⟩
    cases step with
    | next => exact ih st'
    | stop e => rfl
    | panic => rfl

theorem nested_eq_forUnits (names : List String)
    (g : String → Nat → Nat → RunState → Step × RunState) (js is : List Nat)
    (his : ∀ i ∈ is, i < names.length) (st : RunState) :
    forRange (fun i st =>
      match names[i]? with
      | none => (.panic, st)
      | some nodeName => forRange (fun j st => g nodeName i j st) js st) is st =
    forUnits (fun u st => g ((names[u.1]?).getD "") u.1 u.2 st)
      (is.flatMap (fun i => js.map (fun j => (i, j)))) st := by
  induction is generalizing st with
  | nil => rfl
  | cons i rest ih =>
    have hi : i < names.length := his i (List.mem_cons_self _ _)
    have hn : names[i]? = some names[i] := List.getElem?_eq_getElem hi
    have hinner : ∀ st, forRange (fun j st => g names[i] i j st) js st =
        forUnits (fun u st => g ((names[u.1]?).getD "") u.1 u.2 st)
          (js.map (fun j => (i, j))) st := by
      intro st
      apply forRange_eq_forUnits
      intro j st
      simp only [hn, Option.getD_some]
    simp only [forRange, List.flatMap_cons, forUnits_append, hn, hinner]
    rcases hb : forUnits (fun u st => g ((names[u.1]?).getD "") u.1 u.2 st)
      (js.map (fun j => (i, j))) st with ⟨step, st'⟩
    cases step with
    | next => exact ih (fun k hk => his k (List.mem_cons_of_mem _ hk)) st'
    | stop e => rfl
    | panic => rfl

theorem forUnits_segments (body : Nat × Nat → RunState → Step × RunState)
    (I : RunState → Prop) (Good : Nat × Nat → List Event → Prop)
    (Bad : Nat × Nat → List Event → GoError → Prop) (us : List (Nat × Nat))
    (h : ∀ u ∈ us, ∀ st, I st →
      (∃ st' seg, body u st = (.next, st') ∧ I st' ∧ st'.trace = st.trace ++ seg ∧
        Good u seg) ∨
      (∃ st' tail err, body u st = (.stop err, st') ∧ st'.trace = st.trace ++ tail ∧
        Bad u tail err)) :
    ∀ st, I st →
      (∃ st' segs, forUnits body us st = (.next, st') ∧ I st' ∧
        st'.trace = st.trace ++ segs.flatten ∧ List.Forall₂ Good us segs) ∨
      (∃ st' err pre u post segs tail, us = pre ++ u :: post ∧
        forUnits body us st = (.stop err, st') ∧
        st'.trace = st.trace ++ segs.flatten ++ tail ∧ List.Forall₂ Good pre segs ∧
        Bad u tail err) := by
  induction us with
  | nil =>
    intro st hst
    exact Or.inl ⟨st, [], rfl, hst, by simp, List.Forall₂.nil⟩
  | cons u rest ih =>
    intro st hst
    rcases h u (List.mem_cons_self _ _) st hst with
      ⟨st', seg, hb, hI, htr, hg⟩ | ⟨st', tail, err, hb, htr, hbad⟩
    · have hstep : forUnits body (u :: rest) st = forUnits body rest st' := by
        simp only [forUnits, hb]
      rcases ih (fun v hv => h v (List.mem_cons_of_mem _ hv)) st' hI with
        ⟨st'', segs, hr, hI'', htr', hall⟩ |
        ⟨st'', err, pre, v, post, segs, tail, hus, hr, htr', hall, hbad⟩
      · exact Or.inl ⟨st'', seg :: segs, by rw [hstep, hr], hI'',
          by simp [htr', htr, List.append_assoc], List.Forall₂.cons hg hall⟩
      · exact Or.inr ⟨st'', err, u :: pre, v, post, seg :: segs, tail, by simp [hus],
          by rw [hstep, hr], by simp [htr', htr, List.append_assoc],
          List.Forall₂.cons hg hall, hbad⟩
    · exact Or.inr ⟨st', err, [], u, rest, [], tail, rfl, by simp only [forUnits, hb],
        by simp [htr], List.Forall₂.nil, hbad⟩

/-! ## The default check: every unit is retrieved or ends the run -/

theorem defaultUnit_segment (env : Env) (o : CheckOptions) (clients : GoMap Client)
    (overlays : GoMap Address) (names : List String) (lastNodeName : String) (last : Client)
    (n : Nat) (hn : n ≤ names.length)
    (hcl : ∀ name ∈ names, ∃ cl, mapGet clients name = some cl)
    (hlast : mapGet clients lastNodeName = some last) (u : Nat × Nat) (hu : u.1 < n)
    (st : RunState) (hst : n ≤ st.rnds.length) :
    (∃ st' seg, defaultUnit env o clients overlays ((names[u.1]?).getD "") lastNodeName
        u.1 u.2 st = (.next, st') ∧ n ≤ st'.rnds.length ∧ st'.trace = st.trace ++ seg ∧
        RetrievedUnit env o clients overlays names last u seg) ∨
    (∃ st' tail err, defaultUnit env o clients overlays ((names[u.1]?).getD "") lastNodeName
        u.1 u.2 st = (.stop err, st') ∧ st'.trace = st.trace ++ tail ∧
        FailedUnit env o clients overlays names lastNodeName last u tail err) := by
  obtain ⟨i, j⟩ := u
  simp only at hu
  have hi : i < names.length := lt_of_lt_of_le hu hn
  have hname : names[i]? = some names[i] := List.getElem?_eq_getElem hi
  have hri : i < st.rnds.length := lt_of_lt_of_le hu hst
  have hr : st.rnds[i]? = some st.rnds[i] := List.getElem?_eq_getElem hri
  obtain ⟨up, hup⟩ := hcl names[i] (List.getElem_mem hi)
  simp only [hname, Option.getD_some]
  cases hb : batchAnswer env o st.calls up (unitFile env o st.rnds[i] (i, j)) with
  | error e =>
    obtain ⟨st', hrun, _, htr⟩ := defaultUnit_batch_error env o clients overlays names[i]
      lastNodeName i j st st.rnds[i] up e hr hup hb
    exact Or.inr ⟨st', _, _, hrun, htr, names[i], up, st.rnds[i], st.calls, hname, hup,
      Or.inl ⟨e, hb, rfl, rfl⟩⟩
  | ok batchID =>
    cases hupl : env.api.UploadFile (st.calls + 1) up (unitFile env o st.rnds[i] (i, j))
        batchID with
    | error e =>
      obtain ⟨st', hrun, _, htr⟩ := defaultUnit_upload_error env o clients overlays names[i]
        lastNodeName i j st st.rnds[i] up batchID e hr hup hb hupl
      exact Or.inr ⟨st', _, _, hrun, htr, names[i], up, st.rnds[i], st.calls, hname, hup,
        Or.inr (Or.inl ⟨batchID, e, hb, hupl, rfl, rfl⟩)⟩
    | ok address =>
      cases hd : env.api.DownloadFile (st.calls + 2) last address with
      | error e =>
        obtain ⟨st', hrun, _, htr⟩ := defaultUnit_download_error env o clients overlays
          names[i] lastNodeName i j st st.rnds[i] up last batchID address e hr hup hlast hb
          hupl hd
        exact Or.inr ⟨st', _, _, hrun, htr, names[i], up, st.rnds[i], st.calls, hname, hup,
          Or.inr (Or.inr (Or.inl ⟨batchID, address, e, hb, hupl, hd, rfl, rfl⟩))⟩
      | ok sizeHash =>
        obtain ⟨st', hrun, hlen, htr⟩ := defaultUnit_downloaded env o clients overlays
          names[i] lastNodeName i j st st.rnds[i] up last batchID address sizeHash hr hup
          hlast hb hupl hd
        by_cases hne : env.fileHash (unitFile env o st.rnds[i] (i, j)) ≠ sizeHash.2
        · rw [if_pos hne] at hrun htr
          exact Or.inr ⟨st', _, _, hrun, by rw [htr]; simp, names[i], up,
            st.rnds[i], st.calls, hname, hup,
            Or.inr (Or.inr (Or.inr ⟨batchID, address, sizeHash, hb, hupl, hd, hne, rfl,
              rfl⟩))⟩
        · rw [if_neg hne] at hrun htr
          refine Or.inl ⟨st', _, hrun, by rw [hlen]; exact hst,
            by rw [htr]; simp, names[i], up, st.rnds[i], st.calls, batchID,
            address, sizeHash, pushEvents env o.MetricsPusher st.pushes, hname, hup, hb, hupl,
            hd, not_not.mp hne, ?_, rfl⟩
          unfold pushEvents
          cases o.MetricsPusher
          · exact Or.inl rfl
          · exact Or.inr ⟨_, rfl⟩

theorem mem_unitIndex (n f : Nat) (u : Nat × Nat) (hu : u ∈ unitIndex n f) : u.1 < n := by
  simp only [unitIndex, List.mem_flatMap, List.mem_map, List.mem_range] at hu
  obtain ⟨i, hi, j, _, rfl⟩ := hu
  exact hi

theorem defaultLoops_eq_forUnits (env : Env) (o : CheckOptions) (clients : GoMap Client)
    (overlays : GoMap Address) (names : List String) (lastNodeName : String)
    (hn : o.UploadNodeCount ≤ names.length) (st : RunState) :
    defaultLoops env o clients overlays names lastNodeName st =
      forUnits (fun u st => defaultUnit env o clients overlays ((names[u.1]?).getD "")
        lastNodeName u.1 u.2 st) (unitIndex o.UploadNodeCount o.FilesPerNode) st := by
  unfold defaultLoops unitIndex
  exact nested_eq_forUnits names
    (fun nodeName i j st => defaultUnit env o clients overlays nodeName lastNodeName i j st)
    (List.range o.FilesPerNode) (List.range o.UploadNodeCount)
    (fun i hi => lt_of_lt_of_le (List.mem_range.mp hi) hn) st

/-- C16: in default mode the units are processed in the order of the loops
(upload node outermost, then file), each through the client of its upload node
and downloaded through the client of the last node. Either every unit is
retrieved (batch creation, one upload and the download answered without error,
the returned hash equal to the hash of the file, the counters `uploaded`,
`downloaded` and `retrieved` incremented) and the check returns nil; or the
units before some unit `u` are retrieved, `u` fails at its batch creation, its
upload, its download or by a hash mismatch (then `notRetrieved` is incremented
once and the error is the file-retrieval error), the check returns that error
and the events of `u` up to the failure are the last ones of the run. No unit
has more than one upload call. -/
theorem defaultCheck_stops_at_first_failure (env : Env) (c : Cluster A B S T)
    (ord : GoMap NodeGroupOverlays → GoMap NodeGroupOverlays) (o : CheckOptions)
    (overlays : GoMap Address) (clients : GoMap Client) (lastNodeName : String)
    (last : Client) (ho : c.FlattenOverlays ord [] = .ok overlays)
    (hc : c.NodesClients = .ok clients) (hl : c.NodeNames.getLast? = some lastNodeName)
    (hlc : mapGet clients lastNodeName = some last)
    (hres : Resolved clients c.NodeNames o.UploadNodeCount
      (env.PseudoGenerators o.Seed o.UploadNodeCount)) :
    (∃ segs, (defaultCheck env c ord o).1 = .ok () ∧
      (defaultCheck env c ord o).2.trace = segs.flatten ∧
      List.Forall₂ (RetrievedUnit env o clients overlays c.NodeNames last)
        (unitIndex o.UploadNodeCount o.FilesPerNode) segs) ∨
    (∃ err pre u post segs tail,
      unitIndex o.UploadNodeCount o.FilesPerNode = pre ++ u :: post ∧
      (defaultCheck env c ord o).1 = .error err ∧
      (defaultCheck env c ord o).2.trace = segs.flatten ++ tail ∧
      List.Forall₂ (RetrievedUnit env o clients overlays c.NodeNames last) pre segs ∧
      FailedUnit env o clients overlays c.NodeNames lastNodeName last u tail err) := by
  have hcheck : defaultCheck env c ord o =
      finishRun (forUnits (fun u st => defaultUnit env o clients overlays
        ((c.NodeNames[u.1]?).getD "") lastNodeName u.1 u.2 st)
        (unitIndex o.UploadNodeCount o.FilesPerNode)
        { rnds := env.PseudoGenerators o.Seed o.UploadNodeCount }) := by
    simp only [defaultCheck, ho, hc, hl]
    rw [defaultLoops_eq_forUnits env o clients overlays c.NodeNames lastNodeName hres.1]
  rcases forUnits_segments
      (fun u st => defaultUnit env o clients overlays ((c.NodeNames[u.1]?).getD "")
        lastNodeName u.1 u.2 st)
      (fun st => o.UploadNodeCount ≤ st.rnds.length)
      (RetrievedUnit env o clients overlays c.NodeNames last)
      (FailedUnit env o clients overlays c.NodeNames lastNodeName last)
      (unitIndex o.UploadNodeCount o.FilesPerNode)
      (fun u hu st hst => defaultUnit_segment env o clients overlays c.NodeNames lastNodeName
        last o.UploadNodeCount hres.1 hres.2.2 hlc u (mem_unitIndex _ _ u hu) st hst)
      { rnds := env.PseudoGenerators o.Seed o.UploadNodeCount } hres.2.1 with
    ⟨st', segs, hr, _, htr, hall⟩ | ⟨st', err, pre, u, post, segs, tail, hus, hr, htr, hall, hbad⟩
  · refine Or.inl ⟨segs, ?_, ?_, hall⟩
    · rw [hcheck, hr]; rfl
    · rw [hcheck, hr]
      simpa [finishRun] using htr
  · refine Or.inr ⟨err, pre, u, post, segs, tail, hus, ?_, ?_, hall, hbad⟩
    · rw [hcheck, hr]; rfl
    · rw [hcheck, hr]
      simpa [finishRun] using htr

/-- Witness for C16: the default check of `soloCluster` with one unit, every
node call succeeding. -/
theorem defaultCheck_stops_at_first_failure_witness :
    (∃ segs, (defaultCheck (exampleEnv neverSyncedAPI) soloCluster id {}).1 = .ok () ∧
      (defaultCheck (exampleEnv neverSyncedAPI) soloCluster id {}).2.trace = segs.flatten ∧
      List.Forall₂ (RetrievedUnit (exampleEnv neverSyncedAPI) {}
        [("bee-0", Client.mk "bee-0")] [("bee-0", Address.mk [5])] soloCluster.NodeNames
        (Client.mk "bee-0")) (unitIndex 1 1) segs) ∨
    (∃ err pre u post segs tail,
      unitIndex 1 1 = pre ++ u :: post ∧
      (defaultCheck (exampleEnv neverSyncedAPI) soloCluster id {}).1 = .error err ∧
      (defaultCheck (exampleEnv neverSyncedAPI) soloCluster id {}).2.trace =
        segs.flatten ++ tail ∧
      List.Forall₂ (RetrievedUnit (exampleEnv neverSyncedAPI) {}
        [("bee-0", Client.mk "bee-0")] [("bee-0", Address.mk [5])] soloCluster.NodeNames
        (Client.mk "bee-0")) pre segs ∧
      FailedUnit (exampleEnv neverSyncedAPI) {} [("bee-0", Client.mk "bee-0")]
        [("bee-0", Address.mk [5])] soloCluster.NodeNames "bee-0" (Client.mk "bee-0") u tail
        err) :=
  defaultCheck_stops_at_first_failure (exampleEnv neverSyncedAPI) soloCluster id {}
    [("bee-0", Address.mk [5])] [("bee-0", Client.mk "bee-0")] "bee-0" (Client.mk "bee-0")
    rfl rfl rfl rfl (soloCluster_resolved 1 (le_refl 1))

/-! ## The full check: the nodes a file is downloaded from -/

theorem downloadClients_append (t₁ t₂ : List Event) :
    downloadClients (t₁ ++ t₂) = downloadClients t₁ ++ downloadClients t₂ := by
  simp [downloadClients, List.filterMap_append]

theorem downloadClients_pushEvents (env : Env) (pusher : Bool) (n : Nat) :
    downloadClients (pushEvents env pusher n) = [] := by
  cases pusher <;> rfl

theorem nodesClientsLoop_wf (gs : GoMap (NodeGroup A B S T)) (acc clients : GoMap Client)
    (hacc : MapWF acc) (h : nodesClientsLoop gs acc = .ok clients) : MapWF clients := by
  induction gs generalizing acc with
  | nil =>
    simp only [nodesClientsLoop, Except.ok.injEq] at h
    exact h ▸ hacc
  | cons g rest ih =>
    obtain ⟨name, ng⟩ := g
    simp only [nodesClientsLoop] at h
    cases hq : ng.NodesClients with
    | error e => simp [hq] at h
    | ok ngc =>
      simp only [hq] at h
      exact ih _ (mapWF_storeEntries ngc acc hacc) h

theorem fullDownloads_next (env : Env) (o : CheckOptions) (overlays : GoMap Address)
    (nodeName : String) (file : File) (address : Address) (view : GoMap Client) :
    ∀ st st', fullDownloads env o overlays nodeName file address view st = (.next, st') →
      downloadClients st'.trace = downloadClients st.trace ++
        (view.filter (fun e => e.1 ≠ nodeName)).map Prod.snd := by
  induction view with
  | nil =>
    intro st st' h
    simp only [fullDownloads, Prod.mk.injEq, true_and] at h
    simp [h]
  | cons e rest ih =>
    obtain ⟨n, nc⟩ := e
    intro st st' h
    simp only [fullDownloads] at h
    by_cases hn : n = nodeName
    · rw [if_pos hn] at h
      rw [ih st st' h]
      simp [hn]
    · rw [if_neg hn] at h
      cases hd : env.api.DownloadFile st.calls nc address with
      | error e => simp [hd] at h
      | ok sizeHash =>
        simp only [hd] at h
        by_cases hne : env.fileHash file ≠ sizeHash.2
        · rw [if_pos hne] at h
          simp at h
        · rw [if_neg hne] at h
          rw [ih _ st' h]
          simp only [trace_pushMetrics, trace_inc, trace_call, downloadClients_append,
            downloadClients_pushEvents]
          simp [hn, downloadClients]

theorem fullUnit_next (env : Env) (o : CheckOptions) (clients : GoMap Client)
    (overlays : GoMap Address) (view : GoMap Client → GoMap Client) (nodeName : String)
    (i j : Nat) (st st' : RunState)
    (h : fullUnit env o clients overlays view nodeName i j st = (.next, st')) :
    downloadClients st'.trace = downloadClients st.trace ++
      ((view clients).filter (fun e => e.1 ≠ nodeName)).map Prod.snd := by
  simp only [fullUnit] at h
  cases hr : st.rnds[i]? with
  | none => simp [hr] at h
  | some r =>
    simp only [hr] at h
    cases hup : mapGet clients nodeName with
    | none => simp [hup] at h
    | some up =>
      simp only [hup] at h
      cases hb : env.api.CreatePostageBatch st.calls up o.PostageAmount
          (2 + env.EstimatePostageBatchDepth
            (env.NewRandomFile r (fileName o i j) o.FileSize).1.size) o.GasPrice
          o.PostageLabel with
      | error e => simp [hb] at h
      | ok batchID =>
        simp only [hb, calls_call] at h
        cases hu : env.api.UploadFile (st.calls + 1) up
            (env.NewRandomFile r (fileName o i j) o.FileSize).1 batchID with
        | error e => simp [hu] at h
        | ok address =>
          simp only [hu] at h
          rw [fullDownloads_next env o overlays nodeName _ address (view clients) _ st' h]
          simp [trace_inc, trace_call, downloadClients]

/-- C17 (counterexample): in `stoppedCluster` the node `bee-2` is a node of
the cluster other than the upload node `bee-0`, the full check succeeds, and
the file is downloaded through the client of `bee-1` only. -/
theorem fullCheck_skips_stopped_node :
    stoppedCluster.NodeNames = ["bee-0", "bee-1", "bee-2"] ∧
      (fullCheck (exampleEnv neverSyncedAPI) stoppedCluster id (fun _ _ => id) {}).1 =
        .ok () ∧
      downloadClients
        (fullCheck (exampleEnv neverSyncedAPI) stoppedCluster id (fun _ _ => id) {}).2.trace =
        [Client.mk "bee-1"] := by
  refine ⟨rfl, rfl, rfl⟩

/-- C17 (amended): a unit of the full check in which the batch creation, the
upload and every download succeed with matching hashes downloads the file
through the clients of the entries of `Cluster.NodesClients` (the nodes that
are not stopped) whose name is not the upload node, in visiting order: each of
those names exactly once, the upload node never, and no other node. -/
theorem fullUnit_downloads_from_every_other_client (env : Env) (c : Cluster A B S T)
    (o : CheckOptions) (clients : GoMap Client) (overlays : GoMap Address)
    (view : GoMap Client → GoMap Client) (nodeName : String) (i j : Nat) (st st' : RunState)
    (hc : c.NodesClients = .ok clients) (hv : (view clients).Perm clients)
    (h : fullUnit env o clients overlays view nodeName i j st = (.next, st')) :
    downloadClients st'.trace = downloadClients st.trace ++
        ((view clients).filter (fun e => e.1 ≠ nodeName)).map Prod.snd ∧
      (mapKeys ((view clients).filter (fun e => e.1 ≠ nodeName))).Nodup ∧
      (∀ n, n ∈ mapKeys ((view clients).filter (fun e => e.1 ≠ nodeName)) ↔
        n ∈ mapKeys clients ∧ n ≠ nodeName) ∧
      ∀ e ∈ (view clients).filter (fun e => e.1 ≠ nodeName),
        mapGet clients e.1 = some e.2 := by
  have hwf : MapWF clients := nodesClientsLoop_wf c.NodeGroups [] clients List.nodup_nil hc
  refine ⟨fullUnit_next env o clients overlays view nodeName i j st st' h, ?_, ?_, ?_⟩
  · have hnd : ((view clients).map Prod.fst).Nodup := (hv.map Prod.fst).nodup_iff.mpr hwf
    exact (List.Nodup.sublist (List.Sublist.map Prod.fst (List.filter_sublist _)) hnd)
  · intro n
    simp only [mapKeys, List.mem_map, List.mem_filter, decide_eq_true_eq]
    constructor
    · rintro ⟨e, ⟨he, hne⟩, rfl⟩
      exact ⟨⟨e, hv.mem_iff.mp he, rfl⟩, hne⟩
    · rintro ⟨⟨e, he, rfl⟩, hne⟩
      exact ⟨e, ⟨hv.mem_iff.mpr he, hne⟩, rfl⟩
  · intro e he
    have hmem : e ∈ clients := hv.mem_iff.mp (List.mem_of_mem_filter he)
    exact (mapGet_eq_some_iff clients hwf e.1 e.2).mpr hmem

/-- Witness for C17 (amended): the first unit of the full check of
`stoppedCluster`. -/
theorem fullUnit_downloads_from_every_other_client_witness :
    downloadClients (fullUnit (exampleEnv neverSyncedAPI) {}
        [("bee-0", Client.mk "bee-0"), ("bee-1", Client.mk "bee-1")]
        [] id "bee-0" 0 0 { rnds := [zeroRand] }).2.trace =
      [Client.mk "bee-1"] :=
  (fullUnit_downloads_from_every_other_client (exampleEnv neverSyncedAPI) stoppedCluster {}
    [("bee-0", Client.mk "bee-0"), ("bee-1", Client.mk "bee-1")] [] id "bee-0" 0 0
    { rnds := [zeroRand] } _ rfl (List.Perm.refl _) rfl).1

/-! ## The upload nodes follow the visiting order of the node maps -/

/-- C15 (failing input): the cluster `pairCluster` is run twice with the same
collaborators, node answers and options (seed 0, one upload node, one file);
the only difference is the order in which the range over the node map of the
group visits `bee-0` and `bee-1`. `NodeNames` returns the names in that order,
so the first run uploads through `bee-0` and downloads from `bee-1`, the second
run uploads through `bee-1` and downloads from `bee-0`. -/
theorem defaultCheck_upload_node_follows_map_order :
    (nodesNamed ["bee-0", "bee-1"]).Perm (nodesNamed ["bee-1", "bee-0"]) ∧
      (pairCluster ["bee-0", "bee-1"]).NodeNames = ["bee-0", "bee-1"] ∧
      (pairCluster ["bee-1", "bee-0"]).NodeNames = ["bee-1", "bee-0"] ∧
      (defaultCheck (exampleEnv neverSyncedAPI) (pairCluster ["bee-0", "bee-1"]) id {}).1 =
        .ok () ∧
      (defaultCheck (exampleEnv neverSyncedAPI) (pairCluster ["bee-1", "bee-0"]) id {}).1 =
        .ok () ∧
      uploadClients (defaultCheck (exampleEnv neverSyncedAPI) (pairCluster ["bee-0", "bee-1"])
        id {}).2.trace = [Client.mk "bee-0"] ∧
      downloadClients (defaultCheck (exampleEnv neverSyncedAPI)
        (pairCluster ["bee-0", "bee-1"]) id {}).2.trace = [Client.mk "bee-1"] ∧
      uploadClients (defaultCheck (exampleEnv neverSyncedAPI) (pairCluster ["bee-1", "bee-0"])
        id {}).2.trace = [Client.mk "bee-1"] ∧
      downloadClients (defaultCheck (exampleEnv neverSyncedAPI)
        (pairCluster ["bee-1", "bee-0"]) id {}).2.trace = [Client.mk "bee-0"] :=
  ⟨List.Perm.swap _ _ _, rfl, rfl, rfl, rfl, rfl, rfl, rfl, rfl⟩

/-! ## RandomNode: the final selection -/

theorem runningPool_eq_nil_iff (gs : GoMap (NodeGroup A B S T)) :
    runningPool gs = [] ↔
      ∀ e ∈ gs, ∀ kv ∈ e.2.nodes, kv.2.name ∈ e.2.StoppedNodes.1 := by
  constructor
  · intro h e he kv hkv
    by_contra hn
    have hmem : kv.2 ∈ runningPool gs :=
      (mem_runningPool_iff gs kv.2).mpr ⟨e, he, kv, hkv, rfl, hn⟩
    rw [h] at hmem
    exact List.not_mem_nil _ hmem
  · intro h
    apply List.eq_nil_iff_forall_not_mem.mpr
    intro node hnode
    obtain ⟨e, he, kv, hkv, rfl, hn⟩ := (mem_runningPool_iff gs node).mp hnode
    exact hn (h e he kv hkv)

theorem randomNode_pool_eq (c : Cluster A B S T)
    (hok : ∀ e ∈ c.nodeGroups, ¬ StoppedQueryFails e.2) :
    randomNodePool c.NodeGroups [] = .ok (runningPool c.nodeGroups) := by
  have := randomNodePool_ok c.nodeGroups [] hok
  simpa [Cluster.NodeGroups] using this

theorem randomNode_empty_pool (c : Cluster A B S T) (r : Rand)
    (hok : ∀ e ∈ c.nodeGroups, ¬ StoppedQueryFails e.2)
    (hp : runningPool c.nodeGroups = []) : c.RandomNode r = .panic := by
  simp [Cluster.RandomNode, randomNode_pool_eq c hok, hp, Rand.Intn]

/-- C22: the pool of `RandomNode` is the list of the nodes that are not
stopped, and it is empty exactly when every node of every group is stopped
(which includes the cluster without groups or without nodes). If the pool is
not empty, `RandomNode` returns a node of the pool or the error of a
stopped-nodes query. When no stopped-nodes query fails, so that the final
selection `nodes[r.Intn(len(nodes))]` is reached, `RandomNode` returns a node
exactly when the pool is not empty, and with the empty pool it returns neither
a node nor an error: the draw panics. -/
theorem randomNode_selection_in_range (c : Cluster A B S T) (r : Rand) :
    (runningPool c.nodeGroups = [] ↔
      ∀ e ∈ c.nodeGroups, ∀ kv ∈ e.2.nodes, kv.2.name ∈ e.2.StoppedNodes.1) ∧
    (runningPool c.nodeGroups ≠ [] →
      (∃ node r', c.RandomNode r = .ok (node, r') ∧ node ∈ runningPool c.nodeGroups) ∨
      ∃ err, c.RandomNode r = .error err) ∧
    ((∀ e ∈ c.nodeGroups, ¬ StoppedQueryFails e.2) →
      randomNodePool c.NodeGroups [] = .ok (runningPool c.nodeGroups) ∧
      ((∃ node r', c.RandomNode r = .ok (node, r')) ↔ runningPool c.nodeGroups ≠ []) ∧
      (c.RandomNode r = .panic ↔ runningPool c.nodeGroups = [])) := by
  have hnode : (∀ e ∈ c.nodeGroups, ¬ StoppedQueryFails e.2) →
      runningPool c.nodeGroups ≠ [] →
      ∃ node r', c.RandomNode r = .ok (node, r') ∧ node ∈ runningPool c.nodeGroups := by
    intro hok hne
    obtain ⟨node, hget, hrun⟩ :=
      randomNode_of_pool c r hok (List.length_pos.mpr hne)
    exact ⟨node, _, hrun, List.mem_iff_getElem?.mpr ⟨_, hget⟩⟩
  refine ⟨runningPool_eq_nil_iff c.nodeGroups, ?_, ?_⟩
  · intro hne
    by_cases hf : ∃ e ∈ c.nodeGroups, StoppedQueryFails e.2
    · exact Or.inr ((randomNode_error_iff c r).mpr hf)
    · exact Or.inl (hnode (fun e he h => hf ⟨e, he, h⟩) hne)
  · intro hok
    refine ⟨randomNode_pool_eq c hok, ⟨?_, ?_⟩, ⟨?_, ?_⟩⟩
    · rintro ⟨node, r', hrun⟩ hnil
      rw [randomNode_empty_pool c r hok hnil] at hrun
      cases hrun
    · intro hne
      obtain ⟨node, r', hrun, _⟩ := hnode hok hne
      exact ⟨node, r', hrun⟩
    · intro hp
      by_contra hne
      obtain ⟨node, r', hrun, _⟩ := hnode hok hne
      rw [hrun] at hp
      cases hp
    · exact randomNode_empty_pool c r hok

/-- Witness for C22: in the cluster without groups no query can fail, and
`RandomNode` panics. -/
theorem randomNode_selection_in_range_witness :
    emptyCluster.RandomNode zeroRand = .panic :=
  ((randomNode_selection_in_range emptyCluster zeroRand).2.2
    (fun _ he => absurd he (List.not_mem_nil _))).2.2.mpr rfl

/-! ## Node names and client entries of a cluster -/

theorem foldl_append_keys (m : GoMap Node) (names : List String) :
    m.foldl (fun names kv => names ++ [kv.1]) names = names ++ mapKeys m := by
  induction m generalizing names with
  | nil => simp [mapKeys]
  | cons kv rest ih => simp [List.foldl_cons, ih, mapKeys]

theorem nodeNames_eq (c : Cluster A B S T) :
    c.NodeNames = c.nodeGroups.flatMap (fun e => mapKeys e.2.nodes) := by
  have key : ∀ (gs : GoMap (NodeGroup A B S T)) (acc : List String),
      gs.foldl (fun names ng => names ++ mapKeys ng.2.nodes) acc =
      acc ++ gs.flatMap (fun e => mapKeys e.2.nodes) := by
    intro gs
    induction gs with
    | nil => intro acc; simp
    | cons g rest ih =>
      intro acc
      simp only [List.foldl_cons, ih, List.flatMap_cons, List.append_assoc]
  simp only [Cluster.NodeNames, Cluster.NodeGroups, NodeGroup.getNodes, foldl_append_keys]
  simpa using key c.nodeGroups []

theorem mem_nodeNames_iff (c : Cluster A B S T) (name : String) :
    name ∈ c.NodeNames ↔ ∃ e ∈ c.nodeGroups, name ∈ mapKeys e.2.nodes := by
  rw [nodeNames_eq]
  simp [List.mem_flatMap]

theorem mapGet_isSome_iff {V : Type} (m : GoMap V) (k : String) :
    (∃ v, mapGet m k = some v) ↔ k ∈ mapKeys m := by
  constructor
  · rintro ⟨v, hv⟩
    by_contra hk
    rw [mapGet_eq_none_of_not_mem m k hk] at hv
    cases hv
  · intro hk
    induction m with
    | nil => simp [mapKeys] at hk
    | cons e rest ih =>
      obtain ⟨a, b⟩ := e
      by_cases hka : k = a
      · exact ⟨b, by simp [mapGet, List.lookup, hka]⟩
      · have hk' : k ∈ mapKeys rest := by
          simpa [mapKeys, hka] using hk
        obtain ⟨v, hv⟩ := ih hk'
        refine ⟨v, ?_⟩
        have hbeq : (k == a) = false := by simpa using hka
        simpa [mapGet, List.lookup, hbeq] using hv

theorem mem_mapKeys_nodesClientsLoop (gs : GoMap (NodeGroup A B S T))
    (acc clients : GoMap Client) (h : nodesClientsLoop gs acc = .ok clients) (n : String) :
    n ∈ mapKeys clients ↔
      n ∈ mapKeys acc ∨ ∃ e ∈ gs, ∃ ngc, e.2.NodesClients = .ok ngc ∧ n ∈ mapKeys ngc := by
  induction gs generalizing acc with
  | nil =>
    simp only [nodesClientsLoop, Except.ok.injEq] at h
    simp [h]
  | cons g rest ih =>
    obtain ⟨name, ng⟩ := g
    simp only [nodesClientsLoop] at h
    cases hq : ng.NodesClients with
    | error e => simp [hq] at h
    | ok ngc =>
      simp only [hq] at h
      rw [ih (storeEntries ngc acc) h, mem_mapKeys_storeEntries]
      constructor
      · rintro ((hn | hn) | ⟨e, he, m, hm, hn⟩)
        · exact Or.inr ⟨(name, ng), List.mem_cons_self _ _, ngc, hq, hn⟩
        · exact Or.inl hn
        · exact Or.inr ⟨e, List.mem_cons_of_mem _ he, m, hm, hn⟩
      · rintro (hn | ⟨e, he, m, hm, hn⟩)
        · exact Or.inl (Or.inr hn)
        · rcases List.mem_cons.mp he with rfl | he
          · rw [hq] at hm
            cases hm
            exact Or.inl (Or.inl hn)
          · exact Or.inr ⟨e, he, m, hm, hn⟩

theorem nodesClients_groups_ok (gs : GoMap (NodeGroup A B S T))
    (acc clients : GoMap Client) (h : nodesClientsLoop gs acc = .ok clients) :
    ∀ e ∈ gs, ∃ ngc, e.2.NodesClients = .ok ngc := by
  induction gs generalizing acc with
  | nil => intro e he; cases he
  | cons g rest ih =>
    obtain ⟨name, ng⟩ := g
    simp only [nodesClientsLoop] at h
    cases hq : ng.NodesClients with
    | error e => simp [hq] at h
    | ok ngc =>
      simp only [hq] at h
      intro e he
      rcases List.mem_cons.mp he with rfl | he
      · exact ⟨ngc, hq⟩
      · exact ih _ h e he

theorem nodeNames_have_clients (c : Cluster A B S T) (clients : GoMap Client)
    (hc : c.NodesClients = .ok clients) (hall : EveryNodeHasClient c) :
    ∀ name ∈ c.NodeNames, ∃ cl, mapGet clients name = some cl := by
  intro name hname
  obtain ⟨e, he, hn⟩ := (mem_nodeNames_iff c name).mp hname
  obtain ⟨ngc, hq⟩ := nodesClients_groups_ok c.nodeGroups [] clients hc e he
  exact (mapGet_isSome_iff clients name).mpr
    ((mem_mapKeys_nodesClientsLoop c.nodeGroups [] clients hc name).mpr
      (Or.inr ⟨e, he, ngc, hq, hall e he ngc hq name hn⟩))

/-! ## The simulation: the download node -/

theorem simChunk_download_unresolved (env : Env) (o : SimOptions) (clients : GoMap Client)
    (overlays : GoMap Address) (sortedNodes : List String) (nodeName : String)
    (client : Client) (batchID : String) (i : Nat) (st : RunState) (r : Rand) (chunk : Chunk)
    (tag : Nat) (ref : Address) (draw : Nat × Rand) (downloadNode : String)
    (hr : st.rnds[i]? = some r)
    (hc : (env.NewRandomChunk r).1 = .ok chunk)
    (ht : env.api.CreateTag st.calls client = .ok tag)
    (hu : env.api.UploadChunk (st.calls + 1) client chunk.data batchID tag = .ok ref)
    (hs : env.api.WaitSync (st.calls + 2) client tag = none)
    (hd : (env.NewRandomChunk r).2.Intn sortedNodes.length = some draw)
    (hn : sortedNodes[draw.1]? = some downloadNode)
    (hdl : mapGet clients downloadNode = none) :
    (simChunk env o clients overlays sortedNodes nodeName client batchID i st).1 = .panic := by
  have hget := getElem?_set_self' st.rnds i r (env.NewRandomChunk r).2 hr
  simp only [simChunk, hr, hc, ht, calls_call, calls_inc, rnds_call, rnds_inc, hu, hs, hget,
    hd, hn, hdl]

theorem drawsRand_Intn (k n : Nat) (hk : k < n) :
    (drawsRand k k).Intn n = some (k, { drawsRand k k with hist := [n] }) := by
  have hpos : 0 < n := Nat.lt_of_le_of_lt (Nat.zero_le k) hk
  simp [Rand.Intn, drawsRand, hpos, Nat.mod_eq_of_lt hk]

/-- C23: in a chunk of the simulation whose tag, upload and sync succeed, the
download node is `sortedNodes[k]` with `k` drawn by `Intn(len(sortedNodes))`
from the generator of the upload node, so `k` lies in `[0, len)`; the chunk is
downloaded through the client the map of `NodesClients` holds for that name,
and the lookup fails (a panic) when the map has no entry for it. Every index,
that of the upload node included, is drawn by some generator. The chunk step
is free of panics for every generator and all node answers if and only if
every node name of the cluster has an entry in the client map. The client map
holds exactly the names that the groups answer to `NodesClients`, so every
node name has an entry when no node is missing from the answer of its group. -/
theorem simulation_download_node_resolved_iff (c : Cluster A B S T) (o : SimOptions)
    (clients : GoMap Client) (overlays : GoMap Address)
    (hc : c.NodesClients = .ok clients) (hpos : 0 < c.NodeNames.length) :
    (∀ env nodeName client batchID i st r chunk tag ref,
      st.rnds[i]? = some r → (env.NewRandomChunk r).1 = .ok chunk →
      env.api.CreateTag st.calls client = .ok tag →
      env.api.UploadChunk (st.calls + 1) client chunk.data batchID tag = .ok ref →
      env.api.WaitSync (st.calls + 2) client tag = none →
      ∃ k r' downloadNode, k < c.NodeNames.length ∧
        (env.NewRandomChunk r).2.Intn c.NodeNames.length = some (k, r') ∧
        c.NodeNames[k]? = some downloadNode ∧
        (mapGet clients downloadNode = none →
          (simChunk env o clients overlays c.NodeNames nodeName client batchID i st).1 =
            .panic) ∧
        ∀ dl, mapGet clients downloadNode = some dl →
          ∃ st', simChunk env o clients overlays c.NodeNames nodeName client batchID i st =
              (.next, st') ∧
            Event.call dl (.DownloadChunk ref) ∈ st'.trace) ∧
    (∀ k, k < c.NodeNames.length →
      ∃ r r', Rand.Intn r c.NodeNames.length = some (k, r')) ∧
    ((∀ env nodeName client batchID i st, i < st.rnds.length →
        (simChunk env o clients overlays c.NodeNames nodeName client batchID i st).1 ≠
          .panic) ↔
      ∀ name ∈ c.NodeNames, ∃ cl, mapGet clients name = some cl) ∧
    (∀ n, n ∈ mapKeys clients ↔
      ∃ e ∈ c.nodeGroups, ∃ ngc, e.2.NodesClients = .ok ngc ∧ n ∈ mapKeys ngc) ∧
    (EveryNodeHasClient c → ∀ name ∈ c.NodeNames, ∃ cl, mapGet clients name = some cl) := by
  refine ⟨?_, ?_, ⟨?_, ?_⟩, ?_, nodeNames_have_clients c clients hc⟩
  · intro env nodeName client batchID i st r chunk tag ref hr hch ht hu hs
    have hlt := (env.NewRandomChunk r).2.gen_lt (env.NewRandomChunk r).2.hist
      c.NodeNames.length hpos
    have hd : (env.NewRandomChunk r).2.Intn c.NodeNames.length =
        some ((env.NewRandomChunk r).2.gen (env.NewRandomChunk r).2.hist c.NodeNames.length,
          { (env.NewRandomChunk r).2 with
            hist := (env.NewRandomChunk r).2.hist ++ [c.NodeNames.length] }) := by
      simp [Rand.Intn, hpos]
    have hn := List.getElem?_eq_getElem hlt
    refine ⟨_, _, _, hlt, hd, hn, ?_, ?_⟩
    · intro hdl
      exact simChunk_download_unresolved env o clients overlays c.NodeNames nodeName client
        batchID i st r chunk tag ref _ _ hr hch ht hu hs hd hn hdl
    · intro dl hdl
      cases he : env.api.DownloadChunk (st.calls + 3) dl ref with
      | error e =>
        obtain ⟨st', hrun, htr⟩ := simChunk_download_error env o clients overlays c.NodeNames
          nodeName client batchID i st r chunk tag ref _ _ dl e hr hch ht hu hs hd hn hdl he
        exact ⟨st', hrun, by rw [htr]; simp⟩
      | ok data =>
        obtain ⟨st', hrun, htr⟩ := simChunk_downloaded env o clients overlays c.NodeNames
          nodeName client batchID i st r chunk tag ref _ _ dl data hr hch ht hu hs hd hn hdl he
        exact ⟨st', hrun, by rw [htr]; simp⟩
  · intro k hk
    exact ⟨drawsRand k k, _, drawsRand_Intn k _ hk⟩
  · intro h name hname
    obtain ⟨k, hk, hget⟩ := List.getElem_of_mem hname
    cases hdl : mapGet clients name with
    | some cl => exact ⟨cl, rfl⟩
    | none =>
      exfalso
      refine h (exampleEnv syncedAPI) "" (Client.mk "") "" 0 { rnds := [drawsRand k k] }
        Nat.one_pos ?_
      exact simChunk_download_unresolved (exampleEnv syncedAPI) o clients overlays c.NodeNames
        "" (Client.mk "") "" 0 { rnds := [drawsRand k k] } (drawsRand k k)
        { data := [], address := Address.mk [3] } 7 (Address.mk [2]) _ name rfl rfl rfl rfl
        rfl (drawsRand_Intn k _ hk) (by rw [← hget]; exact List.getElem?_eq_getElem hk) hdl
  · intro hcl env nodeName client batchID i st hi
    rcases simChunk_step env o clients overlays c.NodeNames nodeName client batchID i st hi
      hpos hcl with h | ⟨e, _, h⟩
    · rw [h]; simp
    · rw [h]; simp
  · intro n
    rw [mem_mapKeys_nodesClientsLoop c.nodeGroups [] clients hc n]
    simp [mapKeys]

theorem soloCluster_everyNodeHasClient : EveryNodeHasClient soloCluster := by
  intro e he ngc hq n hn
  have he' : e = ("bee", runningGroup ["bee-0"]) := by
    simpa [soloCluster] using he
  subst he'
  have hq' : ngc = [("bee-0", Client.mk "bee-0")] := by
    simpa [runningGroup] using hq.symm
  subst hq'
  simpa [runningGroup, nodesNamed, mapKeys] using hn

/-- Witness for C23: in `soloCluster` the only node name `bee-0` has an entry
in the client map. -/
theorem simulation_download_node_resolved_iff_witness :
    soloCluster.NodesClients = .ok [("bee-0", Client.mk "bee-0")] ∧
      0 < soloCluster.NodeNames.length ∧
      ∃ cl, mapGet [("bee-0", Client.mk "bee-0")] "bee-0" = some cl :=
  ⟨rfl, by decide,
    (simulation_download_node_resolved_iff soloCluster {} [("bee-0", Client.mk "bee-0")] []
      rfl (by decide)).2.2.2.2 soloCluster_everyNodeHasClient "bee-0" (by decide)⟩

/-! ## Overlay entries of a cluster -/

theorem mem_mapKeys_flattenGroup {V : Type} (m res out : GoMap V)
    (h : flattenGroup m res = .ok out) (n : String) :
    n ∈ mapKeys out ↔ n ∈ mapKeys res ∨ n ∈ mapKeys m := by
  induction m generalizing res with
  | nil =>
    simp only [flattenGroup, Except.ok.injEq] at h
    simp [← h, mapKeys]
  | cons e rest ih =>
    obtain ⟨k, v⟩ := e
    simp only [flattenGroup] at h
    by_cases hf : mapFound res k = true
    · simp [hf] at h
    · simp only [hf, Bool.false_eq_true, if_false] at h
      rw [ih (mapSet res k v) h, mem_mapKeys_mapSet]
      simp only [mapKeys, List.map_cons, List.mem_cons]
      tauto

theorem mem_mapKeys_flattenGroups {V : Type} (gs : GoMap (GoMap V)) (res out : GoMap V)
    (h : flattenGroups [] gs res = .ok out) (n : String)
    (hn : n ∈ mapKeys res ∨ ∃ g ∈ gs, n ∈ mapKeys g.2) : n ∈ mapKeys out := by
  induction gs generalizing res with
  | nil =>
    simp only [flattenGroups, Except.ok.injEq] at h
    rcases hn with hn | ⟨g, hg, _⟩
    · exact h ▸ hn
    · cases hg
  | cons g rest ih =>
    obtain ⟨ngn, ngo⟩ := g
    simp only [flattenGroups, containsName_nil, Bool.false_eq_true, if_false] at h
    cases hq : flattenGroup ngo res with
    | error e => simp [hq] at h
    | ok res' =>
      simp only [hq] at h
      apply ih res' h
      rcases hn with hn | ⟨g, hg, hn⟩
      · exact Or.inl ((mem_mapKeys_flattenGroup ngo res res' hq n).mpr (Or.inl hn))
      · rcases List.mem_cons.mp hg with rfl | hg
        · exact Or.inl ((mem_mapKeys_flattenGroup ngo res res' hq n).mpr (Or.inr hn))
        · exact Or.inr ⟨g, hg, hn⟩

theorem nodeNames_have_overlays (c : Cluster A B S T)
    (ord : GoMap NodeGroupOverlays → GoMap NodeGroupOverlays) (overlays : GoMap Address)
    (hwf : MapWF c.nodeGroups) (hord : IsRangeOrder ord)
    (ho : c.FlattenOverlays ord [] = .ok overlays) (hall : EveryNodeHasOverlay c) :
    ∀ name ∈ c.NodeNames, ∃ a, mapGet overlays name = some a := by
  intro name hname
  obtain ⟨e, he, hn⟩ := (mem_nodeNames_iff c name).mp hname
  have hcontract := queryGroups_contract (fun g : NodeGroup A B S T => g.Overlays) []
    c.nodeGroups hwf
  simp only [Cluster.FlattenOverlays, Cluster.Overlays] at ho
  cases hq : queryGroups (fun v : NodeGroup A B S T => v.Overlays) [] c.nodeGroups [] with
  | error err => simp [hq] at ho
  | ok ovs =>
    simp only [hq] at ho
    rw [hq] at hcontract
    have hsucc : ∀ e ∈ includedGroups [] c.nodeGroups, ∃ a, e.2.Overlays = .ok a := by
      intro e' he'
      cases hov : e'.2.Overlays with
      | ok a => exact ⟨a, rfl⟩
      | error err =>
        obtain ⟨_, _, _, _, _, hbad⟩ := hcontract.2 ⟨e', he', err, hov⟩
        cases hbad
    obtain ⟨res, hres, _, hreswf, hentries⟩ := hcontract.1 hsucc
    cases hres
    obtain ⟨ov, hov, hget⟩ := hentries e (by rw [includedGroups_nil_exclude]; exact he)
    have hmem : (e.1, ov) ∈ ord ovs :=
      (hord ovs).mem_iff.mpr ((mapGet_eq_some_iff ovs hreswf e.1 ov).mp hget)
    exact (mapGet_isSome_iff overlays name).mpr
      (mem_mapKeys_flattenGroups (ord ovs) [] overlays ho name
        (Or.inr ⟨(e.1, ov), hmem, hall e he ov hov name hn⟩))

/-! ## The checks: defined indexes and lookups -/

theorem fullDownloads_step (env : Env) (o : CheckOptions) (overlays : GoMap Address)
    (nodeName : String) (file : File) (address : Address) (view : GoMap Client) :
    ∀ st, (fullDownloads env o overlays nodeName file address view st).2.rnds.length =
        st.rnds.length ∧
      (fullDownloads env o overlays nodeName file address view st).1 ≠ .panic := by
  induction view with
  | nil => intro st; simp [fullDownloads]
  | cons e rest ih =>
    obtain ⟨n, nc⟩ := e
    intro st
    simp only [fullDownloads]
    by_cases hn : n = nodeName
    · rw [if_pos hn]
      exact ih st
    · rw [if_neg hn]
      cases env.api.DownloadFile st.calls nc address with
      | error e => simp [rnds_call]
      | ok sizeHash =>
        simp only []
        by_cases hne : env.fileHash file ≠ sizeHash.2
        · rw [if_pos hne]
          simp [rnds_call, rnds_inc]
        · rw [if_neg hne]
          obtain ⟨h₁, h₂⟩ := ih ((((st.call nc (.DownloadFile address)).inc .downloaded
            (overlayLabel overlays nodeName)).inc .retrieved
            (overlayLabel overlays nodeName)).pushMetrics env o.MetricsPusher)
          refine ⟨?_, h₂⟩
          rw [h₁]
          simp [rnds_pushMetrics, rnds_inc, rnds_call]

theorem fullDownloads_length (env : Env) (o : CheckOptions) (overlays : GoMap Address)
    (nodeName : String) (file : File) (address : Address) (view : GoMap Client)
    (st : RunState) (n : Nat) (h : st.rnds.length = n) :
    (fullDownloads env o overlays nodeName file address view st).2.rnds.length = n ∧
      (fullDownloads env o overlays nodeName file address view st).1 ≠ .panic := by
  obtain ⟨h₁, h₂⟩ := fullDownloads_step env o overlays nodeName file address view st
  exact ⟨h₁.trans h, h₂⟩

theorem fullUnit_step (env : Env) (o : CheckOptions) (clients : GoMap Client)
    (overlays : GoMap Address) (view : GoMap Client → GoMap Client) (nodeName : String)
    (i j : Nat) (st : RunState) (hi : i < st.rnds.length)
    (hcl : ∃ cl, mapGet clients nodeName = some cl) :
    (fullUnit env o clients overlays view nodeName i j st).2.rnds.length = st.rnds.length ∧
      (fullUnit env o clients overlays view nodeName i j st).1 ≠ .panic := by
  have hr : st.rnds[i]? = some st.rnds[i] := List.getElem?_eq_getElem hi
  obtain ⟨up, hup⟩ := hcl
  simp only [fullUnit, hr, hup]
  cases env.api.CreatePostageBatch st.calls up o.PostageAmount
      (2 + env.EstimatePostageBatchDepth
        (env.NewRandomFile st.rnds[i] (fileName o i j) o.FileSize).1.size) o.GasPrice
      o.PostageLabel with
  | error e => simp [rnds_call, List.length_set]
  | ok batchID =>
    simp only [calls_call]
    cases env.api.UploadFile (st.calls + 1) up
        (env.NewRandomFile st.rnds[i] (fileName o i j) o.FileSize).1 batchID with
    | error e => simp [rnds_call, List.length_set]
    | ok address =>
      simp only []
      apply fullDownloads_length
      simp [rnds_inc, rnds_call, List.length_set]

theorem fullLoops_not_panic (env : Env) (o : CheckOptions) (clients : GoMap Client)
    (overlays : GoMap Address) (visit : Nat → Nat → GoMap Client → GoMap Client)
    (names : List String) (st : RunState)
    (hres : Resolved clients names o.UploadNodeCount st.rnds) :
    (fullLoops env o clients overlays visit names st).1 ≠ .panic := by
  obtain ⟨hn, hr, hcl⟩ := hres
  have key := forRange_invariant
    (fun i st =>
      match names[i]? with
      | none => (Step.panic, st)
      | some nodeName =>
        forRange (fun j st => fullUnit env o clients overlays (visit i j) nodeName i j st)
          (List.range o.FilesPerNode) st)
    (fun st => o.UploadNodeCount ≤ st.rnds.length) (fun _ => True)
    (List.range o.UploadNodeCount)
    (by
      intro i hi st' hst'
      have hi' : i < names.length := lt_of_lt_of_le (List.mem_range.mp hi) hn
      have hname : names[i]? = some names[i] := List.getElem?_eq_getElem hi'
      simp only [hname]
      exact forRange_invariant
        (fun j st => fullUnit env o clients overlays (visit i j) names[i] i j st)
        (fun st => o.UploadNodeCount ≤ st.rnds.length) (fun _ => True)
        (List.range o.FilesPerNode)
        (by
          intro j _ st'' hst''
          dsimp only
          obtain ⟨h₁, h₂⟩ := fullUnit_step env o clients overlays (visit i j) names[i] i j
            st'' (lt_of_lt_of_le (List.mem_range.mp hi) hst'')
            (hcl _ (List.getElem_mem hi'))
          refine ⟨by rw [h₁]; exact hst'', ?_⟩
          cases hs : (fullUnit env o clients overlays (visit i j) names[i] i j st'').1 with
          | next => exact Or.inl rfl
          | stop e => exact Or.inr ⟨e, trivial, rfl⟩
          | panic => exact absurd hs h₂)
        st' hst')
    st hr
  have hend : (fullLoops env o clients overlays visit names st).1 = .next ∨
      ∃ e, True ∧ (fullLoops env o clients overlays visit names st).1 = .stop e := key.2
  rcases hend with h | ⟨e, _, h⟩
  · rw [h]; simp
  · rw [h]; simp

theorem defaultLoops_not_panic (env : Env) (o : CheckOptions) (clients : GoMap Client)
    (overlays : GoMap Address) (names : List String) (lastNodeName : String) (last : Client)
    (st : RunState) (hlast : mapGet clients lastNodeName = some last)
    (hres : Resolved clients names o.UploadNodeCount st.rnds) :
    (defaultLoops env o clients overlays names lastNodeName st).1 ≠ .panic := by
  rw [defaultLoops_eq_forUnits env o clients overlays names lastNodeName hres.1]
  rcases forUnits_segments
      (fun u st => defaultUnit env o clients overlays ((names[u.1]?).getD "")
        lastNodeName u.1 u.2 st)
      (fun st => o.UploadNodeCount ≤ st.rnds.length)
      (RetrievedUnit env o clients overlays names last)
      (FailedUnit env o clients overlays names lastNodeName last)
      (unitIndex o.UploadNodeCount o.FilesPerNode)
      (fun u hu st hst => defaultUnit_segment env o clients overlays names lastNodeName
        last o.UploadNodeCount hres.1 hres.2.2 hlast u (mem_unitIndex _ _ u hu) st hst)
      st hres.2.1 with
    ⟨st', segs, hr, _⟩ | ⟨st', err, pre, u, post, segs, tail, _, hr, _⟩
  · rw [hr]; simp
  · rw [hr]; simp

theorem forRange_not_next (body : Nat → RunState → Step × RunState) (k : Nat)
    (hk : ∀ st, (body k st).1 = .panic) (is : List Nat) (hmem : k ∈ is) :
    ∀ st, (forRange body is st).1 ≠ .next := by
  induction is with
  | nil => cases hmem
  | cons i rest ih =>
    intro st
    rcases hb : body i st with ⟨step, st'⟩
    cases step with
    | next =>
      rw [forRange_cons_next body i rest st st' hb]
      rcases List.mem_cons.mp hmem with rfl | hrest
      · have := hk st
        rw [hb] at this
        cases this
      · exact ih hrest st'
    | stop e =>
      rw [forRange_cons_stop body i rest st st' e hb]
      simp
    | panic =>
      rw [forRange_cons_panic body i rest st st' hb]
      simp

theorem finishRun_ne_ok (r : Step × RunState) (h : r.1 ≠ .next) : (finishRun r).1 ≠ .ok () := by
  obtain ⟨step, st⟩ := r
  cases step with
  | next => exact absurd rfl h
  | stop e => simp [finishRun]
  | panic => simp [finishRun]

theorem finishRun_ne_panic (r : Step × RunState) (h : r.1 ≠ .panic) :
    (finishRun r).1 ≠ .panic := by
  obtain ⟨step, st⟩ := r
  cases step with
  | next => simp [finishRun]
  | stop e => simp [finishRun]
  | panic => exact absurd rfl h

theorem defaultLoops_not_next (env : Env) (o : CheckOptions) (clients : GoMap Client)
    (overlays : GoMap Address) (names : List String) (lastNodeName : String) (st : RunState)
    (h : names.length < o.UploadNodeCount) :
    (defaultLoops env o clients overlays names lastNodeName st).1 ≠ .next := by
  unfold defaultLoops
  apply forRange_not_next _ names.length ?_ _ (List.mem_range.mpr h)
  intro st'
  simp

theorem fullLoops_not_next (env : Env) (o : CheckOptions) (clients : GoMap Client)
    (overlays : GoMap Address) (visit : Nat → Nat → GoMap Client → GoMap Client)
    (names : List String) (st : RunState) (h : names.length < o.UploadNodeCount) :
    (fullLoops env o clients overlays visit names st).1 ≠ .next := by
  unfold fullLoops
  apply forRange_not_next _ names.length ?_ _ (List.mem_range.mpr h)
  intro st'
  simp

theorem fullLoops_nil (env : Env) (o : CheckOptions) (clients : GoMap Client)
    (overlays : GoMap Address) (visit : Nat → Nat → GoMap Client → GoMap Client)
    (st : RunState) (h : 0 < o.UploadNodeCount) :
    fullLoops env o clients overlays visit [] st = (.panic, st) := by
  unfold fullLoops
  obtain ⟨m, hm⟩ : ∃ m, o.UploadNodeCount = m + 1 := ⟨o.UploadNodeCount - 1, by omega⟩
  rw [hm, List.range_succ_eq_map]
  simp [forRange]

theorem outcome_of_ne_ok (r : Outcome Unit) (h : r ≠ .ok ()) :
    r = .panic ∨ ∃ err, r = .error err := by
  cases r with
  | ok u => exact absurd rfl h
  | error e => exact Or.inr ⟨e, rfl⟩
  | panic => exact Or.inl rfl

theorem forRange_append (body : Nat → RunState → Step × RunState) (l₁ l₂ : List Nat)
    (st : RunState) :
    forRange body (l₁ ++ l₂) st =
      match forRange body l₁ st with
      | (.next, st') => forRange body l₂ st'
      | (.stop err, st') => (.stop err, st')
      | (.panic, st') => (.panic, st') := by
  induction l₁ generalizing st with
  | nil => simp [forRange]
  | cons i rest ih =>
    simp only [List.cons_append, forRange]
    rcases hb : body i st with ⟨step, st'⟩
    cases step with
    | next => exact ih st'
    | stop e => rfl
    | panic => rfl

theorem range_split (len n : Nat) (h : len < n) :
    ∃ rest, List.range n = List.range len ++ len :: rest := by
  obtain ⟨d, rfl⟩ : ∃ d, n = len + (d + 1) := ⟨n - len - 1, by omega⟩
  refine ⟨(List.range d).map (fun x => len + (x + 1)), ?_⟩
  rw [List.range_add, List.range_succ_eq_map]
  simp [Function.comp_def]

theorem forRange_panicAfter (body : Nat → RunState → Step × RunState) (len n : Nat)
    (h : len < n) (hk : ∀ st, body len st = (.panic, st)) (st : RunState) :
    forRange body (List.range n) st = panicAfter (forRange body (List.range len) st) := by
  obtain ⟨rest, hrest⟩ := range_split len n h
  rw [hrest, forRange_append]
  rcases hb : forRange body (List.range len) st with ⟨step, st'⟩
  cases step with
  | next => simp [forRange, hk, panicAfter]
  | stop e => rfl
  | panic => rfl

theorem defaultLoops_panicAfter (env : Env) (o : CheckOptions) (clients : GoMap Client)
    (overlays : GoMap Address) (names : List String) (lastNodeName : String) (st : RunState)
    (h : names.length < o.UploadNodeCount) :
    defaultLoops env o clients overlays names lastNodeName st =
      panicAfter (defaultLoops env { o with UploadNodeCount := names.length } clients overlays
        names lastNodeName st) := by
  unfold defaultLoops
  exact forRange_panicAfter _ names.length o.UploadNodeCount h (fun st' => by simp) st

theorem fullDownloads_count (env : Env) (o : CheckOptions) (n : Nat)
    (overlays : GoMap Address) (nodeName : String) (file : File) (address : Address)
    (view : GoMap Client) :
    ∀ st, fullDownloads env { o with UploadNodeCount := n } overlays nodeName file address
        view st =
      fullDownloads env o overlays nodeName file address view st := by
  induction view with
  | nil => intro st; rfl
  | cons e rest ih =>
    obtain ⟨k, nc⟩ := e
    intro st
    simp only [fullDownloads, ih]

theorem fullUnit_count (env : Env) (o : CheckOptions) (n : Nat) (clients : GoMap Client)
    (overlays : GoMap Address) (view : GoMap Client → GoMap Client) (nodeName : String)
    (i j : Nat) (st : RunState) :
    fullUnit env { o with UploadNodeCount := n } clients overlays view nodeName i j st =
      fullUnit env o clients overlays view nodeName i j st := by
  simp only [fullUnit, fullDownloads_count, fileName]

theorem fullLoops_panicAfter (env : Env) (o : CheckOptions) (clients : GoMap Client)
    (overlays : GoMap Address) (visit : Nat → Nat → GoMap Client → GoMap Client)
    (names : List String) (st : RunState) (h : names.length < o.UploadNodeCount) :
    fullLoops env o clients overlays visit names st =
      panicAfter (fullLoops env { o with UploadNodeCount := names.length } clients overlays
        visit names st) := by
  unfold fullLoops
  simp only [fullUnit_count]
  refine forRange_panicAfter _ names.length o.UploadNodeCount h ?_ st
  intro st'
  simp

theorem fullLoops_zero (env : Env) (o : CheckOptions) (clients : GoMap Client)
    (overlays : GoMap Address) (visit : Nat → Nat → GoMap Client → GoMap Client)
    (names : List String) (st : RunState) (h : o.UploadNodeCount = 0) :
    fullLoops env o clients overlays visit names st = (.next, st) := by
  unfold fullLoops
  rw [h]
  rfl

/-- C21 (counterexample): two runs outside the precondition that end without
an index out of range.  In the cluster without nodes `fullCheck` with
`UploadNodeCount = 0` indexes nothing and returns nil.  In `soloCluster` with
`UploadNodeCount = 2`, more than its one node name, every upload is refused:
both checks return the error of the unit of `bee-0`. -/
theorem check_returns_outside_precondition :
    emptyCluster.NodeNames = [] ∧
      (fullCheck (exampleEnv syncedAPI) emptyCluster id (fun _ _ => id)
        { UploadNodeCount := 0 }).1 = .ok () ∧
      soloCluster.NodeNames = ["bee-0"] ∧
      (defaultCheck (exampleEnv uploadFailAPI) soloCluster id { UploadNodeCount := 2 }).1 =
        .error (.wrap "node bee-0" (.errorf "upload refused")) ∧
      (fullCheck (exampleEnv uploadFailAPI) soloCluster id (fun _ _ => id)
        { UploadNodeCount := 2 }).1 =
        .error (.wrap "node bee-0" (.errorf "upload refused")) :=
  ⟨rfl, rfl, rfl, rfl, rfl⟩

/-- C21 (amended): when the overlay and the client queries of the checks have
succeeded (which needs node names that are unique across groups), and the
cluster has at least one node, `UploadNodeCount` is at most the number of node
names, the generator list has `UploadNodeCount` entries and no node is missing
from the answers of its group (no node is stopped), then `sortedNodes[i]` and
`rnds[i]` exist for every `i < UploadNodeCount`, `sortedNodes[len-1]` exists,
the upload nodes and the last node have a client and an overlay entry, and
neither `defaultCheck` nor `fullCheck` panics.  In a cluster without nodes
`defaultCheck` panics at `sortedNodes[len-1]`; `fullCheck` panics at
`sortedNodes[0]` if `UploadNodeCount` is positive and returns nil if it is 0.
With `UploadNodeCount` greater than the number `len` of node names the index
`sortedNodes[len]` is out of range: the loops do what they do for the first
`len` upload nodes and then panic, so that no check returns nil, and a check
returns an error only if a unit of one of those nodes returns it. -/
theorem check_lookups_defined (env : Env) (c : Cluster A B S T)
    (ord : GoMap NodeGroupOverlays → GoMap NodeGroupOverlays)
    (visit : Nat → Nat → GoMap Client → GoMap Client) (o : CheckOptions)
    (overlays : GoMap Address) (clients : GoMap Client)
    (hwf : MapWF c.nodeGroups) (hord : IsRangeOrder ord)
    (ho : c.FlattenOverlays ord [] = .ok overlays) (hc : c.NodesClients = .ok clients) :
    (c.NodeNames ≠ [] → o.UploadNodeCount ≤ c.NodeNames.length →
      (env.PseudoGenerators o.Seed o.UploadNodeCount).length = o.UploadNodeCount →
      EveryNodeHasClient c → EveryNodeHasOverlay c →
      (∀ i, i < o.UploadNodeCount → ∃ nodeName r cl a,
        c.NodeNames[i]? = some nodeName ∧
        (env.PseudoGenerators o.Seed o.UploadNodeCount)[i]? = some r ∧
        mapGet clients nodeName = some cl ∧ mapGet overlays nodeName = some a) ∧
      (∃ lastNodeName cl a, c.NodeNames.getLast? = some lastNodeName ∧
        mapGet clients lastNodeName = some cl ∧ mapGet overlays lastNodeName = some a) ∧
      (defaultCheck env c ord o).1 ≠ .panic ∧
      (fullCheck env c ord visit o).1 ≠ .panic) ∧
    (c.NodeNames = [] →
      (defaultCheck env c ord o).1 = .panic ∧
      (0 < o.UploadNodeCount → (fullCheck env c ord visit o).1 = .panic) ∧
      (o.UploadNodeCount = 0 → (fullCheck env c ord visit o).1 = .ok ())) ∧
    (c.NodeNames.length < o.UploadNodeCount →
      c.NodeNames[c.NodeNames.length]? = none ∧
      ((defaultCheck env c ord o).1 = .panic ∨
        ∃ err, (defaultCheck env c ord o).1 = .error err) ∧
      ((fullCheck env c ord visit o).1 = .panic ∨
        ∃ err, (fullCheck env c ord visit o).1 = .error err) ∧
      (∀ lastNodeName st,
        defaultLoops env o clients overlays c.NodeNames lastNodeName st =
          panicAfter (defaultLoops env { o with UploadNodeCount := c.NodeNames.length }
            clients overlays c.NodeNames lastNodeName st)) ∧
      (∀ st,
        fullLoops env o clients overlays visit c.NodeNames st =
          panicAfter (fullLoops env { o with UploadNodeCount := c.NodeNames.length }
            clients overlays visit c.NodeNames st))) := by
  refine ⟨?_, ?_, ?_⟩
  · intro hne hN hlen hcli hov
    have hclients := nodeNames_have_clients c clients hc hcli
    have hovs := nodeNames_have_overlays c ord overlays hwf hord ho hov
    have hres : Resolved clients c.NodeNames o.UploadNodeCount
        (env.PseudoGenerators o.Seed o.UploadNodeCount) :=
      ⟨hN, le_of_eq hlen.symm, hclients⟩
    have hl : c.NodeNames.getLast? = some (c.NodeNames.getLast hne) :=
      List.getLast?_eq_getLast _ hne
    obtain ⟨last, hlast⟩ := hclients _ (List.getLast_mem hne)
    obtain ⟨lastOverlay, hlastOverlay⟩ := hovs _ (List.getLast_mem hne)
    refine ⟨?_, ⟨_, last, lastOverlay, hl, hlast, hlastOverlay⟩, ?_, ?_⟩
    · intro i hi
      have hi₁ : i < c.NodeNames.length := lt_of_lt_of_le hi hN
      have hi₂ : i < (env.PseudoGenerators o.Seed o.UploadNodeCount).length := by
        rw [hlen]; exact hi
      obtain ⟨cl, hcl⟩ := hclients _ (List.getElem_mem hi₁)
      obtain ⟨a, ha⟩ := hovs _ (List.getElem_mem hi₁)
      exact ⟨_, _, cl, a, List.getElem?_eq_getElem hi₁, List.getElem?_eq_getElem hi₂, hcl, ha⟩
    · simp only [defaultCheck, ho, hc, hl]
      exact finishRun_ne_panic _
        (defaultLoops_not_panic env o clients overlays c.NodeNames _ last _ hlast hres)
    · simp only [fullCheck, ho, hc]
      exact finishRun_ne_panic _
        (fullLoops_not_panic env o clients overlays visit c.NodeNames _ hres)
  · intro hnil
    refine ⟨by simp [defaultCheck, ho, hc, hnil], ?_, ?_⟩
    · intro hpos
      simp only [fullCheck, ho, hc, hnil, fullLoops_nil env o clients overlays visit _ hpos]
      rfl
    · intro hzero
      simp only [fullCheck, ho, hc, fullLoops_zero env o clients overlays visit _ _ hzero]
      rfl
  · intro hlt
    refine ⟨List.getElem?_eq_none (le_refl _), ?_, ?_,
      fun lastNodeName st =>
        defaultLoops_panicAfter env o clients overlays c.NodeNames lastNodeName st hlt,
      fun st => fullLoops_panicAfter env o clients overlays visit c.NodeNames st hlt⟩
    · apply outcome_of_ne_ok
      simp only [defaultCheck, ho, hc]
      cases hl : c.NodeNames.getLast? with
      | none => simp
      | some lastNodeName =>
        exact finishRun_ne_ok _
          (defaultLoops_not_next env o clients overlays c.NodeNames lastNodeName _ hlt)
    · apply outcome_of_ne_ok
      simp only [fullCheck, ho, hc]
      exact finishRun_ne_ok _ (fullLoops_not_next env o clients overlays visit c.NodeNames _ hlt)

theorem soloCluster_everyNodeHasOverlay : EveryNodeHasOverlay soloCluster := by
  intro e he ov hq n hn
  have he' : e = ("bee", runningGroup ["bee-0"]) := by
    simpa [soloCluster] using he
  subst he'
  simp only [runningGroup, Except.ok.injEq] at hq
  subst hq
  simpa [runningGroup, nodesNamed, mapKeys] using hn

/-- Witness for C21: in `soloCluster` with one upload node no check panics;
with two upload nodes the default check panics after the unit of `bee-0`; in
the cluster without groups the default check panics. -/
theorem check_lookups_defined_witness :
    ((defaultCheck (exampleEnv syncedAPI) soloCluster id {}).1 ≠ .panic ∧
      (fullCheck (exampleEnv syncedAPI) soloCluster id (fun _ _ => id) {}).1 ≠ .panic) ∧
    (defaultCheck (exampleEnv syncedAPI) soloCluster id { UploadNodeCount := 2 }).1 = .panic ∧
    (defaultCheck (exampleEnv syncedAPI) emptyCluster id {}).1 = .panic :=
  ⟨((check_lookups_defined (exampleEnv syncedAPI) soloCluster id (fun _ _ => id) {}
      [("bee-0", Address.mk [5])] [("bee-0", Client.mk "bee-0")]
      (by simp [MapWF, mapKeys, soloCluster]) (fun m => List.Perm.refl m) rfl rfl).1
      (by decide) (by decide) rfl soloCluster_everyNodeHasClient
      soloCluster_everyNodeHasOverlay).2.2,
    rfl,
    ((check_lookups_defined (exampleEnv syncedAPI) emptyCluster id (fun _ _ => id) {}
      [] [] List.nodup_nil (fun m => List.Perm.refl m) rfl rfl).2.1 rfl).1⟩

end Beekeeper
